import Mathlib

/-!
Shallow embedding of the UTXO ledger indexer (Fastify + Postgres service):
the block validator, the apply-block state mutator, the rollback rewinder
and the reset/balance routes, over an explicit in-memory state
(src/routes/blocks.ts, src/routes/rollback.ts, src/routes/balance.ts,
src/routes/additionalFunction.ts, src/index.ts) and an explicit model of
the five Postgres relations with the key constraints of src/db/schema
(blocks: id primary key, height unique; transactions: id primary key;
outputs: (txid, idx) primary key).

Modelling conventions:
* JS numbers that the accepted paths can carry are modelled as Nat/Int/Rat:
  block heights as Nat (a block with a fractional height can never be
  accepted, because the INTEGER column rejects it), the rollback target and
  currentHeight as Rat (the route does not check integrality of the parsed
  height, so currentHeight can become fractional), output values as Int
  (INTEGER column).  NaN / non-finite parsed rollback targets are the
  `none` case of an `Option Rat`.
* Balance-map values are modelled as `JVal` (number, string or NaN),
  because node-postgres returns the BIGINT result of
  SELECT COALESCE(SUM(value), 0) as a decimal string, the rollback route
  stores those strings into the in-memory balance map, and the JS `+` in
  the apply route concatenates instead of adding when the stored value is
  a string.
* Each pool.query call is one auto-committed statement; there is no
  BEGIN/COMMIT anywhere in the source, which the statement-list semantics
  `runStmts` makes explicit.
-/

namespace Indexer

/- Batteries marks Rat arithmetic irreducible for the elaborator; restore
unfolding so that concrete states containing Rat values evaluate (the
kernel, which checks the proofs, never respects irreducibility anyway). -/
set_option allowUnsafeReducibility true

attribute [local semireducible] Rat.add Rat.sub Rat.mul Rat.div Rat.inv

deriving instance DecidableEq for Except

/-! ### Association-list maps (JS Map / plain-object semantics) -/

/-- Lookup, first match (Map.get / object indexing). -/
def alGet {α : Type} : List (String × α) → String → Option α
  | [], _ => none
  | (k, v) :: rest, key => if k = key then some v else alGet rest key

/-- Map.set / object assignment: update in place, else append (JS insertion order). -/
def alSet {α : Type} : List (String × α) → String → α → List (String × α)
  | [], key, v => [(key, v)]
  | (k, w) :: rest, key, v =>
      if k = key then (key, v) :: rest else (k, w) :: alSet rest key v

/-- Map.delete: remove the entry with the given key. -/
def alDelete {α : Type} (l : List (String × α)) (key : String) : List (String × α) :=
  l.filter (fun e => !(e.1 == key))

/-! ### SHA-256 (crypto.createHash('sha256'), hex digest), over Nat mod 2^32 -/

def w32 (n : Nat) : Nat := n % 4294967296

def rotr (x n : Nat) : Nat := w32 ((x >>> n) ||| (x <<< (32 - n)))

def bxor (a b : Nat) : Nat := Nat.xor a b

def bnot32 (a : Nat) : Nat := 4294967295 - a

def bigSigma0 (x : Nat) : Nat := bxor (bxor (rotr x 2) (rotr x 13)) (rotr x 22)

def bigSigma1 (x : Nat) : Nat := bxor (bxor (rotr x 6) (rotr x 11)) (rotr x 25)

def smallSigma0 (x : Nat) : Nat := bxor (bxor (rotr x 7) (rotr x 18)) (x >>> 3)

def smallSigma1 (x : Nat) : Nat := bxor (bxor (rotr x 17) (rotr x 19)) (x >>> 10)

def chFn (x y z : Nat) : Nat := bxor (Nat.land x y) (Nat.land (bnot32 x) z)

def majFn (x y z : Nat) : Nat := bxor (bxor (Nat.land x y) (Nat.land x z)) (Nat.land y z)

def sha256K : List Nat :=
  [1116352408, 1899447441, 3049323471, 3921009573, 961987163, 1508970993,
   2453635748, 2870763221, 3624381080, 310598401, 607225278, 1426881987,
   1925078388, 2162078206, 2614888103, 3248222580, 3835390401, 4022224774,
   264347078, 604807628, 770255983, 1249150122, 1555081692, 1996064986,
   2554220882, 2821834349, 2952996808, 3210313671, 3336571891, 3584528711,
   113926993, 338241895, 666307205, 773529912, 1294757372, 1396182291,
   1695183700, 1986661051, 2177026350, 2456956037, 2730485921, 2820302411,
   3259730800, 3345764771, 3516065817, 3600352804, 4094571909, 275423344,
   430227734, 506948616, 659060556, 883997877, 958139571, 1322822218,
   1537002063, 1747873779, 1955562222, 2024104815, 2227730452, 2361852424,
   2428436474, 2756734187, 3204031479, 3329325298]

/-- UTF-8 encoding of one code point (hash input is the UTF-8 byte string). -/
def utf8Bytes (c : Char) : List Nat :=
  let n := c.toNat
  if n < 128 then [n]
  else if n < 2048 then [192 ||| (n >>> 6), 128 ||| (Nat.land n 63)]
  else if n < 65536 then
    [224 ||| (n >>> 12), 128 ||| (Nat.land (n >>> 6) 63), 128 ||| (Nat.land n 63)]
  else
    [240 ||| (n >>> 18), 128 ||| (Nat.land (n >>> 12) 63),
     128 ||| (Nat.land (n >>> 6) 63), 128 ||| (Nat.land n 63)]

def strBytes (s : String) : List Nat :=
  s.data.foldr (fun c acc => utf8Bytes c ++ acc) []

/-- Big-endian bytes of n, w bytes wide. -/
def beBytes (w n : Nat) : List Nat :=
  match w with
  | 0 => []
  | k + 1 => beBytes k (n >>> 8) ++ [Nat.land n 255]

/-- SHA-256 padding: 0x80, zeros, 64-bit big-endian bit length. -/
def shaPad (msg : List Nat) : List Nat :=
  let len := msg.length
  let padLen := (119 - (len % 64)) % 64 + 1
  msg ++ [128] ++ List.replicate (padLen - 1) 0 ++ beBytes 8 (len * 8)

/-- Group bytes into big-endian 32-bit words. -/
def toWords : List Nat → List Nat
  | b0 :: b1 :: b2 :: b3 :: rest =>
      (((b0 <<< 8 ||| b1) <<< 8 ||| b2) <<< 8 ||| b3) :: toWords rest
  | _ => []

/-- Extend the 16 message words to 64, accumulating in reverse. -/
def schedGo (acc : List Nat) : Nat → List Nat
  | 0 => acc.reverse
  | k + 1 =>
      let next := w32 (smallSigma1 (acc.getD 1 0) + acc.getD 6 0 +
                       smallSigma0 (acc.getD 14 0) + acc.getD 15 0)
      schedGo (next :: acc) k

def schedExt (ws : List Nat) (k : Nat) : List Nat := schedGo ws.reverse k

def roundStep (st : Nat × Nat × Nat × Nat × Nat × Nat × Nat × Nat) (kw : Nat × Nat) :
    Nat × Nat × Nat × Nat × Nat × Nat × Nat × Nat :=
  let (a, b, c, d, e, f, g, h) := st
  let (k, w) := kw
  let t1 := w32 (h + bigSigma1 e + chFn e f g + k + w)
  let t2 := w32 (bigSigma0 a + majFn a b c)
  (w32 (t1 + t2), a, b, c, w32 (d + t1), e, f, g)

def compress (h0 : Nat × Nat × Nat × Nat × Nat × Nat × Nat × Nat) (blockWords : List Nat) :
    Nat × Nat × Nat × Nat × Nat × Nat × Nat × Nat :=
  let ws := schedExt blockWords 48
  let (a, b, c, d, e, f, g, h) := (sha256K.zip ws).foldl roundStep h0
  let (a0, b0, c0, d0, e0, f0, g0, hh0) := h0
  (w32 (a + a0), w32 (b + b0), w32 (c + c0), w32 (d + d0),
   w32 (e + e0), w32 (f + f0), w32 (g + g0), w32 (h + hh0))

def chunks64Go : Nat → List Nat → List (List Nat)
  | 0, _ => []
  | _, [] => []
  | fuel + 1, l => l.take 64 :: chunks64Go fuel (l.drop 64)

def chunks64 (l : List Nat) : List (List Nat) := chunks64Go l.length l

def shaInit : Nat × Nat × Nat × Nat × Nat × Nat × Nat × Nat :=
  (1779033703, 3144134277, 1013904242, 2773480762,
   1359893119, 2600822924, 528734635, 1541459225)

def hexDigit (n : Nat) : Char :=
  if n < 10 then Char.ofNat (48 + n) else Char.ofNat (87 + n)

def hex8 (n : Nat) : List Char :=
  [hexDigit (Nat.land (n >>> 28) 15), hexDigit (Nat.land (n >>> 24) 15),
   hexDigit (Nat.land (n >>> 20) 15), hexDigit (Nat.land (n >>> 16) 15),
   hexDigit (Nat.land (n >>> 12) 15), hexDigit (Nat.land (n >>> 8) 15),
   hexDigit (Nat.land (n >>> 4) 15), hexDigit (Nat.land n 15)]

/-- Lowercase hex SHA-256 digest of the UTF-8 bytes of a string. -/
def sha256hex (s : String) : String :=
  let padded := shaPad (strBytes s)
  let blocks := chunks64 padded
  let (a, b, c, d, e, f, g, h) := blocks.foldl (fun st bl => compress st (toWords bl)) shaInit
  String.mk (hex8 a ++ hex8 b ++ hex8 c ++ hex8 d ++ hex8 e ++ hex8 f ++ hex8 g ++ hex8 h)

/-! ### Data model (src/interfaces.ts) -/

structure Output where
  address : String
  value : Int
deriving DecidableEq, Repr

structure Input where
  txId : String
  index : Nat
deriving DecidableEq, Repr

structure Transaction where
  id : String
  inputs : List Input
  outputs : List Output
deriving DecidableEq, Repr

structure Block where
  id : String
  height : Nat
  transactions : List Transaction
deriving DecidableEq, Repr

/-! ### JS balance values

The in-memory balance map can hold JS numbers or strings: rollback stores
the node-postgres text rendering of the BIGINT SUM into state.balances
(rollback.ts:68-72, 103-104), and the apply route then runs JS `+`/`-` on
whatever is stored (blocks.ts:86, 94). -/

inductive JVal where
  | num (n : Int)
  | nan
  | str (s : String)
deriving DecidableEq, Repr

/-- Decimal-digit run to a number. -/
def digitsValGo (acc : Nat) : List Char → Option Nat
  | [] => some acc
  | c :: rest =>
      if 48 ≤ c.toNat ∧ c.toNat ≤ 57 then digitsValGo (acc * 10 + (c.toNat - 48)) rest
      else none

/-- Parse an optionally-signed decimal integer string; none on anything else.
    This is the common behaviour of JS Number(s) and the Postgres INTEGER
    input parser on every string this system can produce (strings built
    from decimal renderings of integers by concatenation). -/
def parseIntStr (s : String) : Option Int :=
  match s.data with
  | [] => none
  | '-' :: ds =>
      match ds with
      | [] => none
      | _ => (digitsValGo 0 ds).map (fun n => -(n : Int))
  | ds => (digitsValGo 0 ds).map (fun n => (n : Int))

/-- One decimal digit character. -/
def decDigit (d : Nat) : Char :=
  match d with
  | 0 => '0' | 1 => '1' | 2 => '2' | 3 => '3' | 4 => '4'
  | 5 => '5' | 6 => '6' | 7 => '7' | 8 => '8' | _ => '9'

def natDigitsGo : Nat → Nat → List Char
  | 0, _ => []
  | _, 0 => []
  | fuel + 1, n + 1 => natDigitsGo fuel ((n + 1) / 10) ++ [decDigit ((n + 1) % 10)]

/-- Decimal rendering of a natural number (JS number toString). -/
def natDecimal (n : Nat) : String := if n = 0 then "0" else ⟨natDigitsGo n n⟩

/-- JS falsiness of a balance-map value (0, NaN and "" are falsy). -/
def jsFalsy : JVal → Bool
  | .num n => n == 0
  | .nan => true
  | .str s => s == ""

/-- JS `(x || 0)` where a missing key reads as undefined. -/
def jsOrZero (x : Option JVal) : JVal :=
  match x with
  | none => .num 0
  | some v => if jsFalsy v then .num 0 else v

/-- JS `x - v`: `-` coerces a string to a number (NaN if it does not parse). -/
def jsSubV (x : JVal) (v : Int) : JVal :=
  match x with
  | .num n => .num (n - v)
  | .nan => .nan
  | .str s =>
      match parseIntStr s with
      | some m => .num (m - v)
      | none => .nan

/-- JS number rendering of an integer. -/
def intReprJs (v : Int) : String :=
  if v < 0 then "-" ++ natDecimal v.natAbs else natDecimal v.natAbs

/-- JS `x + v`: concatenates when x is a string. -/
def jsAddV (x : JVal) (v : Int) : JVal :=
  match x with
  | .num n => .num (n + v)
  | .nan => .nan
  | .str s => .str (s ++ intReprJs v)

/-- Value Postgres stores for a JS value bound to an INTEGER parameter;
    none means the statement errors (NaN or a non-numeric string). -/
def dbIntOfJVal : JVal → Option Int
  | .num n => some n
  | .nan => none
  | .str s => parseIntStr s

/-! ### States -/

abbrev UtxoMap := List (String × Output)

abbrev BalMap := List (String × JVal)

/-- In-memory AppState (src/index.ts). -/
structure MemState where
  blocks : List Block
  currentHeight : ℚ
  balances : BalMap
  utxos : UtxoMap
deriving DecidableEq, Repr

/-- Row of the outputs relation. -/
structure OutRow where
  txid : String
  idx : Nat
  address : String
  value : Int
  is_spent : Bool
deriving DecidableEq, Repr

/-- The five Postgres relations (src/db/schema). -/
structure Store where
  blocks : List (String × Nat)
  transactions : List (String × String)
  inputs : List (String × String × Nat)
  outputs : List OutRow
  balances : List (String × Int)
deriving DecidableEq, Repr

structure FullState where
  mem : MemState
  store : Store
deriving DecidableEq, Repr

def initStore : Store := ⟨[], [], [], [], []⟩

def initState : FullState := ⟨⟨[], 0, [], []⟩, initStore⟩

/-! ### Block validation (blocks.ts:11-54) -/

def inputKey (i : Input) : String := i.txId ++ ":" ++ natDecimal i.index

def outputKey (txid : String) (idx : Nat) : String := txid ++ ":" ++ natDecimal idx

inductive VErr where
  | firstHeight
  | invalidHeight
  | inputNotFound (key : String)
  | valueMismatch
  | invalidBlockId (expected received hashInput : String)
deriving DecidableEq, Repr

/-- The sumInputs loop (blocks.ts:25-32): first missing UTXO key aborts. -/
def sumInputsE (utxos : UtxoMap) (acc : Int) : List Input → Except String Int
  | [] => .ok acc
  | i :: rest =>
      match alGet utxos (inputKey i) with
      | none => .error (inputKey i)
      | some u => sumInputsE utxos (acc + u.value) rest

def sumOutputsV (outs : List Output) : Int :=
  outs.foldl (fun a o => a + o.value) 0

/-- Body of one iteration of the transaction loop (blocks.ts:21-41): the
    input-existence scan of this transaction, then its conservation check. -/
def txCheck (utxos : UtxoMap) (t : Transaction) : Option VErr :=
  match sumInputsE utxos 0 t.inputs with
  | .error k => some (.inputNotFound k)
  | .ok sIn =>
      let sOut := sumOutputsV t.outputs
      if sIn ≠ sOut ∧ t.inputs ≠ [] then some .valueMismatch
      else none

/-- The per-transaction validation loop (blocks.ts:21-41): for each
    transaction in order, check its inputs exist, then its conservation;
    first failure wins. -/
def validateTxs (utxos : UtxoMap) : List Transaction → Option VErr
  | [] => none
  | t :: rest =>
      match txCheck utxos t with
      | some e => some e
      | none => validateTxs utxos rest

/-- Hash input: decimal height then the tx ids in order (blocks.ts:44-45). -/
def hashInputOf (b : Block) : String :=
  b.transactions.foldl (fun acc t => acc ++ t.id) (natDecimal b.height)

/-- Transaction checks then the block-id check (blocks.ts:20-54). -/
def validateBody (utxos : UtxoMap) (b : Block) : Option VErr :=
  match validateTxs utxos b.transactions with
  | some e => some e
  | none =>
      let dataToHash := hashInputOf b
      let expected := sha256hex dataToHash
      if b.id ≠ expected then some (.invalidBlockId expected b.id dataToHash) else none

/-- Full validator: height rule first (blocks.ts:12-18), then body. -/
def validateBlock (cur : ℚ) (utxos : UtxoMap) (b : Block) : Option VErr :=
  if cur = 0 then
    if b.height ≠ 1 then some .firstHeight else validateBody utxos b
  else if (b.height : ℚ) ≠ cur + 1 then some .invalidHeight
  else validateBody utxos b

/-! ### Store statements of the apply route (blocks.ts:56-78) -/

inductive DbStmt where
  | insBlock (id : String) (height : Nat)
  | insTx (id blockId : String)
  | insInput (txId spentTxid : String) (spentIdx : Nat)
  | markSpent (txid : String) (idx : Nat)
  | insOutput (txid : String) (idx : Nat) (address : String) (value : Int)
deriving DecidableEq, Repr

/-- One auto-committed statement; none = the statement errors (primary key
    or unique violation per src/db/schema). -/
def execStmt (st : Store) : DbStmt → Option Store
  | .insBlock i h =>
      if st.blocks.any (fun r => decide (r.1 = i ∨ r.2 = h)) then none
      else some { st with blocks := st.blocks ++ [(i, h)] }
  | .insTx i bid =>
      if st.transactions.any (fun r => decide (r.1 = i)) then none
      else some { st with transactions := st.transactions ++ [(i, bid)] }
  | .insInput t sp j =>
      some { st with inputs := st.inputs ++ [(t, sp, j)] }
  | .markSpent t j =>
      some { st with outputs :=
        st.outputs.map (fun r => if r.txid = t ∧ r.idx = j then { r with is_spent := true } else r) }
  | .insOutput t j a v =>
      if st.outputs.any (fun r => decide (r.txid = t ∧ r.idx = j)) then none
      else some { st with outputs := st.outputs ++ [⟨t, j, a, v, false⟩] }

/-- Run statements one by one; on an error, keep what already committed. -/
def runStmts (st : Store) : List DbStmt → Store × Bool
  | [] => (st, true)
  | s :: rest =>
      match execStmt st s with
      | none => (st, false)
      | some st2 => runStmts st2 rest

/-- Statements issued for one transaction (blocks.ts:61-77): the tx row,
    then per input an inputs row and the is_spent update, then the outputs. -/
def txStmts (blockId : String) (t : Transaction) : List DbStmt :=
  DbStmt.insTx t.id blockId ::
    (t.inputs.foldr
      (fun i acc => DbStmt.insInput t.id i.txId i.index :: DbStmt.markSpent i.txId i.index :: acc)
      []) ++
    (t.outputs.enum.map (fun p => DbStmt.insOutput t.id p.1 p.2.address p.2.value))

/-- Statements issued for a block (blocks.ts:58-78): block row then txs. -/
def blockStmts (b : Block) : List DbStmt :=
  DbStmt.insBlock b.id b.height ::
    (b.transactions.map (txStmts b.id)).flatten

/-! ### In-memory mutation of the apply route (blocks.ts:80-96) -/

/-- Input handling: subtract only if the key is found, delete unconditionally. -/
def memSpend (m : UtxoMap × BalMap) (i : Input) : UtxoMap × BalMap :=
  let k := inputKey i
  match alGet m.1 k with
  | some u =>
      (alDelete m.1 k,
       alSet m.2 u.address (jsSubV (jsOrZero (alGet m.2 u.address)) u.value))
  | none => (alDelete m.1 k, m.2)

/-- Output handling: insert the UTXO and credit the address. -/
def memCredit (txid : String) (m : UtxoMap × BalMap) (p : Nat × Output) : UtxoMap × BalMap :=
  (alSet m.1 (outputKey txid p.1) p.2,
   alSet m.2 p.2.address (jsAddV (jsOrZero (alGet m.2 p.2.address)) p.2.value))

def memApplyTx (m : UtxoMap × BalMap) (t : Transaction) : UtxoMap × BalMap :=
  (t.outputs.enum).foldl (memCredit t.id) (t.inputs.foldl memSpend m)

def memApplyBlock (m : UtxoMap × BalMap) (b : Block) : UtxoMap × BalMap :=
  b.transactions.foldl memApplyTx m

/-- Balance snapshot persistence (blocks.ts:98-105): upsert every entry of
    the in-memory balance map; a NaN or non-numeric string value makes the
    statement error. -/
def upsertBals (st : Store) : BalMap → Store × Bool
  | [] => (st, true)
  | (a, v) :: rest =>
      match dbIntOfJVal v with
      | none => (st, false)
      | some n => upsertBals { st with balances := alSet st.balances a n } rest

inductive BlockErr where
  | val (e : VErr)
  | storeFail
deriving DecidableEq, Repr

/-- POST /blocks (blocks.ts:7-115).  Validation first (no state change on a
    400); then the insert statements; then the in-memory utxo/balance
    update; then the balance upserts; finally the block list append and
    currentHeight update.  A statement error gives a 500 with everything
    already executed kept (there is no transaction and the catch block only
    logs), faithfully leaving partial effects in the returned state. -/
def postBlock (s : FullState) (b : Block) : FullState × Option BlockErr :=
  match validateBlock s.mem.currentHeight s.mem.utxos b with
  | some e => (s, some (.val e))
  | none =>
      match runStmts s.store (blockStmts b) with
      | (st1, false) => (⟨s.mem, st1⟩, some .storeFail)
      | (st1, true) =>
          let m := memApplyBlock (s.mem.utxos, s.mem.balances) b
          match upsertBals st1 m.2 with
          | (st2, false) =>
              (⟨⟨s.mem.blocks, s.mem.currentHeight, m.2, m.1⟩, st2⟩, some .storeFail)
          | (st2, true) =>
              (⟨⟨s.mem.blocks ++ [b], (b.height : ℚ), m.2, m.1⟩, st2⟩, none)

/-! ### Rollback (rollback.ts) -/

inductive RbErr where
  | invalidParam
  | targetAbove
deriving DecidableEq, Repr

/-- SELECT t.id FROM transactions t JOIN blocks b ... WHERE b.height > q
    (rollback.ts:19-25). -/
def doomedTxIds (st : Store) (q : ℚ) : List String :=
  (st.transactions.filter
    (fun tr => st.blocks.any (fun br => decide (br.1 = tr.2 ∧ (br.2 : ℚ) > q)))).map (·.1)

/-- UPDATE outputs SET is_spent = FALSE for outputs referenced by inputs of
    doomed transactions (rollback.ts:27-38); skipped when none are doomed. -/
def resurrectOutputs (st : Store) (doomed : List String) : Store :=
  if doomed.isEmpty then st
  else
    let keys := (st.inputs.filter (fun r => doomed.contains r.1)).map (fun r => (r.2.1, r.2.2))
    { st with outputs :=
        st.outputs.map (fun r =>
          if keys.contains (r.txid, r.idx) then { r with is_spent := false } else r) }

/-- DELETE FROM outputs WHERE txid IN doomed (rollback.ts:40-46). -/
def deleteOutputsOf (st : Store) (doomed : List String) : Store :=
  if doomed.isEmpty then st
  else { st with outputs := st.outputs.filter (fun r => !(doomed.contains r.txid)) }

/-- DELETE FROM blocks WHERE height > q (rollback.ts:48), with the schema
    cascades: transactions of deleted blocks go, and inputs of those
    transactions go. -/
def deleteBlocksAbove (st : Store) (q : ℚ) : Store :=
  let deadB := (st.blocks.filter (fun br => decide ((br.2 : ℚ) > q))).map (·.1)
  let deadT := (st.transactions.filter (fun tr => deadB.contains tr.2)).map (·.1)
  { st with
      blocks := st.blocks.filter (fun br => !(decide ((br.2 : ℚ) > q))),
      transactions := st.transactions.filter (fun tr => !(deadB.contains tr.2)),
      inputs := st.inputs.filter (fun r => !(deadT.contains r.1)) }

/-- DELETE FROM inputs WHERE tx_id IN doomed (rollback.ts:50-56). -/
def deleteInputsOf (st : Store) (doomed : List String) : Store :=
  if doomed.isEmpty then st
  else { st with inputs := st.inputs.filter (fun r => !(doomed.contains r.1)) }

/-- SELECT address, COALESCE(SUM(value), 0) FROM outputs WHERE is_spent =
    FALSE GROUP BY address (rollback.ts:59-64), groups in first-appearance
    order (the query has no ORDER BY; only lookups are observed). -/
def aggUnspent (rows : List OutRow) : List (String × Int) :=
  rows.foldl
    (fun acc r =>
      if r.is_spent then acc
      else alSet acc r.address ((alGet acc r.address).getD 0 + r.value))
    []

/-- Rebuild-loop input handling (rollback.ts:82-89): subtract and delete
    only when the key is found. -/
def rebuildSpend (m : UtxoMap × BalMap) (i : Input) : UtxoMap × BalMap :=
  let k := inputKey i
  match alGet m.1 k with
  | some u =>
      (alDelete m.1 k,
       alSet m.2 u.address (jsSubV (jsOrZero (alGet m.2 u.address)) u.value))
  | none => m

def rebuildTx (m : UtxoMap × BalMap) (t : Transaction) : UtxoMap × BalMap :=
  (t.outputs.enum).foldl (memCredit t.id) (t.inputs.foldl rebuildSpend m)

/-- Replay of the kept blocks into fresh maps (rollback.ts:74-97). -/
def rebuildMem (bs : List Block) : UtxoMap × BalMap :=
  bs.foldl (fun m b => b.transactions.foldl rebuildTx m) ([], [])

/-- POST /rollback (rollback.ts:6-114).  The parsed query height is an
    Option Rat (none for NaN/Infinity); the guards check only finiteness
    and >= 1, not integrality.  On success: the store deletions, the
    balance rebuild from the store (whose SUM the driver returns as a
    string: newBalances gets JVal.str values while the balances relation
    stores the parsed integers), and the in-memory swap.  The rebuilt
    rebuiltBalances map of rollback.ts:78-96 is computed and then discarded
    by the source (state.balances gets newBalances, rollback.ts:103-104),
    so only its utxo component appears here. -/
def postRollback (s : FullState) (target : Option ℚ) : FullState × Option RbErr :=
  match target with
  | none => (s, some .invalidParam)
  | some q =>
      if q < 1 then (s, some .invalidParam)
      else if q > s.mem.currentHeight then (s, some .targetAbove)
      else
        let doomed := doomedTxIds s.store q
        let st1 := resurrectOutputs s.store doomed
        let st2 := deleteOutputsOf st1 doomed
        let st3 := deleteBlocksAbove st2 q
        let st4 := deleteInputsOf st3 doomed
        let agg := aggUnspent st4.outputs
        let st5 := { st4 with balances := agg }
        let newBalances : BalMap := agg.map (fun e => (e.1, JVal.str (intReprJs e.2)))
        let kept := s.mem.blocks.filter (fun bl => decide ((bl.height : ℚ) ≤ q))
        let m := rebuildMem kept
        (⟨⟨kept, q, newBalances, m.1⟩, st5⟩, none)

/-- The store after the rollback deletions (rollback.ts:27-56), before the
    balances rebuild. -/
def rollbackStore (st : Store) (q : ℚ) : Store :=
  deleteInputsOf
    (deleteBlocksAbove
      (deleteOutputsOf (resurrectOutputs st (doomedTxIds st q)) (doomedTxIds st q)) q)
    (doomedTxIds st q)

/-! ### Reset and balance query -/

/-- POST /reset (additionalFunction.ts): delete every row, clear the index. -/
def postReset (_s : FullState) : FullState := initState

/-- GET /balance/:address (balance.ts:5-16): read the balances relation,
    absent means 0. -/
def getBalance (s : FullState) (a : String) : Int :=
  match alGet s.store.balances a with
  | some v => v
  | none => 0

/-! ### Histories of accepted operations -/

inductive Op where
  | blockOp (b : Block)
  | rollbackOp (target : Option ℚ)
  | resetOp

/-- One request; the Bool is acceptance (a 200 response). -/
def stepOp (s : FullState) : Op → FullState × Bool
  | .blockOp b => let r := postBlock s b; (r.1, r.2.isNone)
  | .rollbackOp t => let r := postRollback s t; (r.1, r.2.isNone)
  | .resetOp => (postReset s, true)

/-- States reachable from a fresh instance through accepted operations. -/
inductive Reach : FullState → Prop where
  | init : Reach initState
  | step {s : FullState} (op : Op) : Reach s → (stepOp s op).2 = true → Reach (stepOp s op).1

/-- Chain of accepted block submissions; none if any is rejected. -/
def applyChain (s : FullState) : List Block → Option FullState
  | [] => some s
  | b :: rest =>
      match postBlock s b with
      | (s2, none) => applyChain s2 rest
      | _ => none

/-- Run a request list, requiring every one to be accepted. -/
def runOps (s : FullState) : List Op → Option FullState
  | [] => some s
  | op :: rest =>
      let r := stepOp s op
      if r.2 then runOps r.1 rest else none

/-! ### Failure-path views (no BEGIN/COMMIT exists in the source, so a
    thrown statement leaves all earlier statements committed; the catch
    handlers only log and reply 500) -/

/-- Store contents observable when the apply route throws after its first m
    insert statements executed (blocks.ts:56-78 run one pool.query at a
    time; the catch at blocks.ts:111-114 performs no compensating writes). -/
def applyStoreAfterN (s : FullState) (b : Block) (m : Nat) : Store :=
  (runStmts s.store ((blockStmts b).take m)).1

/-- State observable when the first balance upsert (blocks.ts:99-105)
    throws: the insert statements committed, the in-memory utxo and balance
    maps were already mutated (blocks.ts:80-96), but state.blocks and
    state.currentHeight (blocks.ts:107-108) were not updated. -/
def applyFailAtBalances (s : FullState) (b : Block) : FullState :=
  let st1 := (runStmts s.store (blockStmts b)).1
  let m := memApplyBlock (s.mem.utxos, s.mem.balances) b
  ⟨⟨s.mem.blocks, s.mem.currentHeight, m.2, m.1⟩, st1⟩

/-- State observable when the rollback route throws right after DELETE FROM
    balances (rollback.ts:66): the resurrect/delete statements and the
    balances wipe are committed, the re-inserts and the in-memory swap
    (rollback.ts:69-107) never ran. -/
def rollbackFailAfterBalancesDelete (s : FullState) (q : ℚ) : FullState :=
  let doomed := doomedTxIds s.store q
  let st4 := deleteInputsOf (deleteBlocksAbove (deleteOutputsOf (resurrectOutputs s.store doomed) doomed) q) doomed
  ⟨s.mem, { st4 with balances := [] }⟩

/-! ### Specification-side readings -/

/-- All transactions of a journal in order. -/
def journalTxs (bs : List Block) : List Transaction :=
  (bs.map (·.transactions)).flatten

/-- First produced output with the given key, scanning the journal. -/
def producedLookup (bs : List Block) (k : String) : Option Output :=
  alGet (((journalTxs bs).map
    (fun t => (t.outputs.enum).map (fun p => (outputKey t.id p.1, p.2)))).flatten) k

/-- Does any input of any journal transaction reference the key? -/
def isSpentIn (bs : List Block) (k : String) : Bool :=
  (journalTxs bs).any (fun t => t.inputs.any (fun i => inputKey i == k))

/-- The claim's reading of the UTXO set: outputs produced by journal
    transactions and not spent by any journal input. -/
def specUnspent (bs : List Block) (k : String) : Option Output :=
  if isSpentIn bs k then none else producedLookup bs k

/-- Bool form of the height rule (blocks.ts:12-18). -/
def heightOkB (cur : ℚ) (b : Block) : Bool :=
  if cur = 0 then b.height == 1 else decide ((b.height : ℚ) = cur + 1)

/-- Does some input of some transaction of the block reference the key? -/
def referencesKey (b : Block) (k : String) : Bool :=
  b.transactions.any (fun t => t.inputs.any (fun i => inputKey i == k))

/-- Sum of the values of the in-memory unspent outputs of one address. -/
def utxoAgg (u : UtxoMap) (a : String) : Int :=
  ((u.filter (fun e => e.2.address == a)).map (fun e => e.2.value)).sum

/-- Numeric reading of a balance-map value (a stored decimal string reads
    as its value; NaN has no numeric reading and reads 0). -/
def jvalZ : JVal → Int
  | .num n => n
  | .nan => 0
  | .str s => (parseIntStr s).getD 0

/-- Balance-map entry of an address with absent treated as 0. -/
def obsBal (bal : BalMap) (a : String) : Int :=
  match alGet bal a with
  | some v => jvalZ v
  | none => 0

/-- Sum of the values of the unspent output rows of one address. -/
def sumUnspentAt (rows : List OutRow) (a : String) : Int :=
  ((rows.filter (fun r => !r.is_spent && r.address == a)).map (·.value)).sum

/-- Does the address own at least one unspent output row? -/
def hasUnspentAt (rows : List OutRow) (a : String) : Bool :=
  rows.any (fun r => !r.is_spent && r.address == a)

/-! ### Journal formulas: the store relations and the in-memory maps as
    functions of the accepted-block journal -/

def journalTxIds (bs : List Block) : List String := (journalTxs bs).map (·.id)

def blockIds (bs : List Block) : List String := bs.map (·.id)

/-- Replay of the apply route's in-memory phase over a journal. -/
def memOfJournal (bs : List Block) : UtxoMap × BalMap := bs.foldl memApplyBlock ([], [])

def blocksTable (bs : List Block) : List (String × Nat) := bs.map (fun b => (b.id, b.height))

def txsTable (bs : List Block) : List (String × String) :=
  (bs.map (fun b => b.transactions.map (fun t => (t.id, b.id)))).flatten

def inputRowsOf (ts : List Transaction) : List (String × String × Nat) :=
  (ts.map (fun t => t.inputs.map (fun i => (t.id, i.txId, i.index)))).flatten

def inputsTable (bs : List Block) : List (String × String × Nat) :=
  inputRowsOf (journalTxs bs)

/-- Output rows of one transaction in insertion order, unspent. -/
def outRowsOf (t : Transaction) : List OutRow :=
  t.outputs.enum.map (fun p => ⟨t.id, p.1, p.2.address, p.2.value, false⟩)

def outRows (bs : List Block) : List OutRow := ((journalTxs bs).map outRowsOf).flatten

/-- (txid, idx) pairs referenced by the inputs of a transaction list. -/
def spentPairs (ts : List Transaction) : List (String × Nat) :=
  (ts.map (fun t => t.inputs.map (fun i => (i.txId, i.index)))).flatten

def inputPairs (ins : List Input) : List (String × Nat) :=
  ins.map (fun i => (i.txId, i.index))

/-- Mark as spent every row whose (txid, idx) is in the list. -/
def markRows (rows : List OutRow) (prs : List (String × Nat)) : List OutRow :=
  rows.map (fun r => if prs.contains (r.txid, r.idx) then { r with is_spent := true } else r)

/-- Effect on the outputs relation of one transaction's statements: the
    is_spent updates of its inputs, then its inserted rows. -/
def applyTxRows (rows : List OutRow) (t : Transaction) : List OutRow :=
  markRows rows (inputPairs t.inputs) ++ outRowsOf t

/-- Rows of the outputs relation determined by a journal: every produced
    output, marked spent when some journal input references it. -/
def outRowsFlagged (bs : List Block) : List OutRow :=
  markRows (outRows bs) (spentPairs (journalTxs bs))

def rowEntry (r : OutRow) : String × Output := (outputKey r.txid r.idx, ⟨r.address, r.value⟩)

/-- The in-memory utxo map entries corresponding to the unspent rows. -/
def unspentEntries (rows : List OutRow) : UtxoMap :=
  (rows.filter (fun r => !r.is_spent)).map rowEntry

/-- Well-formedness of the in-memory maps: unique utxo keys, numeric
    balance values with unique keys, and the balance-derivation sums. -/
def MapsInv (m : UtxoMap × BalMap) : Prop :=
  (m.1.map (·.1)).Nodup ∧
  (∀ e ∈ m.2, ∃ n, e.2 = JVal.num n) ∧
  (m.2.map (·.1)).Nodup ∧
  (∀ a, obsBal m.2 a = utxoAgg m.1 a)

/-- Invariant tying a pure chain state (a state produced by accepted block
    submissions only, no rollback) to its journal. -/
structure ChainInv (bs : List Block) (s : FullState) : Prop where
  blocksEq : s.mem.blocks = bs
  heights : bs.map (·.height) = List.range' 1 bs.length
  curEq : s.mem.currentHeight = (bs.length : ℚ)
  txNodup : (journalTxIds bs).Nodup
  bidNodup : (blockIds bs).Nodup
  memEq : (s.mem.utxos, s.mem.balances) = memOfJournal bs
  storeBlocks : s.store.blocks = blocksTable bs
  storeTxs : s.store.transactions = txsTable bs
  storeInputs : s.store.inputs = inputsTable bs
  storeOutputs : s.store.outputs = outRowsFlagged bs
  storeBal : ∀ a, alGet s.store.balances a = (alGet (memOfJournal bs).2 a).map jvalZ
  utxoRows : (memOfJournal bs).1 = unspentEntries (outRowsFlagged bs)
  prodNodup : ((outRows bs).map (fun r => outputKey r.txid r.idx)).Nodup
  maps : MapsInv (memOfJournal bs)
  refsValid : ∀ p b2, bs.get? p = some b2 → ∀ t ∈ b2.transactions, ∀ i ∈ t.inputs,
    specUnspent (bs.take p) (inputKey i) ≠ none

/-- Invariant of every state reachable through accepted operations: the
    journal replays from empty, the in-memory utxo map and the store
    relations are those of the journal, the balance map upserts cleanly,
    and currentHeight lies in [n, n+1) (it can be fractional after a
    fractional rollback). -/
def ReachInv (s : FullState) : Prop :=
  ∃ s0, applyChain initState s.mem.blocks = some s0 ∧
    s.mem.utxos = s0.mem.utxos ∧
    s.store.blocks = s0.store.blocks ∧
    s.store.transactions = s0.store.transactions ∧
    s.store.inputs = s0.store.inputs ∧
    s.store.outputs = s0.store.outputs ∧
    (∀ e ∈ s.mem.balances, dbIntOfJVal e.2 ≠ none) ∧
    (s.mem.balances.map (·.1)).Nodup ∧
    (∀ a, alGet s.store.balances a = (alGet s.mem.balances a).map jvalZ) ∧
    ((s.mem.blocks.length : ℚ) ≤ s.mem.currentHeight ∧
      s.mem.currentHeight < (s.mem.blocks.length : ℚ) + 1) ∧
    (s.mem.blocks.length = 0 → s.mem.currentHeight = 0)

/-! ### Concrete fixtures (the three-block scenario of the specification
    and the states several concrete theorems evaluate) -/

def blk1 : Block := ⟨sha256hex "1tx1", 1, [⟨"tx1", [], [⟨"addr1", 10⟩]⟩]⟩

def blk2 : Block := ⟨sha256hex "2tx2", 2, [⟨"tx2", [⟨"tx1", 0⟩], [⟨"addr2", 4⟩, ⟨"addr3", 6⟩]⟩]⟩

/-- State after accepting blk1. -/
def st1 : FullState := (applyChain initState [blk1]).getD initState

/-- State after accepting blk1 and blk2. -/
def st12 : FullState := (applyChain initState [blk1, blk2]).getD initState

/-- A block whose first transaction breaks conservation (spends 10, emits
    50) and whose second transaction references a key absent from the UTXO
    set. -/
def c2Block : Block :=
  ⟨"badid", 2, [⟨"ta", [⟨"tx1", 0⟩], [⟨"bob", 50⟩]⟩, ⟨"tb", [⟨"ghost", 0⟩], []⟩]⟩

/-- Chain whose first block holds a transaction with id txa producing one
    unspent output. -/
def blkTxa : Block := ⟨sha256hex "1txa", 1, [⟨"txa", [], [⟨"x", 10⟩]⟩]⟩

def stTxa : FullState := (applyChain initState [blkTxa]).getD initState

/-- A block containing t1 with the reused id txa and t2 spending txa:0 —
    the output t1 produces at index 0 in this very block; the key txa:0 is
    nevertheless present in the pre-block snapshot (produced by the old
    txa). -/
def c6Block : Block :=
  ⟨sha256hex "2txatxb", 2, [⟨"txa", [], [⟨"w", 5⟩]⟩, ⟨"txb", [⟨"txa", 0⟩], [⟨"y", 10⟩]⟩]⟩

/-- Two transactions in one block both spending tx1:0. -/
def c8Block : Block :=
  ⟨sha256hex "2txbtxc", 2, [⟨"txb", [⟨"tx1", 0⟩], [⟨"y", 10⟩]⟩, ⟨"txc", [⟨"tx1", 0⟩], [⟨"z", 10⟩]⟩]⟩

/-- Height-1 block with one transaction whose id is the single character 0:
    its hash input is the two-character string 10. -/
def c9Blk1 : Block := ⟨sha256hex "10", 1, [⟨"0", [], []⟩]⟩

/-- c9Blk1 followed by empty blocks at heights 2..9. -/
def c9chain : List Block :=
  c9Blk1 :: (List.range 8).map (fun i => ⟨sha256hex (toString (i + 2)), i + 2, []⟩)

def st9 : FullState := (applyChain initState c9chain).getD initState

/-- Empty block at height 10: its hash input is also the string 10, so its
    correctly-computed id collides with c9Blk1's id. -/
def c9Blk10 : Block := ⟨sha256hex "10", 10, []⟩

/-- Coinbase at height 2 crediting addr1 with 5 more. -/
def blk2mint : Block := ⟨sha256hex "2tx9", 2, [⟨"tx9", [], [⟨"addr1", 5⟩]⟩]⟩

/-- State after: accept blk1, roll back to 1, accept blk2mint. -/
def c7state : FullState :=
  (runOps initState [Op.blockOp blk1, Op.rollbackOp (some 1), Op.blockOp blk2mint]).getD initState

/-- Height-1 empty block whose id is the digest of the string 1. -/
def cEmpty1 : Block := ⟨sha256hex "1", 1, []⟩

/-! ## Theorems -/


/-- Sanity: the digest function matches the FIPS 180-4 test vector. -/
theorem sha256hex_abc :
    sha256hex "abc" = "ba7816bf8f01cfea414140de5dae2223b00361a396177a9cb410ff61f20015ad" := by rfl


/-! ### Decimal rendering: parse round-trip, injectivity, colon-freeness -/

lemma stringExt {s t : String} (h : s.data = t.data) : s = t := by
  cases s; cases t; exact congrArg String.mk h

lemma digitsValGo_cons (acc : Nat) (c : Char) (rest : List Char) :
    digitsValGo acc (c :: rest) =
      if 48 ≤ c.toNat ∧ c.toNat ≤ 57 then digitsValGo (acc * 10 + (c.toNat - 48)) rest
      else none := rfl

lemma digitsValGo_append (acc : Nat) (l1 l2 : List Char) :
    digitsValGo acc (l1 ++ l2) =
      match digitsValGo acc l1 with
      | none => none
      | some m => digitsValGo m l2 := by
  induction l1 generalizing acc with
  | nil => rfl
  | cons c rest ih =>
      rw [List.cons_append, digitsValGo_cons acc c (rest ++ l2), digitsValGo_cons acc c rest]
      by_cases h : 48 ≤ c.toNat ∧ c.toNat ≤ 57
      · rw [if_pos h, if_pos h]
        exact ih _
      · rw [if_neg h, if_neg h]

lemma decDigit_toNat (d : Nat) (hd : d < 10) : (decDigit d).toNat = 48 + d := by
  interval_cases d <;> rfl

lemma decDigit_digit (d : Nat) (hd : d < 10) :
    48 ≤ (decDigit d).toNat ∧ (decDigit d).toNat ≤ 57 := by
  rw [decDigit_toNat d hd]
  omega

lemma decDigit_ne_colon (d : Nat) : decDigit d ≠ ':' := by
  unfold decDigit
  split <;> decide

lemma natDigitsGo_zero (fuel : Nat) : natDigitsGo fuel 0 = [] := by
  cases fuel <;> rfl

lemma natDigitsGo_spec (fuel : Nat) :
    ∀ n, 1 ≤ n → n ≤ fuel → digitsValGo 0 (natDigitsGo fuel n) = some n := by
  induction fuel with
  | zero => intro n h1 h2; omega
  | succ f ih =>
      intro n h1 h2
      obtain ⟨m, rfl⟩ : ∃ m, n = m + 1 := ⟨n - 1, by omega⟩
      show digitsValGo 0 (natDigitsGo f ((m + 1) / 10) ++ [decDigit ((m + 1) % 10)]) = _
      have hd : (m + 1) % 10 < 10 := Nat.mod_lt _ (by omega)
      by_cases h10 : (m + 1) / 10 = 0
      · rw [h10, natDigitsGo_zero, List.nil_append]
        unfold digitsValGo
        rw [if_pos (decDigit_digit _ hd)]
        unfold digitsValGo
        rw [decDigit_toNat _ hd]
        congr 1
        omega
      · have h1' : 1 ≤ (m + 1) / 10 := by omega
        have h2' : (m + 1) / 10 ≤ f := by
          have := Nat.div_lt_self (show 0 < m + 1 by omega) (show 1 < 10 by omega)
          omega
        rw [digitsValGo_append, ih _ h1' h2']
        unfold digitsValGo
        rw [if_pos (decDigit_digit _ hd)]
        unfold digitsValGo
        rw [decDigit_toNat _ hd]
        congr 1
        have := Nat.div_add_mod (m + 1) 10
        omega

lemma parse_natDecimal (n : Nat) : digitsValGo 0 (natDecimal n).data = some n := by
  unfold natDecimal
  by_cases h : n = 0
  · rw [if_pos h]
    subst h
    rfl
  · rw [if_neg h]
    exact natDigitsGo_spec n n (by omega) le_rfl

lemma natDecimal_inj {a b : Nat} (h : natDecimal a = natDecimal b) : a = b := by
  have ha := parse_natDecimal a
  rw [h, parse_natDecimal b] at ha
  exact (Option.some.inj ha).symm

lemma natDigitsGo_no_colon (fuel : Nat) : ∀ n, ':' ∉ natDigitsGo fuel n := by
  induction fuel with
  | zero => intro n h; simp [natDigitsGo] at h
  | succ f ih =>
      intro n hmem
      cases n with
      | zero => rw [natDigitsGo_zero] at hmem; cases hmem
      | succ m =>
          have hmem2 : ':' ∈ natDigitsGo f ((m + 1) / 10) ++ [decDigit ((m + 1) % 10)] := hmem
          rcases List.mem_append.mp hmem2 with h | h
          · exact ih _ h
          · exact decDigit_ne_colon _ (List.mem_singleton.mp h).symm

lemma natDecimal_no_colon (n : Nat) : ':' ∉ (natDecimal n).data := by
  unfold natDecimal
  by_cases h : n = 0
  · rw [if_pos h]
    decide
  · rw [if_neg h]
    exact natDigitsGo_no_colon n n

lemma append_colon_inj :
    ∀ (a b u v : List Char), ':' ∉ u → ':' ∉ v →
      a ++ ':' :: u = b ++ ':' :: v → a = b ∧ u = v := by
  intro a
  induction a with
  | nil =>
      intro b u v hu hv h
      cases b with
      | nil =>
          simp only [List.nil_append, List.cons.injEq] at h
          exact ⟨rfl, h.2⟩
      | cons y b' =>
          simp only [List.nil_append, List.cons_append, List.cons.injEq] at h
          exfalso
          apply hu
          rw [h.2]
          exact List.mem_append.mpr (Or.inr (List.mem_cons_self _ _))
  | cons x a' ih =>
      intro b u v hu hv h
      cases b with
      | nil =>
          simp only [List.nil_append, List.cons_append, List.cons.injEq] at h
          exfalso
          apply hv
          rw [← h.2]
          exact List.mem_append.mpr (Or.inr (List.mem_cons_self _ _))
      | cons y b' =>
          simp only [List.cons_append, List.cons.injEq] at h
          rcases h with ⟨rfl, h2⟩
          rcases ih b' u v hu hv h2 with ⟨rfl, rfl⟩
          exact ⟨rfl, rfl⟩

lemma outputKey_inj {t1 t2 : String} {i1 i2 : Nat}
    (h : outputKey t1 i1 = outputKey t2 i2) : t1 = t2 ∧ i1 = i2 := by
  unfold outputKey at h
  have hd : t1.data ++ ':' :: (natDecimal i1).data =
      t2.data ++ ':' :: (natDecimal i2).data := by
    have h2 := congrArg String.data h
    simpa [String.data_append] using h2
  rcases append_colon_inj _ _ _ _ (natDecimal_no_colon i1) (natDecimal_no_colon i2) hd with
    ⟨ht, hu⟩
  exact ⟨stringExt ht, natDecimal_inj (stringExt hu)⟩

lemma inputKey_eq_outputKey (i : Input) : inputKey i = outputKey i.txId i.index := rfl

/-- C2, counterexample.  The claim predicts that a block whose first
    transaction fails conservation and whose second transaction references
    a missing UTXO is rejected with InputNotFound; the code checks each
    transaction's input existence and conservation together, transaction by
    transaction, so c2Block is rejected with ValueMismatch: the second
    transaction (whose key ghost:0 is indeed absent) is never examined. -/
theorem c2_order_counterexample :
    applyChain initState [blk1] = some st1 ∧
    sumInputsE st1.mem.utxos 0 [⟨"tx1", 0⟩] = .ok 10 ∧
    sumOutputsV [⟨"bob", 50⟩] = 50 ∧
    alGet st1.mem.utxos "ghost:0" = none ∧
    validateBlock st1.mem.currentHeight st1.mem.utxos c2Block = some VErr.valueMismatch := by
  refine ⟨by decide, by decide, by decide, by decide, by decide⟩

/-- C3: block application is not atomic.  The statements of the apply route
    run as individual auto-committed pool.query calls with no surrounding
    transaction, and the catch handler only replies 500.  If the second
    statement throws, the blocks row of the submitted block is already
    committed and stays (first three conjuncts).  If the balance
    persistence throws, the in-memory index was already mutated: the utxo
    map holds the new output while the block list and currentHeight were
    never updated (last three conjuncts). -/
theorem c3_partial_application :
    (applyStoreAfterN initState blk1 1).blocks = [(blk1.id, 1)] ∧
    initState.store.blocks = [] ∧
    applyStoreAfterN initState blk1 1 ≠ initState.store ∧
    (applyFailAtBalances initState blk1).mem.utxos = [("tx1:0", ⟨"addr1", 10⟩)] ∧
    (applyFailAtBalances initState blk1).mem.blocks = [] ∧
    (applyFailAtBalances initState blk1).mem.currentHeight = 0 := by
  refine ⟨by decide, by decide, by decide, by decide, by decide, by decide⟩

/-- C4: rollback is not atomic.  Rolling st12 back to height 1 with a
    failure right after DELETE FROM balances leaves the balances relation
    empty while the pre-rollback relation had three rows, the other
    relations already rolled back to height 1, and the in-memory state
    untouched at height 2 — neither the pre-rollback nor the post-rollback
    state. -/
theorem c4_rollback_not_atomic :
    applyChain initState [blk1, blk2] = some st12 ∧
    st12.store.balances = [("addr1", 0), ("addr2", 4), ("addr3", 6)] ∧
    (rollbackFailAfterBalancesDelete st12 1).store.balances = [] ∧
    (rollbackFailAfterBalancesDelete st12 1).store.blocks = [(blk1.id, 1)] ∧
    (rollbackFailAfterBalancesDelete st12 1).mem = st12.mem ∧
    rollbackFailAfterBalancesDelete st12 1 ≠ st12 := by
  refine ⟨by decide, by decide, by decide, by decide, by decide, by decide⟩

/-- C5, counterexample.  The parsed target 3/2 is finite and at least 1 but
    not an integer; the claim says such a request fails with
    InvalidHeightParam, yet the rollback succeeds (the guard never checks
    integrality) and even sets currentHeight to 3/2. -/
theorem c5_fractional_target_counterexample :
    ((3 : ℚ)/2).den ≠ 1 ∧
    (1 : ℚ) ≤ (3 : ℚ)/2 ∧
    applyChain initState [blk1, blk2] = some st12 ∧
    (postRollback st12 (some ((3 : ℚ)/2))).2 = none ∧
    (postRollback st12 (some ((3 : ℚ)/2))).1.mem.currentHeight = (3 : ℚ)/2 := by
  refine ⟨by decide, by decide, by decide, by decide, by decide⟩

/-- C6, counterexample.  c6Block contains t1 (id txa, reusing the id of the
    journal transaction txa of blkTxa) and t2 spending txa:0, an output t1
    itself produces (index 0 of its single-output list).  The claim
    predicts rejection with InputNotFound naming txa:0; in fact the key is
    present in the pre-block snapshot (left by the old txa), validation
    passes in full, and the submission dies on the transactions primary key
    with a 500 instead. -/
theorem c6_same_block_spend_counterexample :
    applyChain initState [blkTxa] = some stTxa ∧
    c6Block.transactions = [⟨"txa", [], [⟨"w", 5⟩]⟩, ⟨"txb", [⟨"txa", 0⟩], [⟨"y", 10⟩]⟩] ∧
    inputKey ⟨"txa", 0⟩ = outputKey "txa" 0 ∧
    alGet stTxa.mem.utxos "txa:0" = some ⟨"x", 10⟩ ∧
    validateBlock stTxa.mem.currentHeight stTxa.mem.utxos c6Block = none ∧
    (postBlock stTxa c6Block).2 = some BlockErr.storeFail := by
  refine ⟨by decide, by decide, by decide, by decide, by decide, by decide⟩

/-- C7: balance-derivation fails on the code.  History: accept blk1 (10 to
    addr1), roll back to height 1 (the driver returns the BIGINT sum as the
    string 10, which the route stores into the in-memory balance map), then
    accept blk2mint (5 more to addr1).  The JS + concatenates: the balance
    entry becomes the string 105 and is persisted as 105, while the sum of
    addr1's unspent outputs is 15. -/
theorem c7_balance_string_corruption :
    runOps initState [Op.blockOp blk1, Op.rollbackOp (some 1), Op.blockOp blk2mint] = some c7state ∧
    alGet c7state.mem.balances "addr1" = some (JVal.str "105") ∧
    utxoAgg c7state.mem.utxos "addr1" = 15 ∧
    obsBal c7state.mem.balances "addr1" = 105 ∧
    getBalance c7state "addr1" = 105 := by
  refine ⟨by decide, by decide, by decide, by decide, by decide⟩

/-- C8, counterexample.  Both transactions of c8Block reference the same
    key tx1:0; validation checks every input against the unchanged
    pre-block snapshot and the store statements tolerate the repeat, so the
    block is accepted — an accepted history spends one 10-valued output
    twice, leaving 20 of value in the UTXO set. -/
theorem c8_double_spend_counterexample :
    applyChain initState [blk1] = some st1 ∧
    c8Block.transactions.map (·.inputs) = [[⟨"tx1", 0⟩], [⟨"tx1", 0⟩]] ∧
    (postBlock st1 c8Block).2 = none ∧
    (postBlock st1 c8Block).1.mem.utxos.map (·.1) = ["txb:0", "txc:0"] ∧
    utxoAgg (postBlock st1 c8Block).1.mem.utxos "y" = 10 ∧
    utxoAgg (postBlock st1 c8Block).1.mem.utxos "z" = 10 := by
  refine ⟨by decide, by decide, by decide, by decide, by decide, by decide⟩

/-- C9, counterexample.  After the nine-block chain c9chain (whose first
    block has the one-transaction id 0, hash input the string 10), the
    empty block c9Blk10 at height 10 satisfies every premise of the claim —
    empty transaction list, height = currentHeight + 1, id equal to the
    digest of the bare decimal height — yet it is not accepted: its id
    collides with c9Blk1's id and the blocks primary key rejects it with a
    500. -/
theorem c9_hash_input_collision_counterexample :
    applyChain initState c9chain = some st9 ∧
    c9Blk10.transactions = [] ∧
    st9.mem.currentHeight = 9 ∧
    c9Blk10.height = 10 ∧
    c9Blk10.id = sha256hex (toString c9Blk10.height) ∧
    c9Blk1.id = c9Blk10.id ∧
    (postBlock st9 c9Blk10).2 = some BlockErr.storeFail := by
  refine ⟨by decide, by decide, by decide, by decide, by decide, by decide, by decide⟩


/-! ### Validator ordering lemmas -/

lemma sumInputsE_ok_found {utxos : UtxoMap} {l : List Input} {acc s : Int}
    (h : sumInputsE utxos acc l = .ok s) : ∀ i ∈ l, (alGet utxos (inputKey i)).isSome := by
  induction l generalizing acc with
  | nil => intro i hi; cases hi
  | cons i rest ih =>
      intro j hj
      unfold sumInputsE at h
      cases hu : alGet utxos (inputKey i) with
      | none => rw [hu] at h; cases h
      | some u =>
          rw [hu] at h
          rcases List.mem_cons.mp hj with rfl | hj2
          · simp [hu]
          · exact ih h j hj2

lemma sumInputsE_error_at {utxos : UtxoMap} {inp : Input}
    (hmiss : alGet utxos (inputKey inp) = none) :
    ∀ (ipre : List Input) (acc : Int), (∀ j ∈ ipre, (alGet utxos (inputKey j)).isSome) →
      ∀ irest, sumInputsE utxos acc (ipre ++ inp :: irest) = .error (inputKey inp) := by
  intro ipre
  induction ipre with
  | nil => intro acc _ irest; simp [sumInputsE, hmiss]
  | cons j rest ih =>
      intro acc hall irest
      have hj : (alGet utxos (inputKey j)).isSome := hall j (List.mem_cons_self j rest)
      cases hu : alGet utxos (inputKey j) with
      | none => rw [hu] at hj; cases hj
      | some u =>
          show sumInputsE utxos acc (j :: (rest ++ inp :: irest)) = _
          simp only [sumInputsE, hu]
          exact ih (acc + u.value) (fun x hx => hall x (List.mem_cons_of_mem j hx)) irest

lemma txCheck_none_found {utxos : UtxoMap} {t : Transaction}
    (h : txCheck utxos t = none) : ∀ i ∈ t.inputs, (alGet utxos (inputKey i)).isSome := by
  unfold txCheck at h
  cases hs : sumInputsE utxos 0 t.inputs with
  | error k => rw [hs] at h; cases h
  | ok sIn => exact sumInputsE_ok_found hs

lemma validateTxs_none_found {utxos : UtxoMap} {txs : List Transaction}
    (h : validateTxs utxos txs = none) :
    ∀ t ∈ txs, ∀ i ∈ t.inputs, (alGet utxos (inputKey i)).isSome := by
  induction txs with
  | nil => intro t ht; cases ht
  | cons t0 rest ih =>
      intro t ht
      unfold validateTxs at h
      cases hc : txCheck utxos t0 with
      | some e => rw [hc] at h; cases h
      | none =>
          rw [hc] at h
          rcases List.mem_cons.mp ht with rfl | ht2
          · exact txCheck_none_found hc
          · exact ih h t ht2

lemma validateTxs_append_ok {utxos : UtxoMap} :
    ∀ (pre rest : List Transaction), (∀ t ∈ pre, txCheck utxos t = none) →
      validateTxs utxos (pre ++ rest) = validateTxs utxos rest := by
  intro pre
  induction pre with
  | nil => intro rest _; rfl
  | cons t0 tl ih =>
      intro rest hall
      show validateTxs utxos (t0 :: (tl ++ rest)) = _
      simp only [validateTxs, hall t0 (List.mem_cons_self t0 tl)]
      exact ih rest (fun x hx => hall x (List.mem_cons_of_mem t0 hx))

lemma validateBlock_eq_body {cur : ℚ} {utxos : UtxoMap} {b : Block}
    (hh : heightOkB cur b = true) : validateBlock cur utxos b = validateBody utxos b := by
  unfold heightOkB at hh
  unfold validateBlock
  by_cases h0 : cur = 0
  · rw [if_pos h0] at hh ⊢
    have : b.height = 1 := by simpa using hh
    rw [if_neg (by simp [this])]
  · rw [if_neg h0] at hh ⊢
    have : ((b.height : ℚ) = cur + 1) := of_decide_eq_true hh
    rw [if_neg (by simp [this])]

lemma validateBlock_none_txs {cur : ℚ} {utxos : UtxoMap} {b : Block}
    (h : validateBlock cur utxos b = none) : validateTxs utxos b.transactions = none := by
  unfold validateBlock at h
  have hb : validateBody utxos b = none := by
    by_cases h0 : cur = 0
    · rw [if_pos h0] at h
      by_cases h1 : b.height ≠ 1
      · rw [if_pos h1] at h; cases h
      · rwa [if_neg h1] at h
    · rw [if_neg h0] at h
      by_cases h1 : (b.height : ℚ) ≠ cur + 1
      · rw [if_pos h1] at h; cases h
      · rwa [if_neg h1] at h
  unfold validateBody at hb
  cases ht : validateTxs utxos b.transactions with
  | none => rfl
  | some e => rw [ht] at hb; cases hb

lemma validateBody_of_txs_err {utxos : UtxoMap} {b : Block} {e : VErr}
    (h : validateTxs utxos b.transactions = some e) : validateBody utxos b = some e := by
  unfold validateBody
  rw [h]

/-- C2, amended claim.  The four checks run in the order: height rule;
    then, for each transaction in submission order, UTXO existence for that
    transaction's inputs followed by value conservation for that
    transaction; then block identity — first failure wins.  Hence a block
    whose first transaction passes the existence scan but fails
    conservation is rejected with ValueMismatch no matter what the later
    transactions contain. -/
theorem c2_per_tx_order (cur : ℚ) (utxos : UtxoMap) (b : Block)
    (t1 : Transaction) (rest : List Transaction) (s1 : Int)
    (hh : heightOkB cur b = true)
    (hts : b.transactions = t1 :: rest)
    (hsum : sumInputsE utxos 0 t1.inputs = .ok s1)
    (hne : s1 ≠ sumOutputsV t1.outputs)
    (hinp : t1.inputs ≠ []) :
    validateBlock cur utxos b = some VErr.valueMismatch := by
  rw [validateBlock_eq_body hh]
  apply validateBody_of_txs_err
  rw [hts]
  unfold validateTxs txCheck
  rw [hsum]
  simp [hne, hinp]

/-- C2 witness: the amended ordering at the concrete c2Block. -/
theorem c2_per_tx_order_witness :
    validateBlock st1.mem.currentHeight st1.mem.utxos c2Block = some VErr.valueMismatch :=
  c2_per_tx_order st1.mem.currentHeight st1.mem.utxos c2Block
    ⟨"ta", [⟨"tx1", 0⟩], [⟨"bob", 50⟩]⟩ [⟨"tb", [⟨"ghost", 0⟩], []⟩] 10
    (by decide) (by decide) (by decide) (by decide) (by decide)

/-- C5, amended claim.  The rollback guards: InvalidHeightParam exactly
    when the parsed height is NaN/non-finite or below 1 (integrality is
    never checked, so 3/2 passes); TargetAboveHead exactly when the parsed
    height is at least 1 and exceeds currentHeight; and in either failure
    case the returned state is the input state — nothing is mutated. -/
theorem c5_guard_characterization (s : FullState) (t : Option ℚ) :
    ((postRollback s t).2 = some RbErr.invalidParam ↔ (t = none ∨ ∃ q, t = some q ∧ q < 1)) ∧
    ((postRollback s t).2 = some RbErr.targetAbove ↔
      (∃ q, t = some q ∧ ¬ q < 1 ∧ s.mem.currentHeight < q)) ∧
    ((postRollback s t).2 ≠ none → (postRollback s t).1 = s) := by
  rcases t with _ | q
  · refine ⟨⟨fun _ => Or.inl rfl, fun _ => rfl⟩, ⟨(fun h => by cases h), ?_⟩, fun _ => rfl⟩
    rintro ⟨q2, hq2, _⟩
    cases hq2
  · by_cases h1 : q < 1
    · have he : postRollback s (some q) = (s, some RbErr.invalidParam) := by
        simp only [postRollback]
        rw [if_pos h1]
      rw [he]
      refine ⟨⟨fun _ => Or.inr ⟨q, rfl, h1⟩, fun _ => rfl⟩, ⟨(fun h => by cases h), ?_⟩,
        fun _ => rfl⟩
      rintro ⟨q2, hq2, hn, _⟩
      cases Option.some.inj hq2
      exact absurd h1 hn
    · by_cases h2 : q > s.mem.currentHeight
      · have he : postRollback s (some q) = (s, some RbErr.targetAbove) := by
          simp only [postRollback]
          rw [if_neg h1, if_pos h2]
        rw [he]
        refine ⟨⟨(fun h => by cases h), ?_⟩, ⟨fun _ => ⟨q, rfl, h1, h2⟩, fun _ => rfl⟩,
          fun _ => rfl⟩
        rintro (h | ⟨q2, hq2, hlt⟩)
        · cases h
        · cases Option.some.inj hq2
          exact absurd hlt h1
      · have he : (postRollback s (some q)).2 = none := by
          simp only [postRollback]
          rw [if_neg h1, if_neg h2]
        refine ⟨⟨fun h => ?_, ?_⟩, ⟨fun h => ?_, ?_⟩, fun h => absurd he h⟩
        · rw [he] at h; cases h
        · rintro (h | ⟨q2, hq2, hlt⟩)
          · cases h
          · cases Option.some.inj hq2
            exact absurd hlt h1
        · rw [he] at h; cases h
        · rintro ⟨q2, hq2, _, habove⟩
          cases Option.some.inj hq2
          exact absurd habove h2

/-- C5 witness: a parsed height of 1/2 is rejected as InvalidHeightParam
    with the state unchanged. -/
theorem c5_guard_characterization_witness :
    (postRollback initState (some ((1 : ℚ)/2))).2 = some RbErr.invalidParam ∧
    (postRollback initState (some ((1 : ℚ)/2))).1 = initState := by
  refine ⟨(c5_guard_characterization initState (some ((1 : ℚ)/2))).1.mpr
      (Or.inr ⟨(1 : ℚ)/2, rfl, by decide⟩),
    (c5_guard_characterization initState (some ((1 : ℚ)/2))).2.2 ?_⟩
  intro h
  rw [(c5_guard_characterization initState (some ((1 : ℚ)/2))).1.mpr
      (Or.inr ⟨(1 : ℚ)/2, rfl, by decide⟩)] at h
  cases h

/-- C6, amended claim.  Validation reads only the pre-block UTXO snapshot.
    First part: a block referencing any key absent from the snapshot
    (in particular the key of an output produced inside the block itself,
    when no older transaction left an output under the same key) is always
    rejected.  Second part: the rejection is InputNotFound naming that key
    whenever it is the first failure in the per-transaction scan order.
    The proviso that the key be absent from the snapshot is forced by
    c6_same_block_spend_counterexample: a same-block spend whose key was
    left by an older transaction with the same id passes validation. -/
theorem c6_pre_block_snapshot :
    (∀ (cur : ℚ) (utxos : UtxoMap) (b : Block) (k : String),
        referencesKey b k = true → alGet utxos k = none →
        validateBlock cur utxos b ≠ none) ∧
    (∀ (cur : ℚ) (utxos : UtxoMap) (b : Block) (pre : List Transaction) (t2 : Transaction)
        (post : List Transaction) (ipre : List Input) (inp : Input) (irest : List Input),
        heightOkB cur b = true →
        b.transactions = pre ++ t2 :: post →
        (∀ t ∈ pre, txCheck utxos t = none) →
        t2.inputs = ipre ++ inp :: irest →
        (∀ j ∈ ipre, (alGet utxos (inputKey j)).isSome) →
        alGet utxos (inputKey inp) = none →
        validateBlock cur utxos b = some (VErr.inputNotFound (inputKey inp))) := by
  constructor
  · intro cur utxos b k href hmiss h
    have hfound := validateTxs_none_found (validateBlock_none_txs h)
    rcases List.any_eq_true.mp href with ⟨t, ht, hti⟩
    rcases List.any_eq_true.mp hti with ⟨i, hi, hik⟩
    have hsome : (alGet utxos (inputKey i)).isSome := hfound t ht i hi
    have hkeq : inputKey i = k := by simpa using hik
    rw [hkeq, hmiss] at hsome
    cases hsome
  · intro cur utxos b pre t2 post ipre inp irest hh hts hpre hin hipre hmiss
    rw [validateBlock_eq_body hh]
    apply validateBody_of_txs_err
    rw [hts, validateTxs_append_ok pre (t2 :: post) hpre]
    unfold validateTxs txCheck
    rw [hin, sumInputsE_error_at hmiss ipre 0 hipre irest]

/-- C6 witness: both parts of the amended claim at concrete inputs. -/
theorem c6_pre_block_snapshot_witness :
    validateBlock 0 [] ⟨"z", 1, [⟨"t", [⟨"g", 0⟩], []⟩]⟩ ≠ none ∧
    validateBlock 1 [("a:0", ⟨"x", 5⟩)] ⟨"z", 2, [⟨"t", [⟨"g", 0⟩], []⟩]⟩ =
      some (VErr.inputNotFound "g:0") := by
  constructor
  · exact c6_pre_block_snapshot.1 0 [] ⟨"z", 1, [⟨"t", [⟨"g", 0⟩], []⟩]⟩ "g:0"
      (by decide) (by decide)
  · exact c6_pre_block_snapshot.2 1 [("a:0", ⟨"x", 5⟩)] ⟨"z", 2, [⟨"t", [⟨"g", 0⟩], []⟩]⟩
      [] ⟨"t", [⟨"g", 0⟩], []⟩ [] [] ⟨"g", 0⟩ []
      (by decide) rfl (by intro t ht; cases ht) rfl (by intro j hj; cases hj) (by decide)

/-! ### Association-list toolkit -/

lemma alGet_cons {α : Type} (k0 : String) (v0 : α) (rest : List (String × α)) (k : String) :
    alGet ((k0, v0) :: rest) k = if k0 = k then some v0 else alGet rest k := rfl

lemma alGet_append {α : Type} (l1 l2 : List (String × α)) (k : String) :
    alGet (l1 ++ l2) k =
      match alGet l1 k with
      | some v => some v
      | none => alGet l2 k := by
  induction l1 with
  | nil => rfl
  | cons e rest ih =>
      obtain ⟨k0, v0⟩ := e
      rw [List.cons_append, alGet_cons, alGet_cons]
      by_cases h : k0 = k
      · rw [if_pos h, if_pos h]
      · rw [if_neg h, if_neg h]
        exact ih

lemma alGet_none_iff {α : Type} (l : List (String × α)) (k : String) :
    alGet l k = none ↔ ∀ e ∈ l, e.1 ≠ k := by
  induction l with
  | nil => simp [alGet]
  | cons e rest ih =>
      obtain ⟨k0, v0⟩ := e
      rw [alGet_cons]
      by_cases h : k0 = k
      · simp [if_pos h, h]
      · rw [if_neg h]
        simp only [List.mem_cons, ih]
        constructor
        · rintro hr e (rfl | he)
          · exact h
          · exact hr e he
        · intro hr e he
          exact hr e (Or.inr he)

lemma alGet_append_right_none {α : Type} {l2 : List (String × α)} {k : String}
    (h : alGet l2 k = none) (l1 : List (String × α)) :
    alGet (l1 ++ l2) k = alGet l1 k := by
  rw [alGet_append]
  cases hg : alGet l1 k with
  | none => exact h
  | some v => rfl

lemma alSet_cons {α : Type} (k0 : String) (v0 : α) (rest : List (String × α))
    (key : String) (v : α) :
    alSet ((k0, v0) :: rest) key v =
      if k0 = key then (key, v) :: rest else (k0, v0) :: alSet rest key v := rfl

lemma alDelete_append {α : Type} (l1 l2 : List (String × α)) (k : String) :
    alDelete (l1 ++ l2) k = alDelete l1 k ++ alDelete l2 k := by
  unfold alDelete
  exact List.filter_append _ _

lemma alDelete_of_none {α : Type} {l : List (String × α)} {k : String}
    (h : alGet l k = none) : alDelete l k = l := by
  unfold alDelete
  apply List.filter_eq_self.mpr
  intro e he
  have := (alGet_none_iff l k).mp h e he
  simpa using this

lemma alSet_of_none {α : Type} {l : List (String × α)} {k : String}
    (h : alGet l k = none) (v : α) : alSet l k v = l ++ [(k, v)] := by
  induction l with
  | nil => rfl
  | cons e rest ih =>
      obtain ⟨k0, v0⟩ := e
      rw [alGet_cons] at h
      by_cases hk : k0 = k
      · rw [if_pos hk] at h
        cases h
      · rw [if_neg hk] at h
        rw [alSet_cons, if_neg hk, ih h, List.cons_append]

lemma alSet_append_right {α : Type} {l1 : List (String × α)} {k : String}
    (h : alGet l1 k = none) (l2 : List (String × α)) (v : α) :
    alSet (l1 ++ l2) k v = l1 ++ alSet l2 k v := by
  induction l1 with
  | nil => rfl
  | cons e rest ih =>
      obtain ⟨k0, v0⟩ := e
      rw [alGet_cons] at h
      by_cases hk : k0 = k
      · rw [if_pos hk] at h
        cases h
      · rw [if_neg hk] at h
        rw [List.cons_append, alSet_cons, if_neg hk, ih h, List.cons_append]

lemma alGet_alSet_self {α : Type} (l : List (String × α)) (k : String) (v : α) :
    alGet (alSet l k v) k = some v := by
  induction l with
  | nil => simp [alSet, alGet]
  | cons e rest ih =>
      obtain ⟨k0, v0⟩ := e
      rw [alSet_cons]
      by_cases hk : k0 = k
      · rw [if_pos hk, alGet_cons, if_pos rfl]
      · rw [if_neg hk, alGet_cons, if_neg hk]
        exact ih

lemma alGet_alSet_ne {α : Type} (l : List (String × α)) {k k2 : String} (v : α)
    (h : k ≠ k2) : alGet (alSet l k v) k2 = alGet l k2 := by
  induction l with
  | nil => simp [alSet, alGet, h]
  | cons e rest ih =>
      obtain ⟨k0, v0⟩ := e
      rw [alSet_cons]
      by_cases hk : k0 = k
      · rw [if_pos hk, alGet_cons, alGet_cons, if_neg h, if_neg (by rw [hk]; exact h)]
      · rw [if_neg hk, alGet_cons, alGet_cons]
        by_cases hk2 : k0 = k2
        · rw [if_pos hk2, if_pos hk2]
        · rw [if_neg hk2, if_neg hk2]
          exact ih

lemma alSet_keys {α : Type} (l : List (String × α)) (k : String) (v : α) :
    (alSet l k v).map (·.1) =
      if k ∈ l.map (·.1) then l.map (·.1) else l.map (·.1) ++ [k] := by
  induction l with
  | nil => simp [alSet]
  | cons e rest ih =>
      obtain ⟨k0, v0⟩ := e
      rw [alSet_cons]
      by_cases hk : k0 = k
      · rw [if_pos hk]
        simp [hk]
      · rw [if_neg hk]
        simp only [List.map_cons, ih]
        by_cases hm : k ∈ rest.map (·.1)
        · rw [if_pos hm, if_pos (by simp [hm])]
        · rw [if_neg hm, if_neg (by simp [hm, Ne.symm hk]), List.cons_append]

lemma alGet_isSome_keys {α : Type} (l : List (String × α)) (k : String) :
    (alGet l k).isSome ↔ k ∈ l.map (·.1) := by
  induction l with
  | nil => simp [alGet]
  | cons e rest ih =>
      obtain ⟨k0, v0⟩ := e
      rw [alGet_cons]
      by_cases h : k0 = k
      · simp [if_pos h, h]
      · rw [if_neg h]
        simp [ih, Ne.symm h]

lemma alGet_some_mem {α : Type} {l : List (String × α)} {k : String} {v : α}
    (h : alGet l k = some v) : (k, v) ∈ l := by
  induction l with
  | nil => cases h
  | cons e rest ih =>
      obtain ⟨k0, v0⟩ := e
      rw [alGet_cons] at h
      by_cases hk : k0 = k
      · rw [if_pos hk] at h
        subst hk
        cases h
        exact List.mem_cons_self _ _
      · rw [if_neg hk] at h
        exact List.mem_cons_of_mem _ (ih h)

/-! ### Balance and aggregate step lemmas -/

lemma mem_alSet {α : Type} {l : List (String × α)} {k : String} {v : α} {e : String × α}
    (h : e ∈ alSet l k v) : e = (k, v) ∨ e ∈ l := by
  induction l with
  | nil => simpa [alSet] using h
  | cons e0 rest ih =>
      obtain ⟨k0, v0⟩ := e0
      rw [alSet_cons] at h
      by_cases hk : k0 = k
      · rw [if_pos hk] at h
        rcases List.mem_cons.mp h with rfl | h2
        · exact Or.inl rfl
        · exact Or.inr (List.mem_cons_of_mem _ h2)
      · rw [if_neg hk] at h
        rcases List.mem_cons.mp h with rfl | h2
        · exact Or.inr (List.mem_cons_self _ _)
        · rcases ih h2 with h3 | h3
          · exact Or.inl h3
          · exact Or.inr (List.mem_cons_of_mem _ h3)

lemma balNum_alSet {bal : BalMap} (hnum : ∀ e ∈ bal, ∃ n, e.2 = JVal.num n)
    (a : String) (n : Int) : ∀ e ∈ alSet bal a (JVal.num n), ∃ m, e.2 = JVal.num m := by
  intro e he
  rcases mem_alSet he with rfl | h2
  · exact ⟨n, rfl⟩
  · exact hnum e h2

lemma keys_alSet_nodup {α : Type} {l : List (String × α)} (hnd : (l.map (·.1)).Nodup)
    (k : String) (v : α) : ((alSet l k v).map (·.1)).Nodup := by
  rw [alSet_keys]
  by_cases h : k ∈ l.map (·.1)
  · rw [if_pos h]; exact hnd
  · rw [if_neg h]
    exact List.Nodup.append hnd (List.nodup_singleton k) (by simpa using h)

lemma spend_bal_num {bal : BalMap} (hnum : ∀ e ∈ bal, ∃ n, e.2 = JVal.num n)
    (a : String) (v : Int) :
    jsSubV (jsOrZero (alGet bal a)) v = JVal.num (obsBal bal a - v) := by
  cases hg : alGet bal a with
  | none => simp [jsOrZero, jsSubV, obsBal, hg]
  | some w =>
      obtain ⟨n, hn⟩ := hnum (a, w) (alGet_some_mem hg)
      simp only at hn
      subst hn
      unfold obsBal
      rw [hg]
      by_cases h0 : n = 0
      · subst h0
        simp [jsOrZero, jsFalsy, jsSubV, jvalZ]
      · simp [jsOrZero, jsFalsy, jsSubV, jvalZ, h0]

lemma credit_bal_num {bal : BalMap} (hnum : ∀ e ∈ bal, ∃ n, e.2 = JVal.num n)
    (a : String) (v : Int) :
    jsAddV (jsOrZero (alGet bal a)) v = JVal.num (obsBal bal a + v) := by
  cases hg : alGet bal a with
  | none => simp [jsOrZero, jsAddV, obsBal, hg]
  | some w =>
      obtain ⟨n, hn⟩ := hnum (a, w) (alGet_some_mem hg)
      simp only at hn
      subst hn
      unfold obsBal
      rw [hg]
      by_cases h0 : n = 0
      · subst h0
        simp [jsOrZero, jsFalsy, jsAddV, jvalZ]
      · simp [jsOrZero, jsFalsy, jsAddV, jvalZ, h0]

lemma obsBal_alSet_self (bal : BalMap) (a : String) (n : Int) :
    obsBal (alSet bal a (JVal.num n)) a = n := by
  unfold obsBal
  rw [alGet_alSet_self]
  rfl

lemma obsBal_alSet_ne (bal : BalMap) {a a2 : String} (x : JVal) (h : a ≠ a2) :
    obsBal (alSet bal a x) a2 = obsBal bal a2 := by
  unfold obsBal
  rw [alGet_alSet_ne _ _ h]

lemma utxoAgg_append (l1 l2 : UtxoMap) (a : String) :
    utxoAgg (l1 ++ l2) a = utxoAgg l1 a + utxoAgg l2 a := by
  unfold utxoAgg
  rw [List.filter_append, List.map_append, List.sum_append]

lemma utxoAgg_cons (k : String) (o : Output) (l : UtxoMap) (a : String) :
    utxoAgg ((k, o) :: l) a = (if o.address = a then o.value else 0) + utxoAgg l a := by
  unfold utxoAgg
  by_cases h : o.address = a
  · rw [if_pos h, List.filter_cons_of_pos (by simpa using h)]
    simp
  · rw [if_neg h, List.filter_cons_of_neg (by simpa using h)]
    simp

lemma utxoAgg_delete {l : UtxoMap} {k : String} {o : Output}
    (hget : alGet l k = some o) (hnd : (l.map (·.1)).Nodup) (a : String) :
    utxoAgg (alDelete l k) a = utxoAgg l a - (if o.address = a then o.value else 0) := by
  induction l with
  | nil => cases hget
  | cons e rest ih =>
      obtain ⟨k0, o0⟩ := e
      rw [alGet_cons] at hget
      simp only [List.map_cons, List.nodup_cons] at hnd
      by_cases hk : k0 = k
      · rw [if_pos hk] at hget
        cases hget
        subst hk
        have hrest : alGet rest k0 = none := by
          rw [alGet_none_iff]
          intro e he hke
          exact hnd.1 (hke ▸ List.mem_map_of_mem (·.1) he)
        show utxoAgg (alDelete ((k0, o) :: rest) k0) a = _
        unfold alDelete
        rw [List.filter_cons_of_neg (by simp)]
        have : List.filter (fun e => !(e.1 == k0)) rest = rest := by
          apply List.filter_eq_self.mpr
          intro e he
          have := (alGet_none_iff rest k0).mp hrest e he
          simpa using this
        rw [this, utxoAgg_cons]
        omega
      · rw [if_neg hk] at hget
        show utxoAgg (alDelete ((k0, o0) :: rest) k) a = _
        unfold alDelete
        rw [List.filter_cons_of_pos (by simpa using hk)]
        have hrec := ih hget hnd.2
        unfold alDelete at hrec
        rw [utxoAgg_cons, utxoAgg_cons, hrec]
        omega

lemma utxoAgg_delete_none {l : UtxoMap} {k : String} (hget : alGet l k = none) (a : String) :
    utxoAgg (alDelete l k) a = utxoAgg l a := by
  rw [alDelete_of_none hget]

lemma alDelete_keys_sublist {α : Type} (l : List (String × α)) (k : String) :
    ((alDelete l k).map (·.1)).Sublist (l.map (·.1)) :=
  (List.filter_sublist l).map (·.1)

/-! ### MapsInv preservation -/

lemma memSpend_eq (m : UtxoMap × BalMap) (i : Input) :
    memSpend m i =
      match alGet m.1 (inputKey i) with
      | some u =>
          (alDelete m.1 (inputKey i),
           alSet m.2 u.address (jsSubV (jsOrZero (alGet m.2 u.address)) u.value))
      | none => (alDelete m.1 (inputKey i), m.2) := rfl

lemma memSpend_some {m : UtxoMap × BalMap} {i : Input} {u : Output}
    (hg : alGet m.1 (inputKey i) = some u) :
    memSpend m i =
      (alDelete m.1 (inputKey i),
       alSet m.2 u.address (jsSubV (jsOrZero (alGet m.2 u.address)) u.value)) := by
  rw [memSpend_eq, hg]

lemma memSpend_none {m : UtxoMap × BalMap} {i : Input}
    (hg : alGet m.1 (inputKey i) = none) :
    memSpend m i = (alDelete m.1 (inputKey i), m.2) := by
  rw [memSpend_eq, hg]

lemma MapsInv_spend {m : UtxoMap × BalMap} (hm : MapsInv m) (i : Input) :
    MapsInv (memSpend m i) := by
  obtain ⟨hnd, hnum, hbk, hagg⟩ := hm
  cases hg : alGet m.1 (inputKey i) with
  | none =>
      rw [memSpend_none hg, alDelete_of_none hg]
      exact ⟨hnd, hnum, hbk, hagg⟩
  | some u =>
      rw [memSpend_some hg]
      refine ⟨(alDelete_keys_sublist m.1 _).nodup hnd, ?_, keys_alSet_nodup hbk _ _, ?_⟩
      · rw [spend_bal_num hnum]
        exact balNum_alSet hnum _ _
      · intro a
        rw [spend_bal_num hnum]
        by_cases ha : u.address = a
        · subst ha
          rw [obsBal_alSet_self, utxoAgg_delete hg hnd]
          simp [hagg u.address]
        · rw [obsBal_alSet_ne _ _ (fun hc => ha hc), utxoAgg_delete hg hnd, hagg a,
            if_neg ha]
          omega

lemma MapsInv_credit {m : UtxoMap × BalMap} (hm : MapsInv m) (txid : String) (p : Nat × Output)
    (hfresh : alGet m.1 (outputKey txid p.1) = none) : MapsInv (memCredit txid m p) := by
  obtain ⟨hnd, hnum, hbk, hagg⟩ := hm
  show MapsInv
    (alSet m.1 (outputKey txid p.1) p.2,
     alSet m.2 p.2.address (jsAddV (jsOrZero (alGet m.2 p.2.address)) p.2.value))
  refine ⟨?_, ?_, keys_alSet_nodup hbk _ _, ?_⟩
  · rw [alSet_of_none hfresh, List.map_append]
    refine List.Nodup.append hnd (List.nodup_singleton _) ?_
    intro x hx hx2
    simp only [List.map_cons, List.map_nil, List.mem_singleton] at hx2
    subst hx2
    exact absurd ((alGet_isSome_keys m.1 _).mpr hx) (by simp [hfresh])
  · rw [credit_bal_num hnum]
    exact balNum_alSet hnum _ _
  · intro a
    rw [credit_bal_num hnum, alSet_of_none hfresh, utxoAgg_append, utxoAgg_cons]
    by_cases ha : p.2.address = a
    · subst ha
      rw [obsBal_alSet_self]
      simp [utxoAgg, hagg p.2.address]
    · rw [obsBal_alSet_ne _ _ (fun hc => ha hc), hagg a, if_neg ha]
      simp [utxoAgg]

/-! ### Row-marking and unspent-entry algebra -/

lemma containsPair_iff (P : List (String × Nat)) (x : String × Nat) :
    P.contains x = true ↔ x ∈ P := by
  simp [List.contains]

lemma outputKey_ne_of_txid {a b : String} {i j : Nat} (h : a ≠ b) :
    outputKey a i ≠ outputKey b j := fun hc => h (outputKey_inj hc).1

lemma markRows_cons (r : OutRow) (rows : List OutRow) (P : List (String × Nat)) :
    markRows (r :: rows) P =
      (if P.contains (r.txid, r.idx) then { r with is_spent := true } else r) ::
        markRows rows P := rfl

lemma markRow_case (r : OutRow) (P : List (String × Nat)) :
    (if P.contains (r.txid, r.idx) then ({ r with is_spent := true } : OutRow) else r) =
      { r with is_spent := r.is_spent || P.contains (r.txid, r.idx) } := by
  by_cases h : P.contains (r.txid, r.idx) = true
  · rw [if_pos h, h, Bool.or_true]
  · rw [if_neg h, Bool.not_eq_true] at *
    rw [h, Bool.or_false]

lemma markRows_canon (rows : List OutRow) (P : List (String × Nat)) :
    markRows rows P =
      rows.map (fun r => { r with is_spent := r.is_spent || P.contains (r.txid, r.idx) }) := by
  unfold markRows
  apply List.map_congr_left
  intro r _
  exact markRow_case r P

lemma containsPair_append (P1 P2 : List (String × Nat)) (x : String × Nat) :
    (P1 ++ P2).contains x = (P1.contains x || P2.contains x) := by
  by_cases h1 : x ∈ P1
  · simp [containsPair_iff, List.mem_append, h1]
  · by_cases h2 : x ∈ P2 <;> simp [containsPair_iff, List.mem_append, h1, h2]

lemma markRows_nil_pairs (rows : List OutRow) : markRows rows [] = rows := by
  rw [markRows_canon]
  calc rows.map _ = rows.map id :=
        List.map_congr_left (fun r _ => by rw [List.contains_nil, Bool.or_false]; rfl)
    _ = rows := List.map_id rows

lemma markRows_append (X Y : List OutRow) (P : List (String × Nat)) :
    markRows (X ++ Y) P = markRows X P ++ markRows Y P := by
  unfold markRows
  exact List.map_append _ X Y

lemma markRows_comp (X : List OutRow) (P1 P2 : List (String × Nat)) :
    markRows (markRows X P1) P2 = markRows X (P1 ++ P2) := by
  rw [markRows_canon X P1, markRows_canon, markRows_canon X, List.map_map]
  apply List.map_congr_left
  intro r _
  show ({ r with is_spent := (r.is_spent || P1.contains (r.txid, r.idx)) ||
      P2.contains (r.txid, r.idx) } : OutRow) = _
  rw [containsPair_append, Bool.or_assoc]

lemma markRows_eq_self {rows : List OutRow} {P : List (String × Nat)}
    (h : ∀ r ∈ rows, (r.txid, r.idx) ∉ P) : markRows rows P = rows := by
  rw [markRows_canon]
  have : ∀ r ∈ rows, ({ r with is_spent := r.is_spent || P.contains (r.txid, r.idx) } : OutRow) = r := by
    intro r hr
    have hc : P.contains (r.txid, r.idx) = false := by
      rw [← Bool.not_eq_true]
      intro hc2
      exact h r hr ((containsPair_iff _ _).mp hc2)
    rw [hc, Bool.or_false]
  calc rows.map _ = rows.map id := List.map_congr_left this
    _ = rows := List.map_id rows

lemma unspentEntries_cons (r : OutRow) (rows : List OutRow) :
    unspentEntries (r :: rows) =
      if r.is_spent then unspentEntries rows else rowEntry r :: unspentEntries rows := by
  unfold unspentEntries
  by_cases h : r.is_spent
  · rw [if_pos h, List.filter_cons_of_neg (by simp [h])]
  · rw [if_neg h, List.filter_cons_of_pos (by simp [h]), List.map_cons]

lemma unspentEntries_append (A B : List OutRow) :
    unspentEntries (A ++ B) = unspentEntries A ++ unspentEntries B := by
  unfold unspentEntries
  rw [List.filter_append, List.map_append]

lemma unspentEntries_unspent {rows : List OutRow} (h : ∀ r ∈ rows, r.is_spent = false) :
    unspentEntries rows = rows.map rowEntry := by
  unfold unspentEntries
  rw [List.filter_eq_self.mpr (fun r hr => by simp [h r hr])]

lemma alGet_entries_none {rows : List OutRow} {k : String}
    (h : ∀ r ∈ rows, outputKey r.txid r.idx ≠ k) :
    alGet (rows.map rowEntry) k = none := by
  rw [alGet_none_iff]
  intro e he
  rcases List.mem_map.mp he with ⟨r, hr, rfl⟩
  exact h r hr

lemma alGet_unspentEntries_none {rows : List OutRow} {k : String}
    (h : ∀ r ∈ rows, outputKey r.txid r.idx ≠ k) :
    alGet (unspentEntries rows) k = none := by
  unfold unspentEntries
  apply alGet_entries_none
  intro r hr
  exact h r (List.mem_of_mem_filter hr)

lemma rowEntry_mark (r : OutRow) (x : Bool) :
    rowEntry { r with is_spent := x } = rowEntry r := rfl

lemma alDelete_unspent_mark (X : List OutRow) (a : String) (j : Nat) :
    alDelete (unspentEntries X) (outputKey a j) = unspentEntries (markRows X [(a, j)]) := by
  induction X with
  | nil => rfl
  | cons r rest ih =>
      rw [markRows_cons, markRow_case, unspentEntries_cons, unspentEntries_cons]
      by_cases hs : r.is_spent
      · rw [if_pos hs, if_pos (show (r.is_spent || _) = true by rw [hs]; simp)]
        exact ih
      · have hs2 : r.is_spent = false := by rwa [Bool.not_eq_true] at hs
        rw [if_neg hs]
        by_cases hp : (r.txid, r.idx) = (a, j)
        · rw [if_pos (show (r.is_spent || [(a, j)].contains (r.txid, r.idx)) = true by
            rw [hs2]; simp [containsPair_iff, hp])]
          have h1 : r.txid = a := congrArg Prod.fst hp
          have h2 : r.idx = j := congrArg Prod.snd hp
          have hkey : (rowEntry r).1 = outputKey a j := by
            show outputKey r.txid r.idx = _
            rw [h1, h2]
          show alDelete (rowEntry r :: unspentEntries rest) (outputKey a j) = _
          unfold alDelete
          rw [List.filter_cons_of_neg (by simp [hkey])]
          exact ih
        · rw [if_neg (show ¬ (r.is_spent || [(a, j)].contains (r.txid, r.idx)) = true by
            rw [hs2]; simp [containsPair_iff, hp])]
          have hkey : (rowEntry r).1 ≠ outputKey a j := by
            show outputKey r.txid r.idx ≠ _
            intro hc
            rcases outputKey_inj hc with ⟨hc1, hc2⟩
            exact hp (by rw [hc1, hc2])
          show alDelete (rowEntry r :: unspentEntries rest) (outputKey a j) =
            rowEntry { r with is_spent := r.is_spent || [(a, j)].contains (r.txid, r.idx) } ::
              unspentEntries (markRows rest [(a, j)])
          unfold alDelete at ih ⊢
          rw [List.filter_cons_of_pos (by simp [hkey]), ih]
          rfl

/-! ### Memory-phase fold analysis -/

lemma memSpend_fst (m : UtxoMap × BalMap) (i : Input) :
    (memSpend m i).1 = alDelete m.1 (inputKey i) := by
  rw [memSpend_eq]
  cases alGet m.1 (inputKey i) <;> rfl

lemma memCredit_fst (txid : String) (m : UtxoMap × BalMap) (p : Nat × Output) :
    (memCredit txid m p).1 = alSet m.1 (outputKey txid p.1) p.2 := rfl

lemma outputKey_ne_of_idx {a : String} {i j : Nat} (h : i ≠ j) :
    outputKey a i ≠ outputKey a j := fun hc => h (outputKey_inj hc).2

lemma mem_markRows {r : OutRow} {rows : List OutRow} {P : List (String × Nat)}
    (h : r ∈ markRows rows P) : ∃ r0 ∈ rows, r.txid = r0.txid ∧ r.idx = r0.idx := by
  rw [markRows_canon] at h
  rcases List.mem_map.mp h with ⟨r0, hr0, rfl⟩
  exact ⟨r0, hr0, rfl, rfl⟩

lemma outRowsOf_entries (t : Transaction) :
    (outRowsOf t).map rowEntry = t.outputs.enum.map (fun p => (outputKey t.id p.1, p.2)) := by
  unfold outRowsOf
  rw [List.map_map]
  apply List.map_congr_left
  intro p _
  rfl

lemma spendLoop (F : List OutRow) (oldIds : List String) (hF : ∀ r ∈ F, r.txid ∈ oldIds) :
    ∀ (ins : List Input) (P : List (String × Nat)) (newRows : List OutRow) (bal : BalMap),
      (∀ i ∈ ins, i.txId ∈ oldIds) →
      (∀ r ∈ newRows, r.txid ∉ oldIds) →
      MapsInv (unspentEntries (markRows F P) ++ newRows.map rowEntry, bal) →
      (ins.foldl memSpend (unspentEntries (markRows F P) ++ newRows.map rowEntry, bal)).1 =
          unspentEntries (markRows F (P ++ inputPairs ins)) ++ newRows.map rowEntry ∧
      MapsInv (ins.foldl memSpend (unspentEntries (markRows F P) ++ newRows.map rowEntry, bal)) := by
  intro ins
  induction ins with
  | nil =>
      intro P newRows bal _ _ hm
      refine ⟨?_, hm⟩
      show unspentEntries (markRows F P) ++ _ = _
      rw [inputPairs, List.map_nil, List.append_nil]
  | cons i rest ih =>
      intro P newRows bal hins hnew hm
      have hnewkey : ∀ r ∈ newRows, outputKey r.txid r.idx ≠ inputKey i := by
        intro r hr
        rw [inputKey_eq_outputKey]
        exact outputKey_ne_of_txid
          (fun hc => hnew r hr (hc ▸ hins i (List.mem_cons_self i rest)))
      have hdel : (memSpend (unspentEntries (markRows F P) ++ newRows.map rowEntry, bal) i).1 =
          unspentEntries (markRows F (P ++ [(i.txId, i.index)])) ++ newRows.map rowEntry := by
        rw [memSpend_fst]
        show alDelete (unspentEntries (markRows F P) ++ newRows.map rowEntry) (inputKey i) = _
        rw [alDelete_append, alDelete_of_none (alGet_entries_none hnewkey),
          inputKey_eq_outputKey, alDelete_unspent_mark, markRows_comp]
      have hm1 := MapsInv_spend hm i
      have hpair : memSpend (unspentEntries (markRows F P) ++ newRows.map rowEntry, bal) i =
          (unspentEntries (markRows F (P ++ [(i.txId, i.index)])) ++ newRows.map rowEntry,
           (memSpend (unspentEntries (markRows F P) ++ newRows.map rowEntry, bal) i).2) := by
        rw [← hdel]
      rw [List.foldl_cons, hpair]
      rw [hpair] at hm1
      have hrec := ih (P ++ [(i.txId, i.index)]) newRows _
        (fun x hx => hins x (List.mem_cons_of_mem i hx)) hnew hm1
      have hP : (P ++ [(i.txId, i.index)]) ++ inputPairs rest = P ++ inputPairs (i :: rest) := by
        rw [List.append_assoc]
        rfl
      rw [hP] at hrec
      exact hrec

lemma creditLoop (txid : String) :
    ∀ (eo : List (Nat × Output)) (u : UtxoMap) (bal : BalMap),
      (∀ p ∈ eo, alGet u (outputKey txid p.1) = none) →
      ((eo.map (·.1)).Nodup) →
      MapsInv (u, bal) →
      (eo.foldl (memCredit txid) (u, bal)).1 =
          u ++ eo.map (fun p => (outputKey txid p.1, p.2)) ∧
      MapsInv (eo.foldl (memCredit txid) (u, bal)) := by
  intro eo
  induction eo with
  | nil =>
      intro u bal _ _ hm
      exact ⟨by simp, hm⟩
  | cons p rest ih =>
      intro u bal habs hnd hm
      have hp0 := habs p (List.mem_cons_self p rest)
      have hm1 := MapsInv_credit hm txid p hp0
      have hfst : (memCredit txid (u, bal) p).1 = u ++ [(outputKey txid p.1, p.2)] := by
        rw [memCredit_fst]
        exact alSet_of_none hp0 p.2
      have hpair : memCredit txid (u, bal) p =
          (u ++ [(outputKey txid p.1, p.2)], (memCredit txid (u, bal) p).2) := by
        rw [← hfst]
      rw [List.foldl_cons, hpair]
      rw [hpair] at hm1
      simp only [List.map_cons, List.nodup_cons] at hnd
      have habs2 : ∀ q ∈ rest, alGet (u ++ [(outputKey txid p.1, p.2)]) (outputKey txid q.1) = none := by
        intro q hq
        rw [alGet_append]
        rw [habs q (List.mem_cons_of_mem p hq)]
        show alGet [(outputKey txid p.1, p.2)] (outputKey txid q.1) = none
        rw [alGet_cons, if_neg (outputKey_ne_of_idx
          (fun hc => hnd.1 (by rw [hc]; exact List.mem_map_of_mem (·.1) hq)))]
        rfl
      have hrec := ih _ _ habs2 hnd.2 hm1
      refine ⟨?_, hrec.2⟩
      rw [hrec.1, List.append_assoc]
      rfl

lemma memApplyTx_eq (m : UtxoMap × BalMap) (t : Transaction) :
    memApplyTx m t = (t.outputs.enum).foldl (memCredit t.id) (t.inputs.foldl memSpend m) := rfl

lemma txLoop (F : List OutRow) (oldIds : List String) (hF : ∀ r ∈ F, r.txid ∈ oldIds)
    (t : Transaction) (P : List (String × Nat)) (newRows : List OutRow) (bal : BalMap)
    (hins : ∀ i ∈ t.inputs, i.txId ∈ oldIds)
    (hnew : ∀ r ∈ newRows, r.txid ∉ oldIds)
    (htid : t.id ∉ oldIds)
    (hnewtid : ∀ r ∈ newRows, r.txid ≠ t.id)
    (hm : MapsInv (unspentEntries (markRows F P) ++ newRows.map rowEntry, bal)) :
    (memApplyTx (unspentEntries (markRows F P) ++ newRows.map rowEntry, bal) t).1 =
        unspentEntries (markRows F (P ++ inputPairs t.inputs)) ++
          (newRows ++ outRowsOf t).map rowEntry ∧
    MapsInv (memApplyTx (unspentEntries (markRows F P) ++ newRows.map rowEntry, bal) t) := by
  rw [memApplyTx_eq]
  have hsp := spendLoop F oldIds hF t.inputs P newRows bal hins hnew hm
  have hpair : t.inputs.foldl memSpend (unspentEntries (markRows F P) ++ newRows.map rowEntry, bal) =
      (unspentEntries (markRows F (P ++ inputPairs t.inputs)) ++ newRows.map rowEntry,
       (t.inputs.foldl memSpend (unspentEntries (markRows F P) ++ newRows.map rowEntry, bal)).2) := by
    rw [← hsp.1]
  rw [hpair]
  have hm2 := hsp.2
  rw [hpair] at hm2
  have habs : ∀ p ∈ t.outputs.enum,
      alGet (unspentEntries (markRows F (P ++ inputPairs t.inputs)) ++ newRows.map rowEntry)
        (outputKey t.id p.1) = none := by
    intro p _
    rw [alGet_append]
    rw [alGet_unspentEntries_none (fun r hr => ?_)]
    · exact alGet_entries_none (fun r hr => outputKey_ne_of_txid (hnewtid r hr))
    · rcases mem_markRows hr with ⟨r0, hr0, htx, _⟩
      exact outputKey_ne_of_txid (fun hc => htid (hc ▸ (htx ▸ hF r0 hr0)))
  have hnd : ((t.outputs.enum.map (·.1)).Nodup) := by
    have := List.enum_map_fst t.outputs
    rw [show (t.outputs.enum.map (·.1)) = t.outputs.enum.map Prod.fst from rfl, this]
    exact List.nodup_range _
  have hcr := creditLoop t.id t.outputs.enum _ _ habs hnd hm2
  refine ⟨?_, hcr.2⟩
  rw [hcr.1, ← outRowsOf_entries, List.map_append, List.append_assoc]

lemma memApplyBlock_eq (m : UtxoMap × BalMap) (b : Block) :
    memApplyBlock m b = b.transactions.foldl memApplyTx m := rfl

lemma blockLoop (F : List OutRow) (oldIds : List String) (hF : ∀ r ∈ F, r.txid ∈ oldIds) :
    ∀ (ts : List Transaction) (P : List (String × Nat)) (newRows : List OutRow) (bal : BalMap),
      (∀ t ∈ ts, ∀ i ∈ t.inputs, i.txId ∈ oldIds) →
      (∀ r ∈ newRows, r.txid ∉ oldIds) →
      (∀ t ∈ ts, t.id ∉ oldIds) →
      ((ts.map (·.id)).Nodup) →
      (∀ r ∈ newRows, ∀ t ∈ ts, r.txid ≠ t.id) →
      MapsInv (unspentEntries (markRows F P) ++ newRows.map rowEntry, bal) →
      (ts.foldl memApplyTx (unspentEntries (markRows F P) ++ newRows.map rowEntry, bal)).1 =
          unspentEntries (markRows F (P ++ spentPairs ts)) ++
            (newRows ++ (ts.map outRowsOf).flatten).map rowEntry ∧
      MapsInv (ts.foldl memApplyTx (unspentEntries (markRows F P) ++ newRows.map rowEntry, bal)) := by
  intro ts
  induction ts with
  | nil =>
      intro P newRows bal _ _ _ _ _ hm
      refine ⟨?_, hm⟩
      show unspentEntries (markRows F P) ++ _ = _
      rw [show spentPairs [] = [] from rfl, List.append_nil]
      simp
  | cons t rest ih =>
      intro P newRows bal hins hnew htids hndids hcross hm
      simp only [List.map_cons, List.nodup_cons] at hndids
      have htl := txLoop F oldIds hF t P newRows bal
        (hins t (List.mem_cons_self t rest)) hnew (htids t (List.mem_cons_self t rest))
        (fun r hr => hcross r hr t (List.mem_cons_self t rest)) hm
      have hpair : memApplyTx (unspentEntries (markRows F P) ++ newRows.map rowEntry, bal) t =
          (unspentEntries (markRows F (P ++ inputPairs t.inputs)) ++
             (newRows ++ outRowsOf t).map rowEntry,
           (memApplyTx (unspentEntries (markRows F P) ++ newRows.map rowEntry, bal) t).2) := by
        rw [← htl.1]
      rw [List.foldl_cons, hpair]
      have hm2 := htl.2
      rw [hpair] at hm2
      have hnew2 : ∀ r ∈ newRows ++ outRowsOf t, r.txid ∉ oldIds := by
        intro r hr
        rcases List.mem_append.mp hr with h | h
        · exact hnew r h
        · rcases List.mem_map.mp h with ⟨p, _, rfl⟩
          exact htids t (List.mem_cons_self t rest)
      have hcross2 : ∀ r ∈ newRows ++ outRowsOf t, ∀ t2 ∈ rest, r.txid ≠ t2.id := by
        intro r hr t2 ht2
        rcases List.mem_append.mp hr with h | h
        · exact hcross r h t2 (List.mem_cons_of_mem t ht2)
        · rcases List.mem_map.mp h with ⟨p, _, rfl⟩
          show t.id ≠ t2.id
          exact fun hc => hndids.1 (hc ▸ List.mem_map_of_mem (·.id) ht2)
      have hrec := ih (P ++ inputPairs t.inputs) (newRows ++ outRowsOf t) _
        (fun x hx => hins x (List.mem_cons_of_mem t hx)) hnew2
        (fun x hx => htids x (List.mem_cons_of_mem t hx)) hndids.2 hcross2 hm2
      refine ⟨?_, hrec.2⟩
      rw [hrec.1]
      have h1 : (P ++ inputPairs t.inputs) ++ spentPairs rest = P ++ spentPairs (t :: rest) := by
        rw [List.append_assoc]
        rfl
      have h2 : (newRows ++ outRowsOf t) ++ (rest.map outRowsOf).flatten =
          newRows ++ ((t :: rest).map outRowsOf).flatten := by
        rw [List.append_assoc]
        rfl
      rw [h1, h2]

/-! ### Store statement analysis -/

lemma runStmts_cons (st : Store) (s : DbStmt) (rest : List DbStmt) :
    runStmts st (s :: rest) =
      match execStmt st s with
      | none => (st, false)
      | some st2 => runStmts st2 rest := rfl

lemma runStmts_append (st : Store) (l1 l2 : List DbStmt) :
    runStmts st (l1 ++ l2) =
      match runStmts st l1 with
      | (st2, true) => runStmts st2 l2
      | (st2, false) => (st2, false) := by
  induction l1 generalizing st with
  | nil => rfl
  | cons s rest ih =>
      rw [List.cons_append, runStmts_cons, runStmts_cons]
      cases execStmt st s with
      | none => rfl
      | some st2 => exact ih st2

lemma markSpent_markRows (rows : List OutRow) (t : String) (j : Nat) :
    rows.map (fun r => if r.txid = t ∧ r.idx = j then { r with is_spent := true } else r) =
      markRows rows [(t, j)] := by
  unfold markRows
  apply List.map_congr_left
  intro r _
  by_cases h : r.txid = t ∧ r.idx = j
  · rw [if_pos h, if_pos (by simp [containsPair_iff, h.1, h.2])]
  · rw [if_neg h, if_neg ?_]
    intro hc
    have := (containsPair_iff _ _).mp hc
    simp only [List.mem_singleton, Prod.mk.injEq] at this
    exact h this

lemma runInputStmts (tid : String) :
    ∀ (ins : List Input) (st : Store),
      (runStmts st (ins.foldr
          (fun i acc => DbStmt.insInput tid i.txId i.index :: DbStmt.markSpent i.txId i.index :: acc)
          [])).2 = true ∧
      (runStmts st (ins.foldr
          (fun i acc => DbStmt.insInput tid i.txId i.index :: DbStmt.markSpent i.txId i.index :: acc)
          [])).1 =
        { st with inputs := st.inputs ++ ins.map (fun i => (tid, i.txId, i.index)),
                  outputs := markRows st.outputs (inputPairs ins) } := by
  intro ins
  induction ins with
  | nil =>
      intro st
      refine ⟨rfl, ?_⟩
      show st = { st with inputs := st.inputs ++ [], outputs := markRows st.outputs [] }
      rw [markRows_nil_pairs, List.append_nil]
  | cons i rest ih =>
      intro st
      rcases ih { st with inputs := st.inputs ++ [(tid, i.txId, i.index)],
                          outputs := (st.outputs.map (fun r =>
                            if r.txid = i.txId ∧ r.idx = i.index then { r with is_spent := true }
                            else r)) }
        with ⟨h2, h1⟩
      have hstep :
          ({ st with
              inputs := ((st.inputs ++ [(tid, i.txId, i.index)]) ++
                rest.map (fun i2 => (tid, i2.txId, i2.index))),
              outputs := (markRows (st.outputs.map (fun r =>
                if r.txid = i.txId ∧ r.idx = i.index then { r with is_spent := true } else r))
                (inputPairs rest)) } : Store) =
          { st with
              inputs := (st.inputs ++
                ((tid, i.txId, i.index) :: rest.map (fun i2 => (tid, i2.txId, i2.index)))),
              outputs := markRows st.outputs ((i.txId, i.index) :: inputPairs rest) } := by
        rw [markSpent_markRows, markRows_comp, List.append_assoc]
        simp only [List.singleton_append]
      exact ⟨h2, h1.trans hstep⟩

lemma runOutputStmts (tid : String) :
    ∀ (eo : List (Nat × Output)) (st st1 : Store),
      runStmts st (eo.map (fun p => DbStmt.insOutput tid p.1 p.2.address p.2.value)) =
        (st1, true) →
      st1 = { st with outputs := (st.outputs ++
        eo.map (fun p => (⟨tid, p.1, p.2.address, p.2.value, false⟩ : OutRow))) } := by
  intro eo
  induction eo with
  | nil =>
      intro st st1 h
      have h1 : st = st1 := congrArg Prod.fst h
      subst h1
      show st = { st with outputs := st.outputs ++ [] }
      rw [List.append_nil]
  | cons p rest ih =>
      intro st st1 h
      replace h :
          (match execStmt st (DbStmt.insOutput tid p.1 p.2.address p.2.value) with
            | none => (st, false)
            | some st2 => runStmts st2
                (rest.map (fun q => DbStmt.insOutput tid q.1 q.2.address q.2.value))) =
          (st1, true) := h
      have hex : execStmt st (DbStmt.insOutput tid p.1 p.2.address p.2.value) =
          (if st.outputs.any (fun r => decide (r.txid = tid ∧ r.idx = p.1)) = true then none
           else some { st with outputs :=
             st.outputs ++ [⟨tid, p.1, p.2.address, p.2.value, false⟩] }) := rfl
      rw [hex] at h
      by_cases hdup : st.outputs.any (fun r => decide (r.txid = tid ∧ r.idx = p.1)) = true
      · rw [if_pos hdup] at h
        exact Bool.noConfusion (congrArg Prod.snd h)
      · rw [if_neg hdup] at h
        replace h : runStmts { st with outputs :=
              st.outputs ++ [⟨tid, p.1, p.2.address, p.2.value, false⟩] }
            (rest.map (fun q => DbStmt.insOutput tid q.1 q.2.address q.2.value)) =
            (st1, true) := h
        have hrec := ih _ _ h
        refine hrec.trans ?_
        show ({ st with outputs :=
            ((st.outputs ++ [(⟨tid, p.1, p.2.address, p.2.value, false⟩ : OutRow)]) ++
              rest.map (fun q => (⟨tid, q.1, q.2.address, q.2.value, false⟩ : OutRow))) } : Store) =
          { st with outputs := (st.outputs ++
            ((⟨tid, p.1, p.2.address, p.2.value, false⟩ : OutRow) ::
              rest.map (fun q => (⟨tid, q.1, q.2.address, q.2.value, false⟩ : OutRow)))) }
        rw [List.append_assoc]
        simp only [List.singleton_append]

lemma runTxStmts2 (bid : String) (t : Transaction) (st st1 : Store)
    (h : runStmts st (txStmts bid t) = (st1, true)) :
    t.id ∉ st.transactions.map (·.1) ∧
    st1 = { st with
      transactions := st.transactions ++ [(t.id, bid)],
      inputs := st.inputs ++ t.inputs.map (fun i => (t.id, i.txId, i.index)),
      outputs := applyTxRows st.outputs t } := by
  replace h :
      (match execStmt st (DbStmt.insTx t.id bid) with
        | none => (st, false)
        | some st2 => runStmts st2
            ((t.inputs.foldr (fun i acc =>
                DbStmt.insInput t.id i.txId i.index :: DbStmt.markSpent i.txId i.index :: acc)
              []) ++
              t.outputs.enum.map (fun p => DbStmt.insOutput t.id p.1 p.2.address p.2.value))) =
      (st1, true) := h
  have hex : execStmt st (DbStmt.insTx t.id bid) =
      (if st.transactions.any (fun r => decide (r.1 = t.id)) = true then none
       else some { st with transactions := st.transactions ++ [(t.id, bid)] }) := rfl
  rw [hex] at h
  by_cases hdup : st.transactions.any (fun r => decide (r.1 = t.id)) = true
  · rw [if_pos hdup] at h
    exact Bool.noConfusion (congrArg Prod.snd h)
  · rw [if_neg hdup] at h
    have hfresh : t.id ∉ st.transactions.map (·.1) := by
      intro hmem
      apply hdup
      rw [List.any_eq_true]
      rcases List.mem_map.mp hmem with ⟨r, hr, hrid⟩
      exact ⟨r, hr, decide_eq_true hrid⟩
    replace h : runStmts { st with transactions := st.transactions ++ [(t.id, bid)] }
        ((t.inputs.foldr (fun i acc =>
            DbStmt.insInput t.id i.txId i.index :: DbStmt.markSpent i.txId i.index :: acc)
          []) ++
          t.outputs.enum.map (fun p => DbStmt.insOutput t.id p.1 p.2.address p.2.value)) =
        (st1, true) := h
    rw [runStmts_append] at h
    rcases runInputStmts t.id t.inputs
      { st with transactions := st.transactions ++ [(t.id, bid)] } with ⟨hs2, hst2⟩
    revert h hs2 hst2
    generalize runStmts { st with transactions := st.transactions ++ [(t.id, bid)] }
      (t.inputs.foldr (fun i acc =>
          DbStmt.insInput t.id i.txId i.index :: DbStmt.markSpent i.txId i.index :: acc)
        []) = pr
    cases pr with
    | mk st3 ok3 =>
        intro h hs2 hst2
        replace hs2 : ok3 = true := hs2
        subst hs2
        replace h : runStmts st3
            (t.outputs.enum.map (fun p => DbStmt.insOutput t.id p.1 p.2.address p.2.value)) =
            (st1, true) := h
        replace hst2 : st3 =
            { st with
              transactions := st.transactions ++ [(t.id, bid)],
              inputs := st.inputs ++ t.inputs.map (fun i => (t.id, i.txId, i.index)),
              outputs := markRows st.outputs (inputPairs t.inputs) } := hst2
        have houts := runOutputStmts t.id t.outputs.enum st3 st1 h
        refine ⟨hfresh, houts.trans ?_⟩
        rw [hst2]
        rfl

lemma runBlockTxs (bid : String) :
    ∀ (ts : List Transaction) (st st1 : Store),
      runStmts st ((ts.map (txStmts bid)).flatten) = (st1, true) →
      ((ts.map (·.id)).Nodup ∧ ∀ t ∈ ts, t.id ∉ st.transactions.map (·.1)) ∧
      st1 = { st with
        transactions := st.transactions ++ ts.map (fun t => (t.id, bid)),
        inputs := st.inputs ++ inputRowsOf ts,
        outputs := ts.foldl applyTxRows st.outputs } := by
  intro ts
  induction ts with
  | nil =>
      intro st st1 h
      have h1 : st = st1 := congrArg Prod.fst h
      subst h1
      refine ⟨⟨List.nodup_nil, fun t ht => absurd ht (List.not_mem_nil t)⟩, ?_⟩
      show st = { st with
        transactions := st.transactions ++ [],
        inputs := st.inputs ++ [],
        outputs := st.outputs }
      rw [List.append_nil, List.append_nil]
  | cons t rest ih =>
      intro st st1 h
      replace h : runStmts st (txStmts bid t ++ (rest.map (txStmts bid)).flatten) =
          (st1, true) := h
      rw [runStmts_append] at h
      revert h
      generalize hrun : runStmts st (txStmts bid t) = pr
      cases pr with
      | mk st2 ok2 =>
          cases ok2 with
          | false =>
              intro h
              replace h : ((st2, false) : Store × Bool) = (st1, true) := h
              exact Bool.noConfusion (congrArg Prod.snd h)
          | true =>
              intro h
              replace h : runStmts st2 ((rest.map (txStmts bid)).flatten) = (st1, true) := h
              rcases runTxStmts2 bid t st st2 hrun with ⟨hfresh, hst2⟩
              rcases ih st2 st1 h with ⟨⟨hnd, hfr⟩, hst1⟩
              have hfr2 : ∀ t2 ∈ rest, t2.id ∉ (st.transactions ++ [(t.id, bid)]).map (·.1) := by
                intro t2 ht2
                have hx := hfr t2 ht2
                rw [hst2] at hx
                exact hx
              refine ⟨⟨?_, ?_⟩, ?_⟩
              · rw [List.map_cons, List.nodup_cons]
                refine ⟨?_, hnd⟩
                intro hmem
                rcases List.mem_map.mp hmem with ⟨t2, ht2, hid⟩
                apply hfr2 t2 ht2
                rw [List.map_append]
                apply List.mem_append_right
                rw [hid]
                simp
              · intro t2 ht2
                rcases List.mem_cons.mp ht2 with rfl | ht3
                · exact hfresh
                · intro hmem
                  exact hfr2 t2 ht3
                    (by rw [List.map_append]; exact List.mem_append_left _ hmem)
              · refine hst1.trans ?_
                rw [hst2]
                show ({ st with
                    transactions := ((st.transactions ++ [(t.id, bid)]) ++
                      rest.map (fun t2 => (t2.id, bid))),
                    inputs := ((st.inputs ++ t.inputs.map (fun i => (t.id, i.txId, i.index))) ++
                      inputRowsOf rest),
                    outputs := rest.foldl applyTxRows (applyTxRows st.outputs t) } : Store) = _
                rw [List.append_assoc, List.append_assoc]
                rfl

lemma rowsLoop (oldIds : List String) :
    ∀ (ts : List Transaction) (F : List OutRow) (P : List (String × Nat)) (newRows : List OutRow),
      (∀ t ∈ ts, ∀ i ∈ t.inputs, i.txId ∈ oldIds) →
      (∀ t ∈ ts, t.id ∉ oldIds) →
      (∀ r ∈ newRows, r.txid ∉ oldIds) →
      ts.foldl applyTxRows (markRows F P ++ newRows) =
        markRows F (P ++ spentPairs ts) ++ (newRows ++ (ts.map outRowsOf).flatten) := by
  intro ts
  induction ts with
  | nil =>
      intro F P newRows _ _ _
      rw [List.foldl_nil, show spentPairs ([] : List Transaction) = [] from rfl,
        List.append_nil]
      rw [show (([] : List Transaction).map outRowsOf).flatten = [] from rfl, List.append_nil]
  | cons t rest ih =>
      intro F P newRows hins htids hnew
      rw [List.foldl_cons]
      have hmark : markRows newRows (inputPairs t.inputs) = newRows := by
        apply markRows_eq_self
        intro r hr hmem
        rcases List.mem_map.mp hmem with ⟨i, hi, hpair⟩
        have hri : i.txId = r.txid := congrArg Prod.fst hpair
        exact hnew r hr (hri ▸ hins t (List.mem_cons_self t rest) i hi)
      have hstep : applyTxRows (markRows F P ++ newRows) t =
          markRows F (P ++ inputPairs t.inputs) ++ (newRows ++ outRowsOf t) := by
        unfold applyTxRows
        rw [markRows_append, markRows_comp, hmark, List.append_assoc]
      rw [hstep]
      have hnew2 : ∀ r ∈ newRows ++ outRowsOf t, r.txid ∉ oldIds := by
        intro r hr
        rcases List.mem_append.mp hr with hx | hx
        · exact hnew r hx
        · rcases List.mem_map.mp hx with ⟨p, _, hp⟩
          rw [← hp]
          exact htids t (List.mem_cons_self t rest)
      have hrec := ih F (P ++ inputPairs t.inputs) (newRows ++ outRowsOf t)
        (fun x hx => hins x (List.mem_cons_of_mem t hx))
        (fun x hx => htids x (List.mem_cons_of_mem t hx)) hnew2
      rw [hrec]
      rw [List.append_assoc, List.append_assoc]
      have hsp : spentPairs (t :: rest) = inputPairs t.inputs ++ spentPairs rest := rfl
      have hfl : ((t :: rest).map outRowsOf).flatten = outRowsOf t ++ (rest.map outRowsOf).flatten := rfl
      rw [hsp, hfl]

/-! ### Journal append algebra -/

lemma journalTxs_append (l1 l2 : List Block) :
    journalTxs (l1 ++ l2) = journalTxs l1 ++ journalTxs l2 := by
  unfold journalTxs
  rw [List.map_append, List.flatten_append]

lemma journalTxIds_append (l1 l2 : List Block) :
    journalTxIds (l1 ++ l2) = journalTxIds l1 ++ journalTxIds l2 := by
  unfold journalTxIds
  rw [journalTxs_append, List.map_append]

lemma blocksTable_append (l1 l2 : List Block) :
    blocksTable (l1 ++ l2) = blocksTable l1 ++ blocksTable l2 := by
  unfold blocksTable
  rw [List.map_append]

lemma txsTable_append (l1 l2 : List Block) :
    txsTable (l1 ++ l2) = txsTable l1 ++ txsTable l2 := by
  unfold txsTable
  rw [List.map_append, List.flatten_append]

lemma inputRowsOf_append (l1 l2 : List Transaction) :
    inputRowsOf (l1 ++ l2) = inputRowsOf l1 ++ inputRowsOf l2 := by
  unfold inputRowsOf
  rw [List.map_append, List.flatten_append]

lemma spentPairs_append (l1 l2 : List Transaction) :
    spentPairs (l1 ++ l2) = spentPairs l1 ++ spentPairs l2 := by
  unfold spentPairs
  rw [List.map_append, List.flatten_append]

lemma outRows_append (l1 l2 : List Block) :
    outRows (l1 ++ l2) = outRows l1 ++ outRows l2 := by
  unfold outRows
  rw [journalTxs_append, List.map_append, List.flatten_append]

lemma outRows_snoc (bs : List Block) (b : Block) :
    outRows (bs ++ [b]) = outRows bs ++ (b.transactions.map outRowsOf).flatten := by
  rw [outRows_append]
  unfold outRows journalTxs
  rw [show ([b].map (·.transactions)).flatten = b.transactions by simp]

lemma memOfJournal_snoc (bs : List Block) (b : Block) :
    memOfJournal (bs ++ [b]) = memApplyBlock (memOfJournal bs) b := by
  unfold memOfJournal
  rw [List.foldl_append]
  rfl

lemma txsTable_keys (bs : List Block) : (txsTable bs).map (·.1) = journalTxIds bs := by
  induction bs with
  | nil => rfl
  | cons b rest ih =>
      show ((b.transactions.map (fun t => (t.id, b.id)) ++ txsTable rest).map (·.1)) = _
      rw [List.map_append, List.map_map, ih]
      show b.transactions.map (fun t => t.id) ++ _ = journalTxIds (b :: rest)
      unfold journalTxIds journalTxs
      rw [List.map_cons, List.flatten_cons, List.map_append]

lemma blocksTable_keys (bs : List Block) : (blocksTable bs).map (·.1) = blockIds bs := by
  unfold blocksTable blockIds
  rw [List.map_map]
  rfl

lemma journalTxs_take_mem {bs : List Block} {p : Nat} {t : Transaction}
    (h : t ∈ journalTxs (bs.take p)) : t ∈ journalTxs bs := by
  have := journalTxs_append (bs.take p) (bs.drop p)
  rw [List.take_append_drop] at this
  rw [this]
  exact List.mem_append_left _ h

lemma journalTxIds_take_mem {bs : List Block} {p : Nat} {a : String}
    (h : a ∈ journalTxIds (bs.take p)) : a ∈ journalTxIds bs := by
  have := journalTxIds_append (bs.take p) (bs.drop p)
  rw [List.take_append_drop] at this
  rw [this]
  exact List.mem_append_left _ h

/-! ### Facts on produced rows -/

lemma outRowsOf_txid {t : Transaction} {r : OutRow} (h : r ∈ outRowsOf t) : r.txid = t.id := by
  rcases List.mem_map.mp h with ⟨p, _, rfl⟩
  rfl

lemma outRowsOf_unspent {t : Transaction} {r : OutRow} (h : r ∈ outRowsOf t) :
    r.is_spent = false := by
  rcases List.mem_map.mp h with ⟨p, _, rfl⟩
  rfl

lemma outRows_mem {bs : List Block} {r : OutRow} (h : r ∈ outRows bs) :
    ∃ t ∈ journalTxs bs, r ∈ outRowsOf t := by
  unfold outRows at h
  rcases List.mem_flatten.mp h with ⟨l, hl, hr⟩
  rcases List.mem_map.mp hl with ⟨t, ht, rfl⟩
  exact ⟨t, ht, hr⟩

lemma outRows_txid {bs : List Block} {r : OutRow} (h : r ∈ outRows bs) :
    r.txid ∈ journalTxIds bs := by
  rcases outRows_mem h with ⟨t, ht, hr⟩
  rw [outRowsOf_txid hr]
  exact List.mem_map_of_mem (·.id) ht

lemma outRows_unspent {bs : List Block} {r : OutRow} (h : r ∈ outRows bs) :
    r.is_spent = false := by
  rcases outRows_mem h with ⟨t, _, hr⟩
  exact outRowsOf_unspent hr

/-! ### Height rule over a natural current height -/

lemma heightOkB_nat_iff (n : Nat) (b : Block) :
    heightOkB (n : ℚ) b = true ↔ b.height = n + 1 := by
  unfold heightOkB
  by_cases h0 : (n : ℚ) = 0
  · rw [if_pos h0]
    have hn : n = 0 := Nat.cast_eq_zero.mp h0
    subst hn
    simp [beq_iff_eq]
  · rw [if_neg h0]
    simp only [decide_eq_true_eq]
    constructor
    · intro h
      exact_mod_cast h
    · intro h
      exact_mod_cast h

/-! ### Balance upsert loop (blocks.ts:98-105) -/

lemma upsertBals_num :
    ∀ (l : BalMap) (st : Store), (∀ e ∈ l, ∃ n, e.2 = JVal.num n) →
      upsertBals st l =
        ({ st with balances := l.foldl (fun acc e => alSet acc e.1 (jvalZ e.2)) st.balances },
         true) := by
  intro l
  induction l with
  | nil => intro st _; rfl
  | cons e rest ih =>
      intro st hnum
      obtain ⟨a, v⟩ := e
      obtain ⟨n, hn⟩ := hnum (a, v) (List.mem_cons_self _ _)
      replace hn : v = JVal.num n := hn
      subst hn
      exact ih { st with balances := alSet st.balances a n }
        (fun x hx => hnum x (List.mem_cons_of_mem _ hx))

lemma alGet_none_of_keys {α : Type} {l : List (String × α)} {k : String}
    (h : k ∉ l.map (·.1)) : alGet l k = none :=
  (alGet_none_iff l k).mpr
    (fun e he hek => h (hek ▸ List.mem_map_of_mem (·.1) he))

lemma upsert_fold_lookup :
    ∀ (l : BalMap) (bal0 : List (String × Int)) (a : String),
      (l.map (·.1)).Nodup →
      alGet (l.foldl (fun acc e => alSet acc e.1 (jvalZ e.2)) bal0) a =
        match alGet l a with
        | some v => some (jvalZ v)
        | none => alGet bal0 a := by
  intro l
  induction l with
  | nil => intro bal0 a _; rfl
  | cons e rest ih =>
      intro bal0 a hnd
      obtain ⟨k, v⟩ := e
      rw [List.map_cons, List.nodup_cons] at hnd
      rw [List.foldl_cons]
      by_cases hak : a = k
      · subst hak
        have hrest : alGet rest a = none := alGet_none_of_keys hnd.1
        rw [ih (alSet bal0 a (jvalZ v)) a hnd.2, hrest]
        have hc : alGet ((a, v) :: rest) a = some v := by rw [alGet_cons, if_pos rfl]
        rw [hc]
        exact alGet_alSet_self bal0 a (jvalZ v)
      · have hc : alGet ((k, v) :: rest) a = alGet rest a := by
          rw [alGet_cons, if_neg (fun hx => hak hx.symm)]
        rw [ih (alSet bal0 k (jvalZ v)) a hnd.2, hc]
        cases hra : alGet rest a with
        | some w => rfl
        | none => exact alGet_alSet_ne bal0 (jvalZ v) (Ne.symm hak)

/-! ### Balance-map keys only grow under the in-memory apply -/

lemma isSome_alSet {α : Type} (l : List (String × α)) (k : String) (v : α) (a : String)
    (h : (alGet l a).isSome = true) : (alGet (alSet l k v) a).isSome = true := by
  by_cases hak : k = a
  · subst hak
    rw [alGet_alSet_self]
    rfl
  · rw [alGet_alSet_ne _ _ hak]
    exact h

lemma foldl_pres {β : Type} (f : (UtxoMap × BalMap) → β → (UtxoMap × BalMap))
    (P : (UtxoMap × BalMap) → Prop) (hf : ∀ m x, P m → P (f m x)) :
    ∀ (l : List β) (m : UtxoMap × BalMap), P m → P (l.foldl f m) := by
  intro l
  induction l with
  | nil => intro m hm; exact hm
  | cons x rest ih => intro m hm; exact ih (f m x) (hf m x hm)

lemma balSome_spend (i : Input) {m : UtxoMap × BalMap} {a : String}
    (h : (alGet m.2 a).isSome = true) : (alGet (memSpend m i).2 a).isSome = true := by
  cases hget : alGet m.1 (inputKey i) with
  | some u =>
      rw [memSpend_some hget]
      exact isSome_alSet _ _ _ _ h
  | none =>
      rw [memSpend_none hget]
      exact h

lemma balSome_credit (txid : String) (p : Nat × Output) {m : UtxoMap × BalMap} {a : String}
    (h : (alGet m.2 a).isSome = true) : (alGet (memCredit txid m p).2 a).isSome = true := by
  show (alGet (alSet m.2 p.2.address (jsAddV (jsOrZero (alGet m.2 p.2.address)) p.2.value)) a).isSome
    = true
  exact isSome_alSet _ _ _ _ h

lemma balSome_block (b : Block) (m : UtxoMap × BalMap) (a : String)
    (h : (alGet m.2 a).isSome = true) : (alGet (memApplyBlock m b).2 a).isSome = true := by
  unfold memApplyBlock
  refine foldl_pres memApplyTx (fun m2 => (alGet m2.2 a).isSome = true) ?_ b.transactions m h
  intro m2 t hm2
  unfold memApplyTx
  refine foldl_pres (memCredit t.id) (fun m3 => (alGet m3.2 a).isSome = true)
    (fun m3 p h3 => balSome_credit t.id p h3) t.outputs.enum _ ?_
  exact foldl_pres memSpend (fun m3 => (alGet m3.2 a).isSome = true)
    (fun m3 i h3 => balSome_spend i h3) t.inputs m2 hm2

/-! ### Inversion of a 200 on POST /blocks -/

lemma postBlock_ok {s s' : FullState} {b : Block} (h : postBlock s b = (s', none)) :
    validateBlock s.mem.currentHeight s.mem.utxos b = none ∧
    ∃ st1 st2,
      runStmts s.store (blockStmts b) = (st1, true) ∧
      upsertBals st1 (memApplyBlock (s.mem.utxos, s.mem.balances) b).2 = (st2, true) ∧
      s' = ⟨⟨s.mem.blocks ++ [b], (b.height : ℚ),
             (memApplyBlock (s.mem.utxos, s.mem.balances) b).2,
             (memApplyBlock (s.mem.utxos, s.mem.balances) b).1⟩, st2⟩ := by
  unfold postBlock at h
  cases hv : validateBlock s.mem.currentHeight s.mem.utxos b with
  | some e =>
      rw [hv] at h
      replace h : ((s, some (BlockErr.val e)) : FullState × Option BlockErr) = (s', none) := h
      exact Option.noConfusion (congrArg Prod.snd h)
  | none =>
      rw [hv] at h
      rcases hr : runStmts s.store (blockStmts b) with ⟨st1, ok1⟩
      rw [hr] at h
      cases ok1 with
      | false =>
          replace h : ((⟨s.mem, st1⟩, some BlockErr.storeFail) : FullState × Option BlockErr) =
            (s', none) := h
          exact Option.noConfusion (congrArg Prod.snd h)
      | true =>
          replace h :
              (match upsertBals st1 (memApplyBlock (s.mem.utxos, s.mem.balances) b).2 with
                | (st2, false) =>
                    ((⟨⟨s.mem.blocks, s.mem.currentHeight,
                        (memApplyBlock (s.mem.utxos, s.mem.balances) b).2,
                        (memApplyBlock (s.mem.utxos, s.mem.balances) b).1⟩, st2⟩,
                      some BlockErr.storeFail) : FullState × Option BlockErr)
                | (st2, true) =>
                    (⟨⟨s.mem.blocks ++ [b], (b.height : ℚ),
                        (memApplyBlock (s.mem.utxos, s.mem.balances) b).2,
                        (memApplyBlock (s.mem.utxos, s.mem.balances) b).1⟩, st2⟩, none)) =
              (s', none) := h
          rcases hu : upsertBals st1 (memApplyBlock (s.mem.utxos, s.mem.balances) b).2
            with ⟨st2, ok2⟩
          rw [hu] at h
          cases ok2 with
          | false =>
              replace h :
                  ((⟨⟨s.mem.blocks, s.mem.currentHeight,
                      (memApplyBlock (s.mem.utxos, s.mem.balances) b).2,
                      (memApplyBlock (s.mem.utxos, s.mem.balances) b).1⟩, st2⟩,
                    some BlockErr.storeFail) : FullState × Option BlockErr) = (s', none) := h
              exact Option.noConfusion (congrArg Prod.snd h)
          | true =>
              replace h :
                  ((⟨⟨s.mem.blocks ++ [b], (b.height : ℚ),
                      (memApplyBlock (s.mem.utxos, s.mem.balances) b).2,
                      (memApplyBlock (s.mem.utxos, s.mem.balances) b).1⟩, st2⟩, none) :
                    FullState × Option BlockErr) = (s', none) := h
              exact ⟨rfl, st1, st2, rfl, hu, (congrArg Prod.fst h).symm⟩

/-- Success analysis of the apply route's statement sequence. -/
lemma runBlockStmts {b : Block} {st st1 : Store}
    (h : runStmts st (blockStmts b) = (st1, true)) :
    st.blocks.any (fun r => decide (r.1 = b.id ∨ r.2 = b.height)) = false ∧
    (b.transactions.map (·.id)).Nodup ∧
    (∀ t ∈ b.transactions, t.id ∉ st.transactions.map (·.1)) ∧
    st1 = { st with
      blocks := st.blocks ++ [(b.id, b.height)],
      transactions := st.transactions ++ b.transactions.map (fun t => (t.id, b.id)),
      inputs := st.inputs ++ inputRowsOf b.transactions,
      outputs := b.transactions.foldl applyTxRows st.outputs } := by
  replace h : (match execStmt st (DbStmt.insBlock b.id b.height) with
    | none => (st, false)
    | some st2 => runStmts st2 ((b.transactions.map (txStmts b.id)).flatten)) = (st1, true) := h
  have hex : execStmt st (DbStmt.insBlock b.id b.height) =
      (if st.blocks.any (fun r => decide (r.1 = b.id ∨ r.2 = b.height)) = true then none
       else some { st with blocks := st.blocks ++ [(b.id, b.height)] }) := rfl
  rw [hex] at h
  by_cases hdup : st.blocks.any (fun r => decide (r.1 = b.id ∨ r.2 = b.height)) = true
  · rw [if_pos hdup] at h
    exact Bool.noConfusion (congrArg Prod.snd h)
  · rw [if_neg hdup] at h
    replace h : runStmts { st with blocks := st.blocks ++ [(b.id, b.height)] }
        ((b.transactions.map (txStmts b.id)).flatten) = (st1, true) := h
    rcases runBlockTxs b.id b.transactions _ _ h with ⟨⟨hnd, hfr⟩, hst1⟩
    refine ⟨Bool.eq_false_iff.mpr hdup, hnd, fun t ht => ?_, hst1⟩
    have hx := hfr t ht
    exact hx

/-! ### Bridge: the unspent entries of the flagged rows are exactly the
    specification UTXO set of the journal -/

lemma unspentEntries_markRows {rows : List OutRow} (h : ∀ r ∈ rows, r.is_spent = false)
    (P : List (String × Nat)) :
    unspentEntries (markRows rows P) =
      (rows.filter (fun r => !(P.contains (r.txid, r.idx)))).map rowEntry := by
  induction rows with
  | nil => rfl
  | cons r rest ih =>
      have hrest := ih (fun x hx => h x (List.mem_cons_of_mem r hx))
      have hr0 := h r (List.mem_cons_self r rest)
      rw [markRows_cons, List.filter_cons]
      by_cases hc : P.contains (r.txid, r.idx) = true
      · rw [if_pos hc, unspentEntries_cons, if_pos rfl, hrest, hc]
        rw [show (!true) = false from rfl]
        rw [if_neg (by intro hx; exact Bool.noConfusion hx)]
      · have hcf : P.contains (r.txid, r.idx) = false := Bool.eq_false_iff.mpr hc
        rw [if_neg hc, unspentEntries_cons, if_neg (by rw [hr0]; exact Bool.noConfusion),
          hrest, hcf]
        rw [show (!false) = true from rfl, if_pos rfl, List.map_cons]

lemma alGet_filter_rowEntry {k : String} (q : OutRow → Bool) :
    ∀ (rows : List OutRow),
      (∀ r ∈ rows, q r = false → outputKey r.txid r.idx ≠ k) →
      alGet ((rows.filter q).map rowEntry) k = alGet (rows.map rowEntry) k := by
  intro rows
  induction rows with
  | nil => intro _; rfl
  | cons r rest ih =>
      intro hq
      have htail := ih (fun x hx hqx => hq x (List.mem_cons_of_mem r hx) hqx)
      rw [List.filter_cons]
      by_cases hr : q r = true
      · rw [if_pos hr, List.map_cons, List.map_cons,
          show rowEntry r = (outputKey r.txid r.idx, (⟨r.address, r.value⟩ : Output)) from rfl,
          alGet_cons, alGet_cons]
        by_cases hk : outputKey r.txid r.idx = k
        · rw [if_pos hk, if_pos hk]
        · rw [if_neg hk, if_neg hk]
          exact htail
      · have hrf : q r = false := Bool.eq_false_iff.mpr hr
        rw [if_neg hr, List.map_cons,
          show rowEntry r = (outputKey r.txid r.idx, (⟨r.address, r.value⟩ : Output)) from rfl,
          alGet_cons, if_neg (hq r (List.mem_cons_self r rest) hrf)]
        exact htail

lemma producedLookup_eq (bs : List Block) (k : String) :
    producedLookup bs k = alGet ((outRows bs).map rowEntry) k := by
  unfold producedLookup outRows
  congr 1
  induction journalTxs bs with
  | nil => rfl
  | cons t rest ih =>
      rw [List.map_cons, List.map_cons, List.flatten_cons, List.flatten_cons,
        List.map_append, ih]
      congr 1
      unfold outRowsOf
      rw [List.map_map]
      apply List.map_congr_left
      intro p _
      rfl

lemma mem_journalTxs {bs : List Block} {t : Transaction} :
    t ∈ journalTxs bs ↔ ∃ b ∈ bs, t ∈ b.transactions := by
  unfold journalTxs
  simp [List.mem_flatten]

lemma isSpentIn_iff (bs : List Block) (k : String) :
    isSpentIn bs k = true ↔ ∃ t ∈ journalTxs bs, ∃ i ∈ t.inputs, inputKey i = k := by
  unfold isSpentIn
  simp [List.any_eq_true]

lemma spentPairs_mem_iff (ts : List Transaction) (x : String × Nat) :
    x ∈ spentPairs ts ↔ ∃ t ∈ ts, ∃ i ∈ t.inputs, (i.txId, i.index) = x := by
  unfold spentPairs
  constructor
  · intro hx
    rcases List.mem_flatten.mp hx with ⟨l, hl, hxl⟩
    rcases List.mem_map.mp hl with ⟨t, ht, rfl⟩
    rcases List.mem_map.mp hxl with ⟨i, hi, hix⟩
    exact ⟨t, ht, i, hi, hix⟩
  · rintro ⟨t, ht, i, hi, hix⟩
    apply List.mem_flatten.mpr
    exact ⟨_, List.mem_map_of_mem _ ht, hix ▸ List.mem_map_of_mem _ hi⟩

lemma unspent_lookup (bs : List Block) (k : String) :
    alGet (unspentEntries (outRowsFlagged bs)) k = specUnspent bs k := by
  unfold outRowsFlagged specUnspent
  rw [unspentEntries_markRows (fun r hr => outRows_unspent hr)]
  by_cases hsp : isSpentIn bs k = true
  · rw [if_pos hsp]
    apply alGet_none_of_keys
    intro hmem
    rw [List.map_map] at hmem
    rcases List.mem_map.mp hmem with ⟨r, hrf, hrk⟩
    rcases List.mem_filter.mp hrf with ⟨hrmem, hqv⟩
    rcases (isSpentIn_iff bs k).mp hsp with ⟨t, ht, i, hi, hik⟩
    have hrk2 : outputKey r.txid r.idx = k := hrk
    have hkey : outputKey i.txId i.index = outputKey r.txid r.idx := by
      rw [← inputKey_eq_outputKey, hik, hrk2]
    rcases outputKey_inj hkey with ⟨hti, hii⟩
    have hp : (r.txid, r.idx) ∈ spentPairs (journalTxs bs) :=
      (spentPairs_mem_iff _ _).mpr ⟨t, ht, i, hi, by rw [hti, hii]⟩
    have hcv := (containsPair_iff (spentPairs (journalTxs bs)) (r.txid, r.idx)).mpr hp
    rw [hcv] at hqv
    exact Bool.noConfusion hqv
  · have hside : ∀ r ∈ outRows bs,
        (fun r => !(spentPairs (journalTxs bs)).contains (r.txid, r.idx)) r = false →
        outputKey r.txid r.idx ≠ k := by
      intro r hr hqf hk
      apply hsp
      replace hqf : (!(spentPairs (journalTxs bs)).contains (r.txid, r.idx)) = false := hqf
      have hcv : (spentPairs (journalTxs bs)).contains (r.txid, r.idx) = true := by
        cases hcc : (spentPairs (journalTxs bs)).contains (r.txid, r.idx) with
        | true => rfl
        | false =>
            rw [hcc] at hqf
            exact Bool.noConfusion hqf
      rcases (spentPairs_mem_iff _ _).mp ((containsPair_iff _ _).mp hcv) with ⟨t, ht, i, hi, hpi⟩
      refine (isSpentIn_iff bs k).mpr ⟨t, ht, i, hi, ?_⟩
      rw [inputKey_eq_outputKey]
      have h1 : i.txId = r.txid := congrArg Prod.fst hpi
      have h2 : i.index = r.idx := congrArg Prod.snd hpi
      rw [h1, h2, hk]
    rw [if_neg hsp, alGet_filter_rowEntry _ (outRows bs) hside, ← producedLookup_eq]

lemma producedLookup_txid {bs : List Block} {k : String} {u : Output}
    (h : producedLookup bs k = some u) :
    ∃ t ∈ journalTxs bs, ∃ idx, k = outputKey t.id idx := by
  rw [producedLookup_eq] at h
  have hmem := alGet_some_mem h
  rcases List.mem_map.mp hmem with ⟨r, hr, hre⟩
  rcases outRows_mem hr with ⟨t, ht, hrt⟩
  refine ⟨t, ht, r.idx, ?_⟩
  have hkey : outputKey r.txid r.idx = k := congrArg Prod.fst hre
  rw [← hkey, outRowsOf_txid hrt]

lemma specUnspent_txid {bs : List Block} {k : String} (h : specUnspent bs k ≠ none) :
    ∃ t ∈ journalTxs bs, ∃ idx, k = outputKey t.id idx := by
  unfold specUnspent at h
  by_cases hsp : isSpentIn bs k = true
  · rw [if_pos hsp] at h
    exact absurd rfl h
  · rw [if_neg hsp] at h
    cases hp : producedLookup bs k with
    | none => rw [hp] at h; exact absurd rfl h
    | some u => exact producedLookup_txid hp

lemma spentPairs_txid_old {bs : List Block}
    (href : ∀ p b2, bs.get? p = some b2 → ∀ t ∈ b2.transactions, ∀ i ∈ t.inputs,
      specUnspent (bs.take p) (inputKey i) ≠ none) :
    ∀ x ∈ spentPairs (journalTxs bs), x.1 ∈ journalTxIds bs := by
  intro x hx
  rcases (spentPairs_mem_iff _ _).mp hx with ⟨t, ht, i, hi, hxi⟩
  rcases mem_journalTxs.mp ht with ⟨b2, hb2, htb⟩
  rcases List.mem_iff_get?.mp hb2 with ⟨p, hp⟩
  have hs := href p b2 hp t htb i hi
  rcases specUnspent_txid hs with ⟨t2, ht2, idx, hkey⟩
  rw [inputKey_eq_outputKey] at hkey
  rcases outputKey_inj hkey with ⟨hti, _⟩
  have hmem : i.txId ∈ journalTxIds (bs.take p) := by
    rw [hti]
    exact List.mem_map_of_mem (·.id) ht2
  have : x.1 = i.txId := by rw [← hxi]
  rw [this]
  exact journalTxIds_take_mem hmem

/-! ### Support for the chain-invariant step -/

lemma validateBlock_none_height {cur : ℚ} {utxos : UtxoMap} {b : Block}
    (h : validateBlock cur utxos b = none) : heightOkB cur b = true := by
  unfold validateBlock at h
  unfold heightOkB
  by_cases h0 : cur = 0
  · rw [if_pos h0] at h
    rw [if_pos h0]
    by_cases h1 : b.height ≠ 1
    · rw [if_pos h1] at h
      cases h
    · push_neg at h1
      simp [h1]
  · rw [if_neg h0] at h
    rw [if_neg h0]
    by_cases h1 : (b.height : ℚ) ≠ cur + 1
    · rw [if_pos h1] at h
      cases h
    · push_neg at h1
      simp [h1]

lemma upsertBals_fields :
    ∀ (l : BalMap) (st st1 : Store) (ok : Bool), upsertBals st l = (st1, ok) →
      st1.blocks = st.blocks ∧ st1.transactions = st.transactions ∧
      st1.inputs = st.inputs ∧ st1.outputs = st.outputs := by
  intro l
  induction l with
  | nil =>
      intro st st1 ok h
      have : st = st1 := congrArg Prod.fst h
      subst this
      exact ⟨rfl, rfl, rfl, rfl⟩
  | cons e rest ih =>
      intro st st1 ok h
      obtain ⟨a, v⟩ := e
      replace h : (match dbIntOfJVal v with
        | none => (st, false)
        | some n => upsertBals { st with balances := alSet st.balances a n } rest) =
          (st1, ok) := h
      cases hv : dbIntOfJVal v with
      | none =>
          rw [hv] at h
          have : st = st1 := congrArg Prod.fst h
          subst this
          exact ⟨rfl, rfl, rfl, rfl⟩
      | some n =>
          rw [hv] at h
          exact ih { st with balances := alSet st.balances a n } st1 ok h

lemma outputKey_inj_right (tid : String) : Function.Injective (outputKey tid) :=
  fun i1 i2 h => (outputKey_inj h).2

lemma outRowsOf_keys (t : Transaction) :
    (outRowsOf t).map (fun r => outputKey r.txid r.idx) =
      (List.range t.outputs.length).map (outputKey t.id) := by
  unfold outRowsOf
  rw [List.map_map, ← List.enum_map_fst t.outputs, List.map_map]
  rfl

lemma outRowsOf_keys_nodup (t : Transaction) :
    ((outRowsOf t).map (fun r => outputKey r.txid r.idx)).Nodup := by
  rw [outRowsOf_keys]
  exact (List.nodup_range t.outputs.length).map (outputKey_inj_right t.id)

lemma outRowsFresh_keys_nodup :
    ∀ (ts : List Transaction), (ts.map (·.id)).Nodup →
      (((ts.map outRowsOf).flatten).map (fun r => outputKey r.txid r.idx)).Nodup := by
  intro ts
  induction ts with
  | nil => intro _; exact List.nodup_nil
  | cons t rest ih =>
      intro hnd
      rw [List.map_cons, List.nodup_cons] at hnd
      rw [List.map_cons, List.flatten_cons, List.map_append]
      refine (outRowsOf_keys_nodup t).append (ih hnd.2) ?_
      rw [List.disjoint_left]
      intro k hk1 hk2
      rcases List.mem_map.mp hk1 with ⟨r1, hr1, rfl⟩
      rcases List.mem_map.mp hk2 with ⟨r2, hr2, hke⟩
      rcases List.mem_flatten.mp hr2 with ⟨l2, hl2, hr2l⟩
      rcases List.mem_map.mp hl2 with ⟨t2, ht2, rfl⟩
      have h1 : r1.txid = t.id := outRowsOf_txid hr1
      have h2 : r2.txid = t2.id := outRowsOf_txid hr2l
      have hne : r2.txid ≠ r1.txid := by
        rw [h1, h2]
        intro hc
        exact hnd.1 (hc ▸ List.mem_map_of_mem (·.id) ht2)
      exact outputKey_ne_of_txid hne hke

lemma journalTxs_single (b : Block) : journalTxs [b] = b.transactions := by
  unfold journalTxs
  simp

lemma journalTxIds_single (b : Block) : journalTxIds [b] = b.transactions.map (·.id) := by
  unfold journalTxIds
  rw [journalTxs_single]

lemma range'_snoc1 (n : Nat) : List.range' 1 (n + 1) = List.range' 1 n ++ [n + 1] := by
  rw [List.range'_concat 1 n]
  simp [Nat.add_comm]

/-! ### The chain-invariant step -/

lemma chainStep {bs : List Block} {s s' : FullState} {b : Block}
    (inv : ChainInv bs s) (h : postBlock s b = (s', none)) :
    ChainInv (bs ++ [b]) s' := by
  rcases postBlock_ok h with ⟨hval, st1, st2, hrun, hups, hs'⟩
  rcases runBlockStmts hrun with ⟨hbdup, htnd, htfr, hst1⟩
  have hh : b.height = bs.length + 1 := by
    have hhb := validateBlock_none_height hval
    rw [inv.curEq] at hhb
    exact (heightOkB_nat_iff bs.length b).mp hhb
  have hvt : validateTxs s.mem.utxos b.transactions = none := validateBlock_none_txs hval
  have hfound := validateTxs_none_found hvt
  have hsnap : s.mem.utxos = unspentEntries (outRowsFlagged bs) := by
    have h1 : s.mem.utxos = (memOfJournal bs).1 := congrArg Prod.fst inv.memEq
    rw [h1, inv.utxoRows]
  have hspecSome : ∀ t ∈ b.transactions, ∀ i ∈ t.inputs,
      specUnspent bs (inputKey i) ≠ none := by
    intro t ht i hi
    have hfi := hfound t ht i hi
    rw [hsnap, unspent_lookup] at hfi
    intro hc
    rw [hc] at hfi
    exact Bool.noConfusion hfi
  have hins : ∀ t ∈ b.transactions, ∀ i ∈ t.inputs, i.txId ∈ journalTxIds bs := by
    intro t ht i hi
    rcases specUnspent_txid (hspecSome t ht i hi) with ⟨t2, ht2, idx, hkey⟩
    rw [inputKey_eq_outputKey] at hkey
    rcases outputKey_inj hkey with ⟨hti, _⟩
    rw [hti]
    exact List.mem_map_of_mem (·.id) ht2
  have htids : ∀ t ∈ b.transactions, t.id ∉ journalTxIds bs := by
    intro t ht hmem
    apply htfr t ht
    rw [inv.storeTxs, txsTable_keys]
    exact hmem
  have hPold : ∀ x ∈ spentPairs (journalTxs bs), x.1 ∈ journalTxIds bs :=
    spentPairs_txid_old inv.refsValid
  have hnewmem : ∀ r ∈ ((b.transactions.map outRowsOf).flatten),
      ∃ t ∈ b.transactions, r ∈ outRowsOf t := by
    intro r hr
    rcases List.mem_flatten.mp hr with ⟨l, hl, hrl⟩
    rcases List.mem_map.mp hl with ⟨t, ht, rfl⟩
    exact ⟨t, ht, hrl⟩
  have hnewfresh : ∀ r ∈ ((b.transactions.map outRowsOf).flatten),
      r.txid ∉ journalTxIds bs := by
    intro r hr
    rcases hnewmem r hr with ⟨t, ht, hrt⟩
    rw [outRowsOf_txid hrt]
    exact htids t ht
  have hnewunspent : ∀ r ∈ ((b.transactions.map outRowsOf).flatten),
      r.is_spent = false := by
    intro r hr
    rcases hnewmem r hr with ⟨t, _, hrt⟩
    exact outRowsOf_unspent hrt
  have hnewunmarked :
      markRows ((b.transactions.map outRowsOf).flatten)
        (spentPairs (journalTxs bs) ++ spentPairs b.transactions) =
      (b.transactions.map outRowsOf).flatten := by
    apply markRows_eq_self
    intro r hr hmem
    rcases List.mem_append.mp hmem with hx | hx
    · exact hnewfresh r hr (hPold _ hx)
    · rcases (spentPairs_mem_iff _ _).mp hx with ⟨t, ht, i, hi, hpi⟩
      apply hnewfresh r hr
      have hti : i.txId = r.txid := congrArg Prod.fst hpi
      rw [← hti]
      exact hins t ht i hi
  have hrows := rowsLoop (journalTxIds bs) b.transactions (outRows bs)
      (spentPairs (journalTxs bs)) [] hins htids (fun r hr => absurd hr (List.not_mem_nil r))
  rw [List.append_nil, List.nil_append] at hrows
  have hflag : outRowsFlagged (bs ++ [b]) =
      markRows (outRows bs) (spentPairs (journalTxs bs) ++ spentPairs b.transactions) ++
        (b.transactions.map outRowsOf).flatten := by
    unfold outRowsFlagged
    rw [outRows_snoc, journalTxs_append, journalTxs_single, spentPairs_append,
      markRows_append, hnewunmarked]
  rcases upsertBals_fields _ _ _ _ hups with ⟨hub, hut, hui, huo⟩
  have hpairold : (unspentEntries (markRows (outRows bs) (spentPairs (journalTxs bs))) ++
      List.map rowEntry [], (memOfJournal bs).2) = memOfJournal bs := by
    rw [List.map_nil, List.append_nil]
    show (unspentEntries (outRowsFlagged bs), (memOfJournal bs).2) = memOfJournal bs
    rw [← inv.utxoRows]
  have hmaps0 : MapsInv (unspentEntries (markRows (outRows bs) (spentPairs (journalTxs bs))) ++
      List.map rowEntry [], (memOfJournal bs).2) := by
    rw [hpairold]
    exact inv.maps
  have hbl := blockLoop (outRows bs) (journalTxIds bs) (fun r hr => outRows_txid hr)
      b.transactions (spentPairs (journalTxs bs)) [] (memOfJournal bs).2
      hins (fun r hr => absurd hr (List.not_mem_nil r)) htids htnd
      (fun r hr => absurd hr (List.not_mem_nil r)) hmaps0
  rw [hpairold, List.nil_append] at hbl
  have hmj : memOfJournal (bs ++ [b]) = b.transactions.foldl memApplyTx (memOfJournal bs) := by
    rw [memOfJournal_snoc]
    rfl
  subst hs'
  refine ⟨?_, ?_, ?_, ?_, ?_, ?_, ?_, ?_, ?_, ?_, ?_, ?_, ?_, ?_, ?_⟩
  · -- blocksEq
    show s.mem.blocks ++ [b] = bs ++ [b]
    rw [inv.blocksEq]
  · -- heights
    rw [List.map_append, inv.heights,
      show (List.map (·.height) [b]) = [b.height] from rfl,
      List.length_append, List.length_singleton, hh, range'_snoc1]
  · -- curEq
    show ((b.height : ℚ)) = _
    rw [hh, List.length_append, List.length_singleton]
  · -- txNodup
    rw [journalTxIds_append, journalTxIds_single]
    refine inv.txNodup.append htnd (List.disjoint_right.mpr ?_)
    intro a ha
    rcases List.mem_map.mp ha with ⟨t, ht, rfl⟩
    exact htids t ht
  · -- bidNodup
    show ((bs ++ [b]).map (·.id)).Nodup
    rw [List.map_append]
    have hbid : b.id ∉ blockIds bs := by
      intro hmem
      have hmem2 : b.id ∈ s.store.blocks.map (·.1) := by
        rw [inv.storeBlocks, blocksTable_keys]
        exact hmem
      rcases List.mem_map.mp hmem2 with ⟨r, hr, hrid⟩
      have hx := List.any_eq_false.mp hbdup r hr
      replace hx : ¬(decide (r.1 = b.id ∨ r.2 = b.height) = true) := hx
      exact hx (decide_eq_true (Or.inl hrid))
    refine inv.bidNodup.append ?_ (List.disjoint_right.mpr ?_)
    · exact List.nodup_singleton b.id
    · intro a ha
      rcases List.mem_map.mp ha with ⟨x, hx, rfl⟩
      have hxb : x = b := by
        rcases List.mem_singleton.mp hx with rfl
        rfl
      subst hxb
      exact hbid
  · -- memEq
    show memApplyBlock (s.mem.utxos, s.mem.balances) b = memOfJournal (bs ++ [b])
    rw [memOfJournal_snoc, ← inv.memEq]
  · -- storeBlocks
    rw [hub, hst1]
    show s.store.blocks ++ [(b.id, b.height)] = blocksTable (bs ++ [b])
    rw [inv.storeBlocks, blocksTable_append,
      show blocksTable [b] = [(b.id, b.height)] from rfl]
  · -- storeTxs
    rw [hut, hst1]
    show s.store.transactions ++ b.transactions.map (fun t => (t.id, b.id)) =
      txsTable (bs ++ [b])
    have htx1 : txsTable [b] = b.transactions.map (fun t => (t.id, b.id)) := by
      unfold txsTable
      simp
    rw [inv.storeTxs, txsTable_append, htx1]
  · -- storeInputs
    rw [hui, hst1]
    show s.store.inputs ++ inputRowsOf b.transactions = inputsTable (bs ++ [b])
    rw [inv.storeInputs]
    show inputsTable bs ++ inputRowsOf b.transactions =
      inputRowsOf (journalTxs (bs ++ [b]))
    rw [journalTxs_append, journalTxs_single, inputRowsOf_append]
    rfl
  · -- storeOutputs
    rw [huo, hst1]
    show b.transactions.foldl applyTxRows s.store.outputs = outRowsFlagged (bs ++ [b])
    rw [inv.storeOutputs]
    show b.transactions.foldl applyTxRows
      (markRows (outRows bs) (spentPairs (journalTxs bs))) = _
    rw [hrows, hflag]
  · -- storeBal
    have hmapsm : MapsInv (memApplyBlock (s.mem.utxos, s.mem.balances) b) := by
      rw [inv.memEq]
      exact hbl.2
    have hnum : ∀ e ∈ (memApplyBlock (s.mem.utxos, s.mem.balances) b).2, ∃ n,
        e.2 = JVal.num n := hmapsm.2.1
    have hknd : ((memApplyBlock (s.mem.utxos, s.mem.balances) b).2.map (·.1)).Nodup :=
      hmapsm.2.2.1
    have hchar := upsertBals_num (memApplyBlock (s.mem.utxos, s.mem.balances) b).2 st1 hnum
    have hst2 : st2 = { st1 with balances :=
        ((memApplyBlock (s.mem.utxos, s.mem.balances) b).2.foldl
          (fun acc e => alSet acc e.1 (jvalZ e.2)) st1.balances) } :=
      (congrArg Prod.fst (hchar.symm.trans hups)).symm
    have hm2 : (memApplyBlock (s.mem.utxos, s.mem.balances) b).2 =
        (memOfJournal (bs ++ [b])).2 := by
      rw [memOfJournal_snoc, ← inv.memEq]
    have hb1 : st1.balances = s.store.balances := by rw [hst1]
    intro a
    rw [hst2]
    show alGet ((memApplyBlock (s.mem.utxos, s.mem.balances) b).2.foldl
      (fun acc e => alSet acc e.1 (jvalZ e.2)) st1.balances) a = _
    rw [upsert_fold_lookup _ st1.balances a hknd, ← hm2]
    cases hma : alGet (memApplyBlock (s.mem.utxos, s.mem.balances) b).2 a with
    | some v => rfl
    | none =>
        show alGet st1.balances a = _
        rw [hb1, inv.storeBal a]
        cases hgo : alGet (memOfJournal bs).2 a with
        | none => rfl
        | some w =>
            exfalso
            have hsome : (alGet (memOfJournal bs).2 a).isSome = true := by
              rw [hgo]
              rfl
            have hmono := balSome_block b (memOfJournal bs) a hsome
            rw [← inv.memEq] at hmono
            rw [hma] at hmono
            exact Bool.noConfusion hmono
  · -- utxoRows
    rw [hmj, hbl.1, hflag, unspentEntries_append, unspentEntries_unspent hnewunspent]
  · -- prodNodup
    rw [outRows_snoc, List.map_append]
    refine inv.prodNodup.append (outRowsFresh_keys_nodup _ htnd) (List.disjoint_right.mpr ?_)
    intro k hknew hkold
    rcases List.mem_map.mp hknew with ⟨r2, hr2, rfl⟩
    rcases List.mem_map.mp hkold with ⟨r1, hr1, hke⟩
    have h1 : r1.txid ∈ journalTxIds bs := outRows_txid hr1
    have h2 : r2.txid ∉ journalTxIds bs := hnewfresh r2 hr2
    rcases outputKey_inj hke with ⟨ht, _⟩
    exact h2 (ht ▸ h1)
  · -- maps
    rw [hmj]
    exact hbl.2
  · -- refsValid
    intro p b2 hget t ht i hi
    rcases Nat.lt_or_ge p bs.length with hp | hp
    · rw [List.get?_append hp] at hget
      have htake : (bs ++ [b]).take p = bs.take p :=
        List.take_append_of_le_length (Nat.le_of_lt hp)
      rw [htake]
      exact inv.refsValid p b2 hget t ht i hi
    · rw [List.get?_append_right hp] at hget
      cases hd : p - bs.length with
      | zero =>
          rw [hd] at hget
          replace hget : some b = some b2 := hget
          have hb2 : b2 = b := (Option.some.inj hget).symm
          have hpe : p = bs.length := Nat.le_antisymm (Nat.sub_eq_zero_iff_le.mp hd) hp
          have htake : (bs ++ [b]).take p = bs := by
            rw [hpe, List.take_append_of_le_length (Nat.le_refl _), List.take_length]
          rw [htake]
          rw [hb2] at ht
          exact hspecSome t ht i hi
      | succ n =>
          rw [hd] at hget
          replace hget : (none : Option Block) = some b2 := hget
          exact Option.noConfusion hget

/-! ### Every pure apply-chain state satisfies the chain invariant -/

lemma applyChain_nil (s : FullState) : applyChain s [] = some s := rfl

lemma applyChain_cons (s : FullState) (b : Block) (rest : List Block) :
    applyChain s (b :: rest) =
      match postBlock s b with
      | (s2, none) => applyChain s2 rest
      | _ => none := rfl

lemma applyChain_append :
    ∀ (l1 l2 : List Block) (s : FullState),
      applyChain s (l1 ++ l2) =
        match applyChain s l1 with
        | some s2 => applyChain s2 l2
        | none => none := by
  intro l1
  induction l1 with
  | nil => intro l2 s; rfl
  | cons b rest ih =>
      intro l2 s
      rw [List.cons_append, applyChain_cons, applyChain_cons]
      rcases hp : postBlock s b with ⟨s2, e⟩
      cases e with
      | none => exact ih l2 s2
      | some e2 => rfl

lemma chainInv_nil : ChainInv [] initState := by
  refine ⟨rfl, rfl, by show (0 : ℚ) = (([] : List Block).length : ℚ); simp, List.nodup_nil, List.nodup_nil, rfl, rfl, rfl, rfl, rfl,
    fun a => rfl, rfl, List.nodup_nil, ?_, ?_⟩
  · exact ⟨List.nodup_nil, fun e he => absurd he (List.not_mem_nil e), List.nodup_nil,
      fun a => rfl⟩
  · intro p b2 hc
    exact Option.noConfusion hc

lemma applyChain_inv : ∀ (bs : List Block) (s : FullState),
    applyChain initState bs = some s → ChainInv bs s := by
  intro bs
  induction bs using List.reverseRecOn with
  | nil =>
      intro s h
      replace h : some initState = some s := h
      have hs : initState = s := Option.some.inj h
      rw [← hs]
      exact chainInv_nil
  | append_singleton bs b ih =>
      intro s h
      rw [applyChain_append] at h
      cases hc : applyChain initState bs with
      | none =>
          rw [hc] at h
          replace h : (none : Option FullState) = some s := h
          exact Option.noConfusion h
      | some s1 =>
          rw [hc] at h
          replace h : applyChain s1 [b] = some s := h
          rw [applyChain_cons] at h
          rcases hp : postBlock s1 b with ⟨s2, e⟩
          rw [hp] at h
          cases e with
          | none =>
              replace h : some s2 = some s := h
              have hs : s2 = s := Option.some.inj h
              exact hs ▸ chainStep (ih s1 hc) hp
          | some e2 =>
              replace h : (none : Option FullState) = some s := h
              exact Option.noConfusion h

/-! ### The insert statements never read or write the balances relation -/

lemma execStmt_setBal (s : DbStmt) (st : Store) (bal : List (String × Int)) :
    execStmt { st with balances := bal } s =
      match execStmt st s with
      | none => none
      | some r => some { r with balances := bal } := by
  cases s with
  | insBlock i h =>
      by_cases hc : st.blocks.any (fun r => decide (r.1 = i ∨ r.2 = h)) = true
      · rw [show execStmt { st with balances := bal } (DbStmt.insBlock i h) = none by
          show (if st.blocks.any (fun r => decide (r.1 = i ∨ r.2 = h)) = true then none
            else _) = none
          rw [if_pos hc]]
        rw [show execStmt st (DbStmt.insBlock i h) = none by
          show (if st.blocks.any (fun r => decide (r.1 = i ∨ r.2 = h)) = true then none
            else _) = none
          rw [if_pos hc]]
      · rw [show execStmt { st with balances := bal } (DbStmt.insBlock i h) =
            some { st with balances := bal, blocks := st.blocks ++ [(i, h)] } by
          show (if st.blocks.any (fun r => decide (r.1 = i ∨ r.2 = h)) = true then none
            else some _) = _
          rw [if_neg hc]]
        rw [show execStmt st (DbStmt.insBlock i h) =
            some { st with blocks := st.blocks ++ [(i, h)] } by
          show (if st.blocks.any (fun r => decide (r.1 = i ∨ r.2 = h)) = true then none
            else some _) = _
          rw [if_neg hc]]
  | insTx i bid =>
      by_cases hc : st.transactions.any (fun r => decide (r.1 = i)) = true
      · rw [show execStmt { st with balances := bal } (DbStmt.insTx i bid) = none by
          show (if st.transactions.any (fun r => decide (r.1 = i)) = true then none
            else _) = none
          rw [if_pos hc]]
        rw [show execStmt st (DbStmt.insTx i bid) = none by
          show (if st.transactions.any (fun r => decide (r.1 = i)) = true then none
            else _) = none
          rw [if_pos hc]]
      · rw [show execStmt { st with balances := bal } (DbStmt.insTx i bid) =
            some { st with balances := bal, transactions := st.transactions ++ [(i, bid)] } by
          show (if st.transactions.any (fun r => decide (r.1 = i)) = true then none
            else some _) = _
          rw [if_neg hc]]
        rw [show execStmt st (DbStmt.insTx i bid) =
            some { st with transactions := st.transactions ++ [(i, bid)] } by
          show (if st.transactions.any (fun r => decide (r.1 = i)) = true then none
            else some _) = _
          rw [if_neg hc]]
  | insInput t sp j => rfl
  | markSpent t j => rfl
  | insOutput t j a v =>
      by_cases hc : st.outputs.any (fun r => decide (r.txid = t ∧ r.idx = j)) = true
      · rw [show execStmt { st with balances := bal } (DbStmt.insOutput t j a v) = none by
          show (if st.outputs.any (fun r => decide (r.txid = t ∧ r.idx = j)) = true then none
            else _) = none
          rw [if_pos hc]]
        rw [show execStmt st (DbStmt.insOutput t j a v) = none by
          show (if st.outputs.any (fun r => decide (r.txid = t ∧ r.idx = j)) = true then none
            else _) = none
          rw [if_pos hc]]
      · rw [show execStmt { st with balances := bal } (DbStmt.insOutput t j a v) =
            some { st with balances := bal, outputs := st.outputs ++ [⟨t, j, a, v, false⟩] } by
          show (if st.outputs.any (fun r => decide (r.txid = t ∧ r.idx = j)) = true then none
            else some _) = _
          rw [if_neg hc]]
        rw [show execStmt st (DbStmt.insOutput t j a v) =
            some { st with outputs := st.outputs ++ [⟨t, j, a, v, false⟩] } by
          show (if st.outputs.any (fun r => decide (r.txid = t ∧ r.idx = j)) = true then none
            else some _) = _
          rw [if_neg hc]]

lemma runStmts_setBal :
    ∀ (L : List DbStmt) (st : Store) (bal : List (String × Int)),
      runStmts { st with balances := bal } L =
        ({ (runStmts st L).1 with balances := bal }, (runStmts st L).2) := by
  intro L
  induction L with
  | nil => intro st bal; rfl
  | cons s rest ih =>
      intro st bal
      rw [runStmts_cons, runStmts_cons, execStmt_setBal]
      cases hc : execStmt st s with
      | none => rfl
      | some r => exact ih r bal

lemma runStmts_bal_const (L : List DbStmt) (st : Store) :
    (runStmts st L).1.balances = st.balances := by
  have h := runStmts_setBal L st st.balances
  have h2 : runStmts st L = ({ (runStmts st L).1 with balances := st.balances },
      (runStmts st L).2) := h
  have := congrArg (fun p => (Prod.fst p).balances) h2
  exact this

lemma store_eq_of {st st' : Store} (h1 : st.blocks = st'.blocks)
    (h2 : st.transactions = st'.transactions) (h3 : st.inputs = st'.inputs)
    (h4 : st.outputs = st'.outputs) (h5 : st.balances = st'.balances) : st = st' := by
  cases st with
  | mk a b c d e =>
      cases st' with
      | mk a' b' c' d' e' =>
          replace h1 : a = a' := h1
          replace h2 : b = b' := h2
          replace h3 : c = c' := h3
          replace h4 : d = d' := h4
          replace h5 : e = e' := h5
          subst h1
          subst h2
          subst h3
          subst h4
          subst h5
          rfl

lemma upsertBals_ok_iff :
    ∀ (l : BalMap) (st : Store),
      (upsertBals st l).2 = true ↔ ∀ e ∈ l, dbIntOfJVal e.2 ≠ none := by
  intro l
  induction l with
  | nil =>
      intro st
      exact ⟨fun _ e he => absurd he (List.not_mem_nil e), fun _ => rfl⟩
  | cons e rest ih =>
      intro st
      obtain ⟨a, v⟩ := e
      show ((match dbIntOfJVal v with
        | none => (st, false)
        | some n => upsertBals { st with balances := alSet st.balances a n } rest) :
          Store × Bool).2 = true ↔ _
      cases hv : dbIntOfJVal v with
      | none =>
          constructor
          · intro hf
            exact Bool.noConfusion hf
          · intro hall
            exact absurd hv (hall (a, v) (List.mem_cons_self _ _))
      | some n =>
          rw [ih { st with balances := alSet st.balances a n }]
          constructor
          · intro hall e2 he2
            rcases List.mem_cons.mp he2 with rfl | ht
            · intro hc
              rw [hv] at hc
              exact Option.noConfusion hc
            · exact hall e2 ht
          · intro hall e2 he2
            exact hall e2 (List.mem_cons_of_mem _ he2)

/-! ### The utxo component of the in-memory apply ignores the balance map -/

lemma fold_fst_congr {β : Type} (f g : (UtxoMap × BalMap) → β → (UtxoMap × BalMap))
    (hfg : ∀ m m' x, m.1 = m'.1 → (f m x).1 = (g m' x).1) :
    ∀ (l : List β) (m m' : UtxoMap × BalMap), m.1 = m'.1 →
      (l.foldl f m).1 = (l.foldl g m').1 := by
  intro l
  induction l with
  | nil => intro m m' h; exact h
  | cons x rest ih => intro m m' h; exact ih (f m x) (g m' x) (hfg m m' x h)

lemma memApplyTx_fst_congr (t : Transaction) (m m' : UtxoMap × BalMap) (h : m.1 = m'.1) :
    (memApplyTx m t).1 = (memApplyTx m' t).1 := by
  unfold memApplyTx
  apply fold_fst_congr (memCredit t.id) (memCredit t.id)
  · intro m2 m2' p h2
    rw [memCredit_fst, memCredit_fst, h2]
  · apply fold_fst_congr memSpend memSpend
    · intro m2 m2' i h2
      rw [memSpend_fst, memSpend_fst, h2]
    · exact h

lemma memApplyBlock_fst_congr (b : Block) (m m' : UtxoMap × BalMap) (h : m.1 = m'.1) :
    (memApplyBlock m b).1 = (memApplyBlock m' b).1 := by
  unfold memApplyBlock
  apply fold_fst_congr memApplyTx memApplyTx
  · intro m2 m2' t h2
    exact memApplyTx_fst_congr t m2 m2' h2
  · exact h

/-! ### Building a successful POST /blocks result -/

lemma postBlock_build {s : FullState} {b : Block} {st1 st2 : Store}
    (hval : validateBlock s.mem.currentHeight s.mem.utxos b = none)
    (hrun : runStmts s.store (blockStmts b) = (st1, true))
    (hups : upsertBals st1 (memApplyBlock (s.mem.utxos, s.mem.balances) b).2 = (st2, true)) :
    postBlock s b =
      (⟨⟨s.mem.blocks ++ [b], (b.height : ℚ),
         (memApplyBlock (s.mem.utxos, s.mem.balances) b).2,
         (memApplyBlock (s.mem.utxos, s.mem.balances) b).1⟩, st2⟩, none) := by
  unfold postBlock
  rw [hval, hrun]
  show (match upsertBals st1 (memApplyBlock (s.mem.utxos, s.mem.balances) b).2 with
    | (st2, false) =>
        ((⟨⟨s.mem.blocks, s.mem.currentHeight,
            (memApplyBlock (s.mem.utxos, s.mem.balances) b).2,
            (memApplyBlock (s.mem.utxos, s.mem.balances) b).1⟩, st2⟩,
          some BlockErr.storeFail) : FullState × Option BlockErr)
    | (st2, true) =>
        (⟨⟨s.mem.blocks ++ [b], (b.height : ℚ),
            (memApplyBlock (s.mem.utxos, s.mem.balances) b).2,
            (memApplyBlock (s.mem.utxos, s.mem.balances) b).1⟩, st2⟩, none)) = _
  rw [hups]

/-- From a chain state, the in-memory maps after a validated block satisfy
    the maps invariant (in particular every balance value is numeric). -/
lemma chain_mem_maps {bs : List Block} {s0 : FullState} {b : Block}
    (inv : ChainInv bs s0)
    (hval : validateBlock s0.mem.currentHeight s0.mem.utxos b = none)
    (htnd : (b.transactions.map (·.id)).Nodup)
    (htids : ∀ t ∈ b.transactions, t.id ∉ journalTxIds bs) :
    MapsInv (memApplyBlock (s0.mem.utxos, s0.mem.balances) b) := by
  have hvt : validateTxs s0.mem.utxos b.transactions = none := validateBlock_none_txs hval
  have hfound := validateTxs_none_found hvt
  have hsnap : s0.mem.utxos = unspentEntries (outRowsFlagged bs) := by
    have h1 : s0.mem.utxos = (memOfJournal bs).1 := congrArg Prod.fst inv.memEq
    rw [h1, inv.utxoRows]
  have hspecSome : ∀ t ∈ b.transactions, ∀ i ∈ t.inputs,
      specUnspent bs (inputKey i) ≠ none := by
    intro t ht i hi
    have hfi := hfound t ht i hi
    rw [hsnap, unspent_lookup] at hfi
    intro hc
    rw [hc] at hfi
    exact Bool.noConfusion hfi
  have hins : ∀ t ∈ b.transactions, ∀ i ∈ t.inputs, i.txId ∈ journalTxIds bs := by
    intro t ht i hi
    rcases specUnspent_txid (hspecSome t ht i hi) with ⟨t2, ht2, idx, hkey⟩
    rw [inputKey_eq_outputKey] at hkey
    rcases outputKey_inj hkey with ⟨hti, _⟩
    rw [hti]
    exact List.mem_map_of_mem (·.id) ht2
  have hpairold : (unspentEntries (markRows (outRows bs) (spentPairs (journalTxs bs))) ++
      List.map rowEntry [], (memOfJournal bs).2) = memOfJournal bs := by
    rw [List.map_nil, List.append_nil]
    show (unspentEntries (outRowsFlagged bs), (memOfJournal bs).2) = memOfJournal bs
    rw [← inv.utxoRows]
  have hmaps0 : MapsInv (unspentEntries (markRows (outRows bs) (spentPairs (journalTxs bs))) ++
      List.map rowEntry [], (memOfJournal bs).2) := by
    rw [hpairold]
    exact inv.maps
  have hbl := blockLoop (outRows bs) (journalTxIds bs) (fun r hr => outRows_txid hr)
      b.transactions (spentPairs (journalTxs bs)) [] (memOfJournal bs).2
      hins (fun r hr => absurd hr (List.not_mem_nil r)) htids htnd
      (fun r hr => absurd hr (List.not_mem_nil r)) hmaps0
  rw [hpairold] at hbl
  rw [inv.memEq]
  exact hbl.2

/-! ### Reach-invariant: initialization and the apply step -/

/-! ### Parse-coherent upserts, balance-key uniqueness, and the aggregate
    query as a function of the output rows -/

lemma dbIntOfJVal_jvalZ : ∀ {v : JVal} {n : Int}, dbIntOfJVal v = some n → jvalZ v = n := by
  intro v n h
  cases v with
  | num m => exact Option.some.inj h
  | nan => exact absurd h (fun hc => Option.noConfusion hc)
  | str s =>
      replace h : parseIntStr s = some n := h
      show (parseIntStr s).getD 0 = n
      rw [h]
      rfl

lemma upsertBals_parse :
    ∀ (l : BalMap) (st : Store), (∀ e ∈ l, dbIntOfJVal e.2 ≠ none) →
      upsertBals st l =
        ({ st with balances := l.foldl (fun acc e => alSet acc e.1 (jvalZ e.2)) st.balances },
         true) := by
  intro l
  induction l with
  | nil => intro st _; rfl
  | cons e rest ih =>
      intro st hall
      obtain ⟨a, v⟩ := e
      have hv : dbIntOfJVal v ≠ none := hall (a, v) (List.mem_cons_self _ _)
      cases hdv : dbIntOfJVal v with
      | none => exact absurd hdv hv
      | some n =>
          have hjz : jvalZ v = n := dbIntOfJVal_jvalZ hdv
          have hstep : upsertBals st ((a, v) :: rest) =
              upsertBals { st with balances := alSet st.balances a n } rest := by
            show (match dbIntOfJVal v with
              | none => (st, false)
              | some n2 => upsertBals { st with balances := alSet st.balances a n2 } rest) =
              upsertBals { st with balances := alSet st.balances a n } rest
            rw [hdv]
          rw [hstep, ih { st with balances := alSet st.balances a n }
            (fun x hx => hall x (List.mem_cons_of_mem _ hx))]
          show ({ st with balances :=
              (rest.foldl (fun (acc : List (String × Int)) (e : String × JVal) =>
                alSet acc e.1 (jvalZ e.2)) (alSet st.balances a n)) }, true) =
            ({ st with balances :=
              (rest.foldl (fun (acc : List (String × Int)) (e : String × JVal) =>
                alSet acc e.1 (jvalZ e.2)) (alSet st.balances a (jvalZ v))) }, true)
          rw [hjz]

lemma balNodup_spend (i : Input) {m : UtxoMap × BalMap}
    (h : (m.2.map (·.1)).Nodup) : ((memSpend m i).2.map (·.1)).Nodup := by
  cases hget : alGet m.1 (inputKey i) with
  | some u =>
      rw [memSpend_some hget]
      exact keys_alSet_nodup h _ _
  | none =>
      rw [memSpend_none hget]
      exact h

lemma balNodup_credit (txid : String) (p : Nat × Output) {m : UtxoMap × BalMap}
    (h : (m.2.map (·.1)).Nodup) : ((memCredit txid m p).2.map (·.1)).Nodup := by
  show ((alSet m.2 p.2.address
    (jsAddV (jsOrZero (alGet m.2 p.2.address)) p.2.value)).map (·.1)).Nodup
  exact keys_alSet_nodup h _ _

lemma balNodup_block (b : Block) (m : UtxoMap × BalMap)
    (h : (m.2.map (·.1)).Nodup) : ((memApplyBlock m b).2.map (·.1)).Nodup := by
  unfold memApplyBlock
  refine foldl_pres memApplyTx (fun m2 => (m2.2.map (·.1)).Nodup) ?_ b.transactions m h
  intro m2 t hm2
  unfold memApplyTx
  refine foldl_pres (memCredit t.id) (fun m3 => (m3.2.map (·.1)).Nodup)
    (fun m3 p h3 => balNodup_credit t.id p h3) t.outputs.enum _ ?_
  exact foldl_pres memSpend (fun m3 => (m3.2.map (·.1)).Nodup)
    (fun m3 i h3 => balNodup_spend i h3) t.inputs m2 hm2

lemma balNone_block (b : Block) (m : UtxoMap × BalMap) (a : String)
    (h : alGet (memApplyBlock m b).2 a = none) : alGet m.2 a = none := by
  cases hm : alGet m.2 a with
  | none => rfl
  | some v =>
      have hx := balSome_block b m a (by rw [hm]; rfl)
      rw [h] at hx
      exact absurd hx (fun hc => Bool.noConfusion hc)

lemma alGet_map_snd {α β : Type} (f : α → β) :
    ∀ (l : List (String × α)) (a : String),
      alGet (l.map (fun e => (e.1, f e.2))) a = (alGet l a).map f := by
  intro l
  induction l with
  | nil => intro a; rfl
  | cons e rest ih =>
      intro a
      obtain ⟨k, v⟩ := e
      show (if k = a then some (f v) else alGet (rest.map (fun e => (e.1, f e.2))) a) =
        (if k = a then some v else alGet rest a).map f
      by_cases hk : k = a
      · rw [if_pos hk, if_pos hk]
        rfl
      · rw [if_neg hk, if_neg hk]
        exact ih a

lemma aggUnspent_go_nodup :
    ∀ (rows : List OutRow) (acc : List (String × Int)), (acc.map (·.1)).Nodup →
      ((rows.foldl (fun acc r => if r.is_spent then acc
          else alSet acc r.address ((alGet acc r.address).getD 0 + r.value)) acc).map
        (·.1)).Nodup := by
  intro rows
  induction rows with
  | nil => intro acc h; exact h
  | cons r rest ih =>
      intro acc h
      show ((rest.foldl (fun acc r => if r.is_spent then acc
          else alSet acc r.address ((alGet acc r.address).getD 0 + r.value))
        (if r.is_spent then acc
          else alSet acc r.address ((alGet acc r.address).getD 0 + r.value))).map
        (·.1)).Nodup
      by_cases hs : r.is_spent
      · rw [if_pos hs]
        exact ih acc h
      · rw [if_neg hs]
        exact ih _ (keys_alSet_nodup h _ _)

lemma aggUnspent_keys_nodup (rows : List OutRow) :
    ((aggUnspent rows).map (·.1)).Nodup :=
  aggUnspent_go_nodup rows [] List.nodup_nil

lemma sumUnspentAt_zero {rows : List OutRow} {a : String}
    (h : hasUnspentAt rows a = false) : sumUnspentAt rows a = 0 := by
  unfold sumUnspentAt
  have hnil : rows.filter (fun r => !r.is_spent && r.address == a) = [] := by
    rw [List.filter_eq_nil]
    intro r hr hp
    have hx : hasUnspentAt rows a = true := by
      unfold hasUnspentAt
      rw [List.any_eq_true]
      exact ⟨r, hr, hp⟩
    rw [h] at hx
    exact Bool.noConfusion hx
  rw [hnil]
  rfl

lemma aggUnspent_go :
    ∀ (rows : List OutRow) (acc : List (String × Int)) (a : String),
      alGet (rows.foldl (fun acc r => if r.is_spent then acc
          else alSet acc r.address ((alGet acc r.address).getD 0 + r.value)) acc) a =
        (if hasUnspentAt rows a then
          some ((alGet acc a).getD 0 + sumUnspentAt rows a)
        else alGet acc a) := by
  intro rows
  induction rows with
  | nil =>
      intro acc a
      show alGet acc a = if hasUnspentAt [] a then
        some ((alGet acc a).getD 0 + sumUnspentAt [] a) else alGet acc a
      rw [show hasUnspentAt [] a = false from rfl, if_neg (fun hc => Bool.noConfusion hc)]
  | cons r rest ih =>
      intro acc a
      show alGet (rest.foldl (fun acc r => if r.is_spent then acc
          else alSet acc r.address ((alGet acc r.address).getD 0 + r.value))
        (if r.is_spent then acc
          else alSet acc r.address ((alGet acc r.address).getD 0 + r.value))) a =
        (if hasUnspentAt (r :: rest) a then
          some ((alGet acc a).getD 0 + sumUnspentAt (r :: rest) a)
        else alGet acc a)
      by_cases hs : r.is_spent
      · rw [if_pos hs, ih acc a]
        have hpred : (!r.is_spent && r.address == a) = false := by
          rw [hs]
          rfl
        have hnot : ¬ ((!r.is_spent && r.address == a) = true) :=
          fun hc => Bool.noConfusion (hpred ▸ hc)
        have hh : hasUnspentAt (r :: rest) a = hasUnspentAt rest a := by
          show ((!r.is_spent && r.address == a) || hasUnspentAt rest a) = hasUnspentAt rest a
          rw [hpred]
          rfl
        have hsum : sumUnspentAt (r :: rest) a = sumUnspentAt rest a := by
          show ((List.filter (fun r => !r.is_spent && r.address == a) (r :: rest)).map
            (·.value)).sum = _
          rw [@List.filter_cons_of_neg OutRow (fun r => !r.is_spent && r.address == a) r rest hnot]
          rfl
        rw [hh, hsum]
      · rw [if_neg hs, ih _ a]
        have hsf : r.is_spent = false := by
          cases hb : r.is_spent with
          | false => rfl
          | true => exact absurd hb hs
        by_cases ha : r.address = a
        · have hpred : (!r.is_spent && r.address == a) = true := by
            rw [hsf, ha]
            show (true && (a == a)) = true
            rw [Bool.true_and]
            exact beq_self_eq_true a
          have hh : hasUnspentAt (r :: rest) a = true := by
            show ((!r.is_spent && r.address == a) || hasUnspentAt rest a) = true
            rw [hpred, Bool.true_or]
          have hsum : sumUnspentAt (r :: rest) a = r.value + sumUnspentAt rest a := by
            show ((List.filter (fun r => !r.is_spent && r.address == a) (r :: rest)).map
              (·.value)).sum = _
            rw [@List.filter_cons_of_pos OutRow (fun r => !r.is_spent && r.address == a) r rest hpred,
              List.map_cons, List.sum_cons]
            rfl
          have hself : alGet (alSet acc r.address ((alGet acc r.address).getD 0 + r.value)) a =
              some ((alGet acc a).getD 0 + r.value) := by
            subst ha
            exact alGet_alSet_self acc r.address _
          rw [hh, hsum, if_pos rfl, hself]
          by_cases hr : hasUnspentAt rest a = true
          · rw [if_pos hr]
            show some ((alGet acc a).getD 0 + r.value + sumUnspentAt rest a) =
              some ((alGet acc a).getD 0 + (r.value + sumUnspentAt rest a))
            rw [add_assoc]
          · rw [if_neg hr]
            have hrf : hasUnspentAt rest a = false := by
              cases hb : hasUnspentAt rest a with
              | false => rfl
              | true => exact absurd hb hr
            have hz : sumUnspentAt rest a = 0 := sumUnspentAt_zero hrf
            rw [hz, add_zero]
        · have hpred : (!r.is_spent && r.address == a) = false := by
            rw [hsf]
            show (true && (r.address == a)) = false
            rw [Bool.true_and]
            exact beq_eq_false_iff_ne.mpr ha
          have hnot : ¬ ((!r.is_spent && r.address == a) = true) :=
            fun hc => Bool.noConfusion (hpred ▸ hc)
          have hh : hasUnspentAt (r :: rest) a = hasUnspentAt rest a := by
            show ((!r.is_spent && r.address == a) || hasUnspentAt rest a) = hasUnspentAt rest a
            rw [hpred]
            rfl
          have hsum : sumUnspentAt (r :: rest) a = sumUnspentAt rest a := by
            show ((List.filter (fun r => !r.is_spent && r.address == a) (r :: rest)).map
              (·.value)).sum = _
            rw [@List.filter_cons_of_neg OutRow (fun r => !r.is_spent && r.address == a) r rest hnot]
            rfl
          have hne : alGet (alSet acc r.address ((alGet acc r.address).getD 0 + r.value)) a =
              alGet acc a := alGet_alSet_ne acc _ ha
          rw [hh, hsum, hne]

lemma alGet_aggUnspent (rows : List OutRow) (a : String) :
    alGet (aggUnspent rows) a =
      if hasUnspentAt rows a then some (sumUnspentAt rows a) else none := by
  unfold aggUnspent
  rw [aggUnspent_go rows [] a]
  by_cases hh : hasUnspentAt rows a = true
  · rw [if_pos hh, if_pos hh]
    show some ((0 : Int) + sumUnspentAt rows a) = some (sumUnspentAt rows a)
    rw [zero_add]
  · rw [if_neg hh, if_neg hh]
    rfl

lemma utxoAgg_unspentEntries (rows : List OutRow) (a : String) :
    utxoAgg (unspentEntries rows) a = sumUnspentAt rows a := by
  unfold utxoAgg unspentEntries sumUnspentAt
  rw [List.filter_map, List.map_map, List.filter_filter]
  have hcong : ∀ r ∈ rows,
      (((fun (e : String × Output) => e.2.address == a) ∘ rowEntry) r && !r.is_spent) =
        (!r.is_spent && r.address == a) :=
    fun r _ => Bool.and_comm _ _
  rw [List.filter_congr hcong]
  rfl

lemma ReachInv_init : ReachInv initState :=
  ⟨initState, rfl, rfl, rfl, rfl, rfl, rfl, fun e he => absurd he (List.not_mem_nil e),
    List.nodup_nil, fun _ => rfl,
    ⟨by show ((0 : Nat) : ℚ) ≤ (0 : ℚ); simp,
     by show (0 : ℚ) < ((0 : Nat) : ℚ) + 1; norm_num⟩, fun _ => rfl⟩

lemma ReachInv_apply {s s' : FullState} {b : Block}
    (hr : ReachInv s) (h : postBlock s b = (s', none)) : ReachInv s' := by
  obtain ⟨s0, hchain, hu, hsb, hst, hsi, hso, hbal, hknd, hsbal, hwin, hzero⟩ := hr
  have inv0 := applyChain_inv s.mem.blocks s0 hchain
  rcases postBlock_ok h with ⟨hval, st1, st2, hrun, hups, hs'⟩
  have hcur : s.mem.currentHeight = (s.mem.blocks.length : ℚ) := by
    have hhb := validateBlock_none_height hval
    unfold heightOkB at hhb
    by_cases h0 : s.mem.currentHeight = 0
    · have hle : (s.mem.blocks.length : ℚ) ≤ 0 := h0 ▸ hwin.1
      have hge : (0 : ℚ) ≤ (s.mem.blocks.length : ℚ) := Nat.cast_nonneg _
      rw [h0, le_antisymm hle hge]
    · rw [if_neg h0] at hhb
      have hbh : (b.height : ℚ) = s.mem.currentHeight + 1 := of_decide_eq_true hhb
      have hcur0 : (0 : ℚ) ≤ s.mem.currentHeight :=
        le_trans (Nat.cast_nonneg _) hwin.1
      have hb1 : 1 ≤ b.height := by
        have hx : (1 : ℚ) ≤ (b.height : ℚ) := by
          rw [hbh]
          linarith
        exact_mod_cast hx
      have hmq : ((b.height - 1 : Nat) : ℚ) = s.mem.currentHeight := by
        rw [Nat.cast_sub hb1, hbh]
        push_cast
        ring
      have h1 : s.mem.blocks.length ≤ b.height - 1 := by
        have hx : (s.mem.blocks.length : ℚ) ≤ ((b.height - 1 : Nat) : ℚ) := by
          rw [hmq]
          exact hwin.1
        exact_mod_cast hx
      have h2 : b.height - 1 < s.mem.blocks.length + 1 := by
        have hx : ((b.height - 1 : Nat) : ℚ) < (s.mem.blocks.length : ℚ) + 1 := by
          rw [hmq]
          exact hwin.2
        exact_mod_cast hx
      have heq : b.height - 1 = s.mem.blocks.length :=
        le_antisymm (Nat.lt_succ_iff.mp h2) h1
      rw [← hmq, heq]
  have hh : b.height = s.mem.blocks.length + 1 :=
    (heightOkB_nat_iff _ b).mp (by rw [← hcur]; exact validateBlock_none_height hval)
  have hval0 : validateBlock s0.mem.currentHeight s0.mem.utxos b = none := by
    rw [inv0.curEq, ← hcur, ← hu]
    exact hval
  have hstore : s.store = { s0.store with balances := s.store.balances } :=
    store_eq_of hsb hst hsi hso rfl
  have hbal1 : (runStmts s0.store (blockStmts b)).1.balances = s0.store.balances :=
    runStmts_bal_const _ _
  have h1 : runStmts s.store (blockStmts b) =
      ({ (runStmts s0.store (blockStmts b)).1 with balances := s.store.balances },
       (runStmts s0.store (blockStmts b)).2) := by
    conv_lhs => rw [hstore]
    exact runStmts_setBal _ _ _
  have h2 := h1.symm.trans hrun
  have hflag : (runStmts s0.store (blockStmts b)).2 = true := congrArg Prod.snd h2
  have hfst : { (runStmts s0.store (blockStmts b)).1 with
      balances := s.store.balances } = st1 := congrArg Prod.fst h2
  have hrun0 : runStmts s0.store (blockStmts b) =
      ({ st1 with balances := s0.store.balances }, true) := by
    rcases hr0 : runStmts s0.store (blockStmts b) with ⟨st1p, okp⟩
    rw [hr0] at hflag hfst hbal1
    replace hflag : okp = true := hflag
    subst hflag
    replace hbal1 : st1p.balances = s0.store.balances := hbal1
    replace hfst : { st1p with balances := s.store.balances } = st1 := hfst
    have hcb := congrArg Store.blocks hfst
    have hct := congrArg Store.transactions hfst
    have hci := congrArg Store.inputs hfst
    have hco := congrArg Store.outputs hfst
    have hx : st1p = { st1 with balances := s0.store.balances } :=
      @store_eq_of st1p { st1 with balances := s0.store.balances } hcb hct hci hco hbal1
    rw [hx]
  rcases runBlockStmts hrun0 with ⟨_, htnd0, htfr0, _⟩
  have htids0 : ∀ t ∈ b.transactions, t.id ∉ journalTxIds s.mem.blocks := by
    intro t ht hmem
    apply htfr0 t ht
    rw [inv0.storeTxs, txsTable_keys]
    exact hmem
  have hmaps := chain_mem_maps inv0 hval0 htnd0 htids0
  have hchar := upsertBals_num (memApplyBlock (s0.mem.utxos, s0.mem.balances) b).2
    { st1 with balances := s0.store.balances } hmaps.2.1
  have hpost0 := postBlock_build hval0 hrun0 hchar
  have hchain' : applyChain initState (s.mem.blocks ++ [b]) = some (postBlock s0 b).1 := by
    rw [applyChain_append, hchain]
    show applyChain s0 [b] = _
    rw [applyChain_cons, hpost0]
    rfl
  rcases upsertBals_fields _ _ _ _ hups with ⟨hub, hut, hui, huo⟩
  subst hs'
  refine ⟨(postBlock s0 b).1, ?_, ?_, ?_, ?_, ?_, ?_, ?_, ?_, ?_, ⟨?_, ?_⟩, ?_⟩
  · exact hchain'
  · show (memApplyBlock (s.mem.utxos, s.mem.balances) b).1 = _
    rw [hpost0]
    exact memApplyBlock_fst_congr b _ _ hu
  · show st2.blocks = _
    rw [hpost0]
    exact hub
  · show st2.transactions = _
    rw [hpost0]
    exact hut
  · show st2.inputs = _
    rw [hpost0]
    exact hui
  · show st2.outputs = _
    rw [hpost0]
    exact huo
  · show ∀ e ∈ (memApplyBlock (s.mem.utxos, s.mem.balances) b).2, dbIntOfJVal e.2 ≠ none
    exact (upsertBals_ok_iff _ st1).mp (by rw [hups])
  · show ((memApplyBlock (s.mem.utxos, s.mem.balances) b).2.map (·.1)).Nodup
    exact balNodup_block b (s.mem.utxos, s.mem.balances) hknd
  · show ∀ a, alGet st2.balances a =
      (alGet (memApplyBlock (s.mem.utxos, s.mem.balances) b).2 a).map jvalZ
    intro a
    have hall : ∀ e ∈ (memApplyBlock (s.mem.utxos, s.mem.balances) b).2,
        dbIntOfJVal e.2 ≠ none := (upsertBals_ok_iff _ st1).mp (by rw [hups])
    have hpar := upsertBals_parse (memApplyBlock (s.mem.utxos, s.mem.balances) b).2 st1 hall
    have hst2 : st2 = { st1 with balances :=
        ((memApplyBlock (s.mem.utxos, s.mem.balances) b).2.foldl
          (fun (acc : List (String × Int)) (e : String × JVal) =>
            alSet acc e.1 (jvalZ e.2)) st1.balances) } :=
      congrArg Prod.fst (hups.symm.trans hpar)
    rw [hst2]
    show alGet ((memApplyBlock (s.mem.utxos, s.mem.balances) b).2.foldl
        (fun acc e => alSet acc e.1 (jvalZ e.2)) st1.balances) a =
      (alGet (memApplyBlock (s.mem.utxos, s.mem.balances) b).2 a).map jvalZ
    rw [upsert_fold_lookup _ st1.balances a
      (balNodup_block b (s.mem.utxos, s.mem.balances) hknd)]
    cases hm : alGet (memApplyBlock (s.mem.utxos, s.mem.balances) b).2 a with
    | some v => rfl
    | none =>
        show alGet st1.balances a = none
        have hb0 := congrArg Store.balances hfst
        have hb1 : s.store.balances = st1.balances := hb0
        rw [← hb1, hsbal a]
        have hnone : alGet s.mem.balances a = none :=
          balNone_block b (s.mem.utxos, s.mem.balances) a hm
        rw [hnone]
        rfl
  · show (((s.mem.blocks ++ [b]).length : ℚ)) ≤ (b.height : ℚ)
    rw [List.length_append, List.length_singleton, hh]
  · show (b.height : ℚ) < ((s.mem.blocks ++ [b]).length : ℚ) + 1
    rw [hh, List.length_append, List.length_singleton]
    exact lt_add_one _
  · intro h0
    replace h0 : (s.mem.blocks ++ [b]).length = 0 := h0
    rw [List.length_append, List.length_singleton] at h0
    exact absurd h0 (Nat.succ_ne_zero _)

/-! ### Inversion of a 200 on POST /rollback -/

lemma postRollback_ok {s s' : FullState} {q : ℚ}
    (h : postRollback s (some q) = (s', none)) :
    1 ≤ q ∧ q ≤ s.mem.currentHeight ∧
    s' = ⟨⟨s.mem.blocks.filter (fun bl => decide ((bl.height : ℚ) ≤ q)), q,
           (aggUnspent (rollbackStore s.store q).outputs).map
             (fun e => (e.1, JVal.str (intReprJs e.2))),
           (rebuildMem (s.mem.blocks.filter (fun bl => decide ((bl.height : ℚ) ≤ q)))).1⟩,
          { rollbackStore s.store q with
            balances := aggUnspent (rollbackStore s.store q).outputs }⟩ := by
  unfold postRollback at h
  replace h : (if q < 1 then ((s, some RbErr.invalidParam) : FullState × Option RbErr)
      else if q > s.mem.currentHeight then (s, some RbErr.targetAbove)
      else (⟨⟨s.mem.blocks.filter (fun bl => decide ((bl.height : ℚ) ≤ q)), q,
          (aggUnspent (rollbackStore s.store q).outputs).map
            (fun e => (e.1, JVal.str (intReprJs e.2))),
          (rebuildMem (s.mem.blocks.filter (fun bl => decide ((bl.height : ℚ) ≤ q)))).1⟩,
          { rollbackStore s.store q with
            balances := aggUnspent (rollbackStore s.store q).outputs }⟩,
          none)) = (s', none) := h
  by_cases h1 : q < 1
  · rw [if_pos h1] at h
    exact absurd (congrArg Prod.snd h) (fun hc => Option.noConfusion hc)
  · rw [if_neg h1] at h
    by_cases h2 : q > s.mem.currentHeight
    · rw [if_pos h2] at h
      exact absurd (congrArg Prod.snd h) (fun hc => Option.noConfusion hc)
    · rw [if_neg h2] at h
      exact ⟨not_lt.mp h1, not_lt.mp h2, (congrArg Prod.fst h).symm⟩

/-! ### Heights 1..n: the blocks kept by a rollback are a prefix -/

lemma heightsFilter :
    ∀ (bs : List Block) (q : ℚ), bs.map (·.height) = List.range' 1 bs.length →
      ∃ m, m ≤ bs.length ∧
        bs.filter (fun bl => decide ((bl.height : ℚ) ≤ q)) = bs.take m ∧
        ((m : ℚ) ≤ q ∨ m = 0) ∧ (m < bs.length → q < (m : ℚ) + 1) := by
  intro bs
  induction bs using List.reverseRecOn with
  | nil =>
      intro q _
      exact ⟨0, Nat.le_refl 0, rfl, Or.inr rfl, fun hc => absurd hc (Nat.lt_irrefl 0)⟩
  | append_singleton bs b ih =>
      intro q hmap
      rw [List.map_append, List.length_append, List.length_singleton, range'_snoc1,
        show List.map (·.height) [b] = [b.height] from rfl] at hmap
      have hlen : (bs.map (·.height)).length = (List.range' 1 bs.length).length := by
        rw [List.length_map, List.length_range']
      rcases List.append_inj hmap hlen with ⟨hmap0, hbx⟩
      have hb : b.height = bs.length + 1 := (List.cons.inj hbx).1
      rw [List.filter_append]
      by_cases hq : (b.height : ℚ) ≤ q
      · have hall : ∀ bl ∈ bs, (fun bl => decide ((bl.height : ℚ) ≤ q)) bl = true := by
          intro bl hbl
          apply decide_eq_true
          have hblh : bl.height ∈ List.range' 1 bs.length := by
            rw [← hmap0]
            exact List.mem_map_of_mem (·.height) hbl
          have hlt : bl.height < 1 + bs.length := (List.mem_range'_1.mp hblh).2
          have hle : bl.height ≤ bs.length := by omega
          have hc1 : (bl.height : ℚ) ≤ (bs.length : ℚ) := by exact_mod_cast hle
          have hc2 : (bs.length : ℚ) + 1 = (b.height : ℚ) := by
            rw [hb]
            push_cast
            ring
          linarith
        rw [List.filter_eq_self.mpr hall]
        have hfb : [b].filter (fun bl => decide ((bl.height : ℚ) ≤ q)) = [b] := by
          simp [hq]
        rw [hfb]
        have hlen2 : (bs ++ [b]).length = bs.length + 1 := by
          rw [List.length_append, List.length_singleton]
        refine ⟨bs.length + 1, by omega, ?_, Or.inl ?_, ?_⟩
        · rw [← hlen2, List.take_length]
        · rw [show ((bs.length + 1 : Nat) : ℚ) = (b.height : ℚ) by rw [hb]]
          exact hq
        · intro hc
          rw [hlen2] at hc
          exact absurd hc (Nat.lt_irrefl _)
      · rcases ih q hmap0 with ⟨m, hm1, hm2, hm3, hm4⟩
        have hfb : [b].filter (fun bl => decide ((bl.height : ℚ) ≤ q)) = [] := by
          simp [hq]
        rw [hm2, hfb, List.append_nil]
        have hlen2 : (bs ++ [b]).length = bs.length + 1 := by
          rw [List.length_append, List.length_singleton]
        refine ⟨m, by omega, ?_, hm3, ?_⟩
        · rw [List.take_append_of_le_length hm1]
        · intro _
          by_cases hmlen : m < bs.length
          · exact hm4 hmlen
          · have hmeq : m = bs.length := le_antisymm hm1 (Nat.le_of_not_lt hmlen)
            have hql : q < (b.height : ℚ) := not_le.mp hq
            have hc2 : (b.height : ℚ) = (bs.length : ℚ) + 1 := by
              rw [hb]
              push_cast
              ring
            rw [hmeq]
            linarith

/-! ### Rollback support: membership characterizations -/

lemma scontains_iff (l : List String) (x : String) : l.contains x = true ↔ x ∈ l := by
  simp [List.contains]

lemma range'_drop (s n m : Nat) : (List.range' s n).drop m = List.range' (s + m) (n - m) := by
  induction n generalizing s m with
  | zero => simp
  | succ k ih =>
      cases m with
      | zero => simp
      | succ j =>
          rw [List.range'_succ]
          show (List.range' (s + 1) k).drop j = _
          rw [ih]
          congr 1 <;> omega

lemma range'_take (s n m : Nat) : (List.range' s n).take m = List.range' s (min m n) := by
  induction n generalizing s m with
  | zero => simp
  | succ k ih =>
      cases m with
      | zero => simp
      | succ j =>
          rw [List.range'_succ]
          show s :: (List.range' (s + 1) k).take j = _
          rw [ih, show min (j + 1) (k + 1) = min j k + 1 by omega, List.range'_succ]

lemma heights_take {bs : List Block} (hmap : bs.map (·.height) = List.range' 1 bs.length)
    {m : Nat} (hm : m ≤ bs.length) :
    (bs.take m).map (·.height) = List.range' 1 m := by
  rw [List.map_take, hmap, range'_take]
  congr 1
  omega

lemma heights_drop {bs : List Block} (hmap : bs.map (·.height) = List.range' 1 bs.length)
    (m : Nat) : (bs.drop m).map (·.height) = List.range' (1 + m) (bs.length - m) := by
  rw [List.map_drop, hmap, range'_drop]

lemma kept_low {bs : List Block} {m : Nat} {q : ℚ}
    (hmap : bs.map (·.height) = List.range' 1 bs.length) (hm : m ≤ bs.length)
    (hq2 : (m : ℚ) ≤ q ∨ m = 0) :
    ∀ bl ∈ bs.take m, (bl.height : ℚ) ≤ q := by
  intro bl hbl
  rcases hq2 with hq2 | rfl
  · have hh : bl.height ∈ List.range' 1 m := by
      rw [← heights_take hmap hm]
      exact List.mem_map_of_mem (·.height) hbl
    have hle : bl.height ≤ m := by
      have := (List.mem_range'_1.mp hh).2
      omega
    have hc : (bl.height : ℚ) ≤ (m : ℚ) := by exact_mod_cast hle
    linarith
  · rw [List.take_zero] at hbl
    exact absurd hbl (List.not_mem_nil bl)

lemma dropped_high {bs : List Block} {m : Nat} {q : ℚ}
    (hmap : bs.map (·.height) = List.range' 1 bs.length) (hq1 : q < (m : ℚ) + 1) :
    ∀ bl ∈ bs.drop m, ¬((bl.height : ℚ) ≤ q) := by
  intro bl hbl hc
  have hh : bl.height ∈ List.range' (1 + m) (bs.length - m) := by
    rw [← heights_drop hmap m]
    exact List.mem_map_of_mem (·.height) hbl
  have hge : 1 + m ≤ bl.height := (List.mem_range'_1.mp hh).1
  have hcast : (m : ℚ) + 1 ≤ (bl.height : ℚ) := by
    have hx : m + 1 ≤ bl.height := by omega
    have : ((m + 1 : Nat) : ℚ) ≤ (bl.height : ℚ) := by exact_mod_cast hx
    push_cast at this
    linarith
  linarith

lemma txsTable_mem {bs : List Block} {tr : String × String} :
    tr ∈ txsTable bs ↔ ∃ b2 ∈ bs, ∃ t ∈ b2.transactions, tr = (t.id, b2.id) := by
  unfold txsTable
  constructor
  · intro h
    rcases List.mem_flatten.mp h with ⟨l, hl, htr⟩
    rcases List.mem_map.mp hl with ⟨b2, hb2, rfl⟩
    rcases List.mem_map.mp htr with ⟨t, ht, hte⟩
    exact ⟨b2, hb2, t, ht, hte.symm⟩
  · rintro ⟨b2, hb2, t, ht, rfl⟩
    exact List.mem_flatten.mpr ⟨_, List.mem_map_of_mem _ hb2, List.mem_map_of_mem _ ht⟩

lemma journalTxIds_mem {l : List Block} {a : String} :
    a ∈ journalTxIds l ↔ ∃ b2 ∈ l, ∃ t ∈ b2.transactions, t.id = a := by
  unfold journalTxIds
  constructor
  · intro h
    rcases List.mem_map.mp h with ⟨t, ht, rfl⟩
    rcases mem_journalTxs.mp ht with ⟨b2, hb2, htb⟩
    exact ⟨b2, hb2, t, htb, rfl⟩
  · rintro ⟨b2, hb2, t, ht, rfl⟩
    exact List.mem_map_of_mem (·.id) (mem_journalTxs.mpr ⟨b2, hb2, ht⟩)

lemma inputsTable_mem {bs : List Block} {r : String × String × Nat} :
    r ∈ inputsTable bs ↔
      ∃ t ∈ journalTxs bs, ∃ i ∈ t.inputs, r = (t.id, i.txId, i.index) := by
  unfold inputsTable inputRowsOf
  constructor
  · intro h
    rcases List.mem_flatten.mp h with ⟨l, hl, hr⟩
    rcases List.mem_map.mp hl with ⟨t, ht, rfl⟩
    rcases List.mem_map.mp hr with ⟨i, hi, hie⟩
    exact ⟨t, ht, i, hi, hie.symm⟩
  · rintro ⟨t, ht, i, hi, rfl⟩
    exact List.mem_flatten.mpr ⟨_, List.mem_map_of_mem _ ht, List.mem_map_of_mem _ hi⟩

lemma block_id_inj {bs : List Block} (hnd : (blockIds bs).Nodup)
    {b1 b2 : Block} (h1 : b1 ∈ bs) (h2 : b2 ∈ bs) (h : b1.id = b2.id) : b1 = b2 :=
  List.inj_on_of_nodup_map hnd h1 h2 h

lemma flatten_filter_split {α β : Type} (g : β → List α) (p : α → Bool)
    (l1 l2 : List β)
    (hkeep : ∀ y ∈ l1, ∀ x ∈ g y, p x = true)
    (hdrop : ∀ y ∈ l2, ∀ x ∈ g y, p x = false) :
    (((l1 ++ l2).map g).flatten).filter p = (l1.map g).flatten := by
  rw [List.map_append, List.flatten_append, List.filter_append]
  have h1 : ((l1.map g).flatten).filter p = (l1.map g).flatten := by
    apply List.filter_eq_self.mpr
    intro x hx
    rcases List.mem_flatten.mp hx with ⟨l, hl, hxl⟩
    rcases List.mem_map.mp hl with ⟨y, hy, rfl⟩
    exact hkeep y hy x hxl
  have h2 : ((l2.map g).flatten).filter p = [] := by
    apply List.filter_eq_nil.mpr
    intro x hx
    rcases List.mem_flatten.mp hx with ⟨l, hl, hxl⟩
    rcases List.mem_map.mp hl with ⟨y, hy, rfl⟩
    rw [hdrop y hy x hxl]
    exact Bool.noConfusion
  rw [h1, h2, List.append_nil]

lemma resurrectOutputs_blocks (st : Store) (d : List String) :
    (resurrectOutputs st d).blocks = st.blocks := by
  unfold resurrectOutputs
  split <;> rfl

lemma resurrectOutputs_transactions (st : Store) (d : List String) :
    (resurrectOutputs st d).transactions = st.transactions := by
  unfold resurrectOutputs
  split <;> rfl

lemma resurrectOutputs_inputs (st : Store) (d : List String) :
    (resurrectOutputs st d).inputs = st.inputs := by
  unfold resurrectOutputs
  split <;> rfl

lemma deleteOutputsOf_blocks (st : Store) (d : List String) :
    (deleteOutputsOf st d).blocks = st.blocks := by
  unfold deleteOutputsOf
  split <;> rfl

lemma deleteOutputsOf_transactions (st : Store) (d : List String) :
    (deleteOutputsOf st d).transactions = st.transactions := by
  unfold deleteOutputsOf
  split <;> rfl

lemma deleteOutputsOf_inputs (st : Store) (d : List String) :
    (deleteOutputsOf st d).inputs = st.inputs := by
  unfold deleteOutputsOf
  split <;> rfl

lemma deleteBlocksAbove_outputs (st : Store) (q : ℚ) :
    (deleteBlocksAbove st q).outputs = st.outputs := rfl

lemma deleteInputsOf_blocks (st : Store) (d : List String) :
    (deleteInputsOf st d).blocks = st.blocks := by
  unfold deleteInputsOf
  split <;> rfl

lemma deleteInputsOf_transactions (st : Store) (d : List String) :
    (deleteInputsOf st d).transactions = st.transactions := by
  unfold deleteInputsOf
  split <;> rfl

lemma deleteInputsOf_outputs (st : Store) (d : List String) :
    (deleteInputsOf st d).outputs = st.outputs := by
  unfold deleteInputsOf
  split <;> rfl

/-! ### Rollback: the doomed transactions are those of the dropped blocks -/

lemma doomed_mem {bs : List Block} {s0 : FullState} (inv : ChainInv bs s0)
    {q : ℚ} {m : Nat} (hm : m ≤ bs.length)
    (hq1 : q < (m : ℚ) + 1) (hq2 : (m : ℚ) ≤ q ∨ m = 0) (a : String) :
    a ∈ doomedTxIds s0.store q ↔ a ∈ journalTxIds (bs.drop m) := by
  unfold doomedTxIds
  rw [inv.storeTxs, inv.storeBlocks]
  constructor
  · intro h
    rcases List.mem_map.mp h with ⟨tr, htr, hta⟩
    rcases List.mem_filter.mp htr with ⟨htab, hcond⟩
    rcases txsTable_mem.mp htab with ⟨b2, hb2, t, ht, rfl⟩
    rcases List.any_eq_true.mp hcond with ⟨br, hbr, hbrc⟩
    rcases List.mem_map.mp hbr with ⟨b3, hb3, rfl⟩
    have hbrc2 := of_decide_eq_true hbrc
    have hb32 : b3 = b2 := block_id_inj inv.bidNodup hb3 hb2 hbrc2.1
    have hhigh : (b2.height : ℚ) > q := by
      rw [← hb32]
      exact hbrc2.2
    have hsplit : b2 ∈ bs.take m ++ bs.drop m := by
      rw [List.take_append_drop]
      exact hb2
    rcases List.mem_append.mp hsplit with hk | hd
    · exact absurd (kept_low inv.heights hm hq2 b2 hk) (not_le.mpr hhigh)
    · exact journalTxIds_mem.mpr ⟨b2, hd, t, ht, hta⟩
  · intro h
    rcases journalTxIds_mem.mp h with ⟨b2, hb2, t, ht, hta⟩
    have hb2bs : b2 ∈ bs := by
      have hx := List.take_append_drop m bs
      rw [← hx]
      exact List.mem_append_right _ hb2
    have hhigh : ¬((b2.height : ℚ) ≤ q) := dropped_high inv.heights hq1 b2 hb2
    refine List.mem_map.mpr ⟨(t.id, b2.id), ?_, hta⟩
    refine List.mem_filter.mpr ⟨txsTable_mem.mpr ⟨b2, hb2bs, t, ht, rfl⟩, ?_⟩
    apply List.any_eq_true.mpr
    exact ⟨(b2.id, b2.height), List.mem_map_of_mem _ hb2bs,
      decide_eq_true ⟨rfl, not_le.mp hhigh⟩⟩

lemma txids_take_drop_disjoint {bs : List Block} (hnd : (journalTxIds bs).Nodup) (m : Nat) :
    ∀ a ∈ journalTxIds (bs.take m), a ∉ journalTxIds (bs.drop m) := by
  have hsplit : journalTxIds (bs.take m) ++ journalTxIds (bs.drop m) = journalTxIds bs := by
    rw [← journalTxIds_append, List.take_append_drop]
  rw [← hsplit] at hnd
  intro a h1 h2
  exact (List.disjoint_of_nodup_append hnd) h1 h2

/-! ### Rollback: field equations for the deletion helpers -/

lemma deleteBlocksAbove_blocks (st : Store) (q : ℚ) :
    (deleteBlocksAbove st q).blocks =
      st.blocks.filter (fun br => !(decide ((br.2 : ℚ) > q))) := rfl

lemma deleteBlocksAbove_transactions (st : Store) (q : ℚ) :
    (deleteBlocksAbove st q).transactions =
      st.transactions.filter (fun tr =>
        !(((st.blocks.filter (fun br => decide ((br.2 : ℚ) > q))).map (·.1)).contains tr.2)) :=
  rfl

lemma deleteBlocksAbove_inputs (st : Store) (q : ℚ) :
    (deleteBlocksAbove st q).inputs =
      st.inputs.filter (fun r =>
        !(((st.transactions.filter (fun tr =>
            ((st.blocks.filter (fun br => decide ((br.2 : ℚ) > q))).map (·.1)).contains tr.2)).map
              (·.1)).contains r.1)) := rfl

lemma deleteInputsOf_inputs_eq (st : Store) (d : List String) :
    (deleteInputsOf st d).inputs = st.inputs.filter (fun r => !(d.contains r.1)) := by
  unfold deleteInputsOf
  by_cases he : d.isEmpty = true
  · rw [if_pos he]
    have hd : d = [] := List.isEmpty_iff.mp he
    subst hd
    exact (List.filter_eq_self.mpr (fun r _ => rfl)).symm
  · rw [if_neg he]

lemma deleteOutputsOf_outputs_eq (st : Store) (d : List String) :
    (deleteOutputsOf st d).outputs = st.outputs.filter (fun r => !(d.contains r.txid)) := by
  unfold deleteOutputsOf
  by_cases he : d.isEmpty = true
  · rw [if_pos he]
    have hd : d = [] := List.isEmpty_iff.mp he
    subst hd
    exact (List.filter_eq_self.mpr (fun r _ => rfl)).symm
  · rw [if_neg he]

lemma resurrectOutputs_outputs_eq (st : Store) (d : List String) :
    (resurrectOutputs st d).outputs =
      st.outputs.map (fun r =>
        if (((st.inputs.filter (fun r2 => d.contains r2.1)).map
            (fun r2 => (r2.2.1, r2.2.2))).contains (r.txid, r.idx))
        then { r with is_spent := false } else r) := by
  unfold resurrectOutputs
  by_cases he : d.isEmpty = true
  · rw [if_pos he]
    have hd : d = [] := List.isEmpty_iff.mp he
    subst hd
    have hfe : (st.inputs.filter (fun r2 => ([] : List String).contains r2.1)) = [] :=
      List.filter_eq_nil.mpr (fun r2 _ => by
        rw [show (([] : List String).contains r2.1) = false from rfl]
        exact Bool.noConfusion)
    rw [hfe]
    have : ∀ r ∈ st.outputs,
        (if (([] : List (String × String × Nat)).map
            (fun r2 => (r2.2.1, r2.2.2))).contains (r.txid, r.idx)
          then ({ r with is_spent := false } : OutRow) else r) = r := by
      intro r _
      rfl
    rw [List.map_congr_left this]
    simp
  · rw [if_neg he]

/-! ### Rollback: the store relations are cut to the kept prefix -/

lemma rollback_blocks {bs : List Block} {s0 : FullState} (inv : ChainInv bs s0)
    {q : ℚ} {m : Nat}
    (hft : bs.filter (fun bl => decide ((bl.height : ℚ) ≤ q)) = bs.take m) :
    (rollbackStore s0.store q).blocks = blocksTable (bs.take m) := by
  unfold rollbackStore
  rw [deleteInputsOf_blocks, deleteBlocksAbove_blocks, deleteOutputsOf_blocks,
    resurrectOutputs_blocks, inv.storeBlocks]
  unfold blocksTable
  rw [List.filter_map, ← hft]
  congr 1
  apply List.filter_congr
  intro bl _
  show (!(decide ((bl.height : ℚ) > q))) = decide ((bl.height : ℚ) ≤ q)
  by_cases hc : (bl.height : ℚ) ≤ q
  · rw [decide_eq_true hc, decide_eq_false (not_lt.mpr hc)]
    rfl
  · rw [decide_eq_false hc, decide_eq_true (not_le.mp hc)]
    rfl

lemma deadT_sub {bs : List Block} {s0 : FullState} (inv : ChainInv bs s0)
    {q : ℚ} {m : Nat} (hm : m ≤ bs.length)
    (hq1 : q < (m : ℚ) + 1) (hq2 : (m : ℚ) ≤ q ∨ m = 0) :
    ∀ x ∈ ((txsTable bs).filter (fun tr =>
        (((blocksTable bs).filter (fun br => decide ((br.2 : ℚ) > q))).map (·.1)).contains
          tr.2)).map (·.1),
      x ∈ journalTxIds (bs.drop m) := by
  intro x hx
  rcases List.mem_map.mp hx with ⟨tr, htr, hta⟩
  rcases List.mem_filter.mp htr with ⟨htab, hcond⟩
  rcases txsTable_mem.mp htab with ⟨b2, hb2, t, ht, rfl⟩
  replace hcond : (((blocksTable bs).filter
      (fun br => decide ((br.2 : ℚ) > q))).map (·.1)).contains b2.id = true := hcond
  have hin := (scontains_iff _ _).mp hcond
  rcases List.mem_map.mp hin with ⟨br, hbr, hbid⟩
  rcases List.mem_filter.mp hbr with ⟨hbmem, hbhigh⟩
  rcases List.mem_map.mp hbmem with ⟨b3, hb3, rfl⟩
  have h32 : b3 = b2 := block_id_inj inv.bidNodup hb3 hb2 hbid
  have hhigh := of_decide_eq_true hbhigh
  rw [h32] at hhigh
  have hsplitm : b2 ∈ bs.take m ++ bs.drop m := by
    rw [List.take_append_drop]
    exact hb2
  rcases List.mem_append.mp hsplitm with hk | hd
  · exact absurd (kept_low inv.heights hm hq2 b2 hk) (not_le.mpr hhigh)
  · exact journalTxIds_mem.mpr ⟨b2, hd, t, ht, hta⟩

lemma rollback_txs {bs : List Block} {s0 : FullState} (inv : ChainInv bs s0)
    {q : ℚ} {m : Nat} (hm : m ≤ bs.length)
    (hq1 : q < (m : ℚ) + 1) (hq2 : (m : ℚ) ≤ q ∨ m = 0) :
    (rollbackStore s0.store q).transactions = txsTable (bs.take m) := by
  unfold rollbackStore
  rw [deleteInputsOf_transactions, deleteBlocksAbove_transactions,
    deleteOutputsOf_transactions, resurrectOutputs_transactions,
    deleteOutputsOf_blocks, resurrectOutputs_blocks, inv.storeTxs, inv.storeBlocks]
  have hsplit : txsTable bs =
      ((bs.take m ++ bs.drop m).map
        (fun b => b.transactions.map (fun t => (t.id, b.id)))).flatten := by
    rw [List.take_append_drop]
    rfl
  rw [hsplit]
  show _ = ((bs.take m).map (fun b => b.transactions.map (fun t => (t.id, b.id)))).flatten
  refine flatten_filter_split _ _ _ _ ?_ ?_
  · intro b2 hb2 x hx
    rcases List.mem_map.mp hx with ⟨t, ht, rfl⟩
    show (!((((blocksTable bs).filter (fun br => decide ((br.2 : ℚ) > q))).map
      (·.1)).contains b2.id)) = true
    have hnotin : b2.id ∉ ((blocksTable bs).filter
        (fun br => decide ((br.2 : ℚ) > q))).map (·.1) := by
      intro hin
      rcases List.mem_map.mp hin with ⟨br, hbr, hbid⟩
      rcases List.mem_filter.mp hbr with ⟨hbmem, hbhigh⟩
      rcases List.mem_map.mp hbmem with ⟨b3, hb3, rfl⟩
      have hb2bs : b2 ∈ bs := by
        have hx2 := List.take_append_drop m bs
        rw [← hx2]
        exact List.mem_append_left _ hb2
      have h32 : b3 = b2 := block_id_inj inv.bidNodup hb3 hb2bs hbid
      have hhigh := of_decide_eq_true hbhigh
      rw [h32] at hhigh
      exact absurd (kept_low inv.heights hm hq2 b2 hb2) (not_le.mpr hhigh)
    rw [Bool.eq_false_iff.mpr (fun hc => hnotin ((scontains_iff _ _).mp hc))]
    rfl
  · intro b2 hb2 x hx
    rcases List.mem_map.mp hx with ⟨t, ht, rfl⟩
    show (!((((blocksTable bs).filter (fun br => decide ((br.2 : ℚ) > q))).map
      (·.1)).contains b2.id)) = false
    have hb2bs : b2 ∈ bs := by
      have hx2 := List.take_append_drop m bs
      rw [← hx2]
      exact List.mem_append_right _ hb2
    have hin : b2.id ∈ ((blocksTable bs).filter
        (fun br => decide ((br.2 : ℚ) > q))).map (·.1) := by
      refine List.mem_map.mpr ⟨(b2.id, b2.height), ?_, rfl⟩
      refine List.mem_filter.mpr ⟨List.mem_map_of_mem _ hb2bs, ?_⟩
      exact decide_eq_true (not_le.mp (dropped_high inv.heights hq1 b2 hb2))
    rw [(scontains_iff _ _).mpr hin]
    rfl

lemma rollback_inputs {bs : List Block} {s0 : FullState} (inv : ChainInv bs s0)
    {q : ℚ} {m : Nat} (hm : m ≤ bs.length)
    (hq1 : q < (m : ℚ) + 1) (hq2 : (m : ℚ) ≤ q ∨ m = 0) :
    (rollbackStore s0.store q).inputs = inputsTable (bs.take m) := by
  unfold rollbackStore
  rw [deleteInputsOf_inputs_eq, deleteBlocksAbove_inputs,
    deleteOutputsOf_inputs, resurrectOutputs_inputs,
    deleteOutputsOf_transactions, resurrectOutputs_transactions,
    deleteOutputsOf_blocks, resurrectOutputs_blocks,
    inv.storeInputs, inv.storeTxs, inv.storeBlocks, List.filter_filter]
  have hsplit : inputsTable bs =
      ((journalTxs (bs.take m) ++ journalTxs (bs.drop m)).map
        (fun t => t.inputs.map (fun i => (t.id, i.txId, i.index)))).flatten := by
    rw [← journalTxs_append, List.take_append_drop]
    rfl
  rw [hsplit]
  show _ = ((journalTxs (bs.take m)).map
    (fun t => t.inputs.map (fun i => (t.id, i.txId, i.index)))).flatten
  refine flatten_filter_split _ _ _ _ ?_ ?_
  · intro t ht x hx
    rcases List.mem_map.mp hx with ⟨i, hi, rfl⟩
    have htid : t.id ∈ journalTxIds (bs.take m) := List.mem_map_of_mem (·.id) ht
    have hnd : t.id ∉ journalTxIds (bs.drop m) :=
      txids_take_drop_disjoint inv.txNodup m t.id htid
    have h1 : (doomedTxIds s0.store q).contains t.id = false :=
      Bool.eq_false_iff.mpr (fun hc =>
        hnd ((doomed_mem inv hm hq1 hq2 t.id).mp ((scontains_iff _ _).mp hc)))
    have h2 : (((txsTable bs).filter (fun tr =>
        (((blocksTable bs).filter (fun br => decide ((br.2 : ℚ) > q))).map (·.1)).contains
          tr.2)).map (·.1)).contains t.id = false :=
      Bool.eq_false_iff.mpr (fun hc =>
        hnd (deadT_sub inv hm hq1 hq2 t.id ((scontains_iff _ _).mp hc)))
    show ((!((doomedTxIds s0.store q).contains t.id)) &&
      (!((((txsTable bs).filter (fun tr =>
        (((blocksTable bs).filter (fun br => decide ((br.2 : ℚ) > q))).map (·.1)).contains
          tr.2)).map (·.1)).contains t.id))) = true
    rw [h1, h2]
    rfl
  · intro t ht x hx
    rcases List.mem_map.mp hx with ⟨i, hi, rfl⟩
    have htid : t.id ∈ journalTxIds (bs.drop m) := List.mem_map_of_mem (·.id) ht
    have h1 : (doomedTxIds s0.store q).contains t.id = true :=
      (scontains_iff _ _).mpr ((doomed_mem inv hm hq1 hq2 t.id).mpr htid)
    show ((!((doomedTxIds s0.store q).contains t.id)) &&
      (!((((txsTable bs).filter (fun tr =>
        (((blocksTable bs).filter (fun br => decide ((br.2 : ℚ) > q))).map (·.1)).contains
          tr.2)).map (·.1)).contains t.id))) = false
    rw [h1]
    rfl

/-! ### Rollback: no key is referenced both by a kept and by a dropped input -/

lemma no_cross_ref {bs : List Block}
    (href : ∀ p b2, bs.get? p = some b2 → ∀ t ∈ b2.transactions, ∀ i ∈ t.inputs,
      specUnspent (bs.take p) (inputKey i) ≠ none)
    {m : Nat} {x : String × Nat}
    (h1 : x ∈ spentPairs (journalTxs (bs.take m)))
    (h2 : x ∈ spentPairs (journalTxs (bs.drop m))) : False := by
  rcases (spentPairs_mem_iff _ _).mp h2 with ⟨t, ht, i, hi, hxi⟩
  rcases mem_journalTxs.mp ht with ⟨b2, hb2, htb⟩
  rcases List.mem_iff_get?.mp hb2 with ⟨j, hj⟩
  rw [List.get?_drop] at hj
  have hs := href (m + j) b2 hj t htb i hi
  apply hs
  have hspent : isSpentIn (bs.take (m + j)) (inputKey i) = true := by
    rcases (spentPairs_mem_iff _ _).mp h1 with ⟨t2, ht2, i2, hi2, hxi2⟩
    apply (isSpentIn_iff _ _).mpr
    refine ⟨t2, ?_, i2, hi2, ?_⟩
    · have htk : bs.take m ++ (bs.drop m).take j = bs.take (m + j) := (List.take_add bs m j).symm
      rw [← htk, journalTxs_append]
      exact List.mem_append_left _ ht2
    · have hp : (i2.txId, i2.index) = (i.txId, i.index) := hxi2.trans hxi.symm
      have hp1 : i2.txId = i.txId := congrArg Prod.fst hp
      have hp2 : i2.index = i.index := congrArg Prod.snd hp
      rw [inputKey_eq_outputKey, inputKey_eq_outputKey, hp1, hp2]
  unfold specUnspent
  rw [if_pos hspent]

/-! ### Rollback: the resurrected keys are those spent by dropped inputs -/

lemma keys_mem {bs : List Block} {s0 : FullState} (inv : ChainInv bs s0)
    {q : ℚ} {m : Nat} (hm : m ≤ bs.length)
    (hq1 : q < (m : ℚ) + 1) (hq2 : (m : ℚ) ≤ q ∨ m = 0) (x : String × Nat) :
    x ∈ ((inputsTable bs).filter
        (fun r2 => (doomedTxIds s0.store q).contains r2.1)).map (fun r2 => (r2.2.1, r2.2.2)) ↔
      x ∈ spentPairs (journalTxs (bs.drop m)) := by
  constructor
  · intro hx
    rcases List.mem_map.mp hx with ⟨r2, hr2, rfl⟩
    rcases List.mem_filter.mp hr2 with ⟨hrt, hrd⟩
    rcases inputsTable_mem.mp hrt with ⟨t, ht, i, hi, rfl⟩
    replace hrd : (doomedTxIds s0.store q).contains t.id = true := hrd
    have htidd : t.id ∈ journalTxIds (bs.drop m) :=
      (doomed_mem inv hm hq1 hq2 t.id).mp ((scontains_iff _ _).mp hrd)
    have hsplit : t ∈ journalTxs (bs.take m) ++ journalTxs (bs.drop m) := by
      rw [← journalTxs_append, List.take_append_drop]
      exact ht
    rcases List.mem_append.mp hsplit with hk | hd
    · exact absurd htidd
        (txids_take_drop_disjoint inv.txNodup m t.id (List.mem_map_of_mem (·.id) hk))
    · exact (spentPairs_mem_iff _ _).mpr ⟨t, hd, i, hi, rfl⟩
  · intro hx
    rcases (spentPairs_mem_iff _ _).mp hx with ⟨t, ht, i, hi, hxi⟩
    have htbs : t ∈ journalTxs bs := by
      rw [← List.take_append_drop m bs, journalTxs_append]
      exact List.mem_append_right _ ht
    refine List.mem_map.mpr ⟨(t.id, i.txId, i.index), ?_, by rw [← hxi]⟩
    refine List.mem_filter.mpr ⟨inputsTable_mem.mpr ⟨t, htbs, i, hi, rfl⟩, ?_⟩
    show (doomedTxIds s0.store q).contains t.id = true
    exact (scontains_iff _ _).mpr
      ((doomed_mem inv hm hq1 hq2 t.id).mpr (List.mem_map_of_mem (·.id) ht))

/-! ### Rollback: the outputs relation becomes the flagged rows of the prefix -/

lemma rollback_outputs {bs : List Block} {s0 : FullState} (inv : ChainInv bs s0)
    {q : ℚ} {m : Nat} (hm : m ≤ bs.length)
    (hq1 : q < (m : ℚ) + 1) (hq2 : (m : ℚ) ≤ q ∨ m = 0) :
    (rollbackStore s0.store q).outputs = outRowsFlagged (bs.take m) := by
  unfold rollbackStore
  rw [deleteInputsOf_outputs, deleteBlocksAbove_outputs, deleteOutputsOf_outputs_eq,
    resurrectOutputs_outputs_eq, inv.storeInputs, inv.storeOutputs]
  have hdec : outRowsFlagged bs =
      markRows (outRows (bs.take m))
        (spentPairs (journalTxs (bs.take m)) ++ spentPairs (journalTxs (bs.drop m))) ++
      markRows (outRows (bs.drop m))
        (spentPairs (journalTxs (bs.take m)) ++ spentPairs (journalTxs (bs.drop m))) := by
    unfold outRowsFlagged
    conv_lhs => rw [← List.take_append_drop m bs]
    rw [outRows_append, journalTxs_append, spentPairs_append, markRows_append]
  rw [hdec, List.map_append, List.filter_append]
  have hdroppart : ((markRows (outRows (bs.drop m))
      (spentPairs (journalTxs (bs.take m)) ++ spentPairs (journalTxs (bs.drop m)))).map
        (fun r => if (((inputsTable bs).filter
            (fun r2 => (doomedTxIds s0.store q).contains r2.1)).map
              (fun r2 => (r2.2.1, r2.2.2))).contains (r.txid, r.idx)
          then { r with is_spent := false } else r)).filter
        (fun r => !((doomedTxIds s0.store q).contains r.txid)) = [] := by
    apply List.filter_eq_nil.mpr
    intro y hy
    rcases List.mem_map.mp hy with ⟨r1, hr1, rfl⟩
    rcases mem_markRows hr1 with ⟨r0, hr0, hxid, _⟩
    have htid : r0.txid ∈ journalTxIds (bs.drop m) := outRows_txid hr0
    have hytid : (if (((inputsTable bs).filter
        (fun r2 => (doomedTxIds s0.store q).contains r2.1)).map
          (fun r2 => (r2.2.1, r2.2.2))).contains (r1.txid, r1.idx)
        then ({ r1 with is_spent := false } : OutRow) else r1).txid = r1.txid := by
      split <;> rfl
    rw [hytid, hxid]
    have hc : (doomedTxIds s0.store q).contains r0.txid = true :=
      (scontains_iff _ _).mpr ((doomed_mem inv hm hq1 hq2 r0.txid).mpr htid)
    rw [hc]
    exact Bool.noConfusion
  rw [hdroppart, List.append_nil]
  have hkeeppart : ∀ y ∈ (markRows (outRows (bs.take m))
      (spentPairs (journalTxs (bs.take m)) ++ spentPairs (journalTxs (bs.drop m)))).map
        (fun r => if (((inputsTable bs).filter
            (fun r2 => (doomedTxIds s0.store q).contains r2.1)).map
              (fun r2 => (r2.2.1, r2.2.2))).contains (r.txid, r.idx)
          then { r with is_spent := false } else r),
      (fun r => !((doomedTxIds s0.store q).contains r.txid)) y = true := by
    intro y hy
    rcases List.mem_map.mp hy with ⟨r1, hr1, rfl⟩
    rcases mem_markRows hr1 with ⟨r0, hr0, hxid, _⟩
    rcases outRows_mem hr0 with ⟨t, ht, hrt⟩
    have htid : r0.txid ∈ journalTxIds (bs.take m) := by
      rw [outRowsOf_txid hrt]
      exact List.mem_map_of_mem (·.id) ht
    have hnd : r0.txid ∉ journalTxIds (bs.drop m) :=
      txids_take_drop_disjoint inv.txNodup m r0.txid htid
    have hytid : (if (((inputsTable bs).filter
        (fun r2 => (doomedTxIds s0.store q).contains r2.1)).map
          (fun r2 => (r2.2.1, r2.2.2))).contains (r1.txid, r1.idx)
        then ({ r1 with is_spent := false } : OutRow) else r1).txid = r1.txid := by
      split <;> rfl
    show (!((doomedTxIds s0.store q).contains _)) = true
    rw [hytid, hxid]
    have hc : (doomedTxIds s0.store q).contains r0.txid = false :=
      Bool.eq_false_iff.mpr (fun hcc =>
        hnd ((doomed_mem inv hm hq1 hq2 r0.txid).mp ((scontains_iff _ _).mp hcc)))
    rw [hc]
    rfl
  rw [List.filter_eq_self.mpr hkeeppart]
  rw [markRows_canon, List.map_map]
  unfold outRowsFlagged
  rw [markRows_canon]
  apply List.map_congr_left
  intro r hr
  have hrs : r.is_spent = false := outRows_unspent hr
  show (if (((inputsTable bs).filter
      (fun r2 => (doomedTxIds s0.store q).contains r2.1)).map
        (fun r2 => (r2.2.1, r2.2.2))).contains (r.txid, r.idx)
    then ({ r with is_spent := false } : OutRow)
    else { r with is_spent := (r.is_spent ||
      (spentPairs (journalTxs (bs.take m)) ++
        spentPairs (journalTxs (bs.drop m))).contains (r.txid, r.idx)) }) =
    { r with is_spent := (r.is_spent || (spentPairs (journalTxs (bs.take m))).contains
      (r.txid, r.idx)) }
  by_cases hK : (((inputsTable bs).filter
      (fun r2 => (doomedTxIds s0.store q).contains r2.1)).map
        (fun r2 => (r2.2.1, r2.2.2))).contains (r.txid, r.idx) = true
  · rw [if_pos hK]
    have hP2 : (r.txid, r.idx) ∈ spentPairs (journalTxs (bs.drop m)) :=
      (keys_mem inv hm hq1 hq2 (r.txid, r.idx)).mp ((containsPair_iff _ _).mp hK)
    have hP1 : (spentPairs (journalTxs (bs.take m))).contains (r.txid, r.idx) = false :=
      Bool.eq_false_iff.mpr (fun hc =>
        no_cross_ref inv.refsValid ((containsPair_iff _ _).mp hc) hP2)
    rw [hrs, hP1]
    rfl
  · rw [if_neg hK]
    have hP2 : (spentPairs (journalTxs (bs.drop m))).contains (r.txid, r.idx) = false :=
      Bool.eq_false_iff.mpr (fun hc =>
        hK ((containsPair_iff _ _).mpr
          ((keys_mem inv hm hq1 hq2 (r.txid, r.idx)).mpr ((containsPair_iff _ _).mp hc))))
    rw [containsPair_append, hP2, Bool.or_false]

/-! ### The rebuilt utxo map is the replayed utxo map -/

lemma rebuildSpend_eq (m : UtxoMap × BalMap) (i : Input) :
    rebuildSpend m i =
      match alGet m.1 (inputKey i) with
      | some u =>
          (alDelete m.1 (inputKey i),
           alSet m.2 u.address (jsSubV (jsOrZero (alGet m.2 u.address)) u.value))
      | none => m := rfl

lemma rebuildSpend_fst (m : UtxoMap × BalMap) (i : Input) :
    (rebuildSpend m i).1 = (memSpend m i).1 := by
  rw [memSpend_fst, rebuildSpend_eq]
  cases hg : alGet m.1 (inputKey i) with
  | some u => rfl
  | none => exact (alDelete_of_none hg).symm

lemma rebuildMem_fst (bs : List Block) : (rebuildMem bs).1 = (memOfJournal bs).1 := by
  unfold rebuildMem memOfJournal
  apply fold_fst_congr (fun m b => b.transactions.foldl rebuildTx m) memApplyBlock
  · intro m m' b h
    show (b.transactions.foldl rebuildTx m).1 = (memApplyBlock m' b).1
    unfold memApplyBlock
    apply fold_fst_congr rebuildTx memApplyTx
    · intro m2 m2' t h2
      unfold rebuildTx memApplyTx
      apply fold_fst_congr (memCredit t.id) (memCredit t.id)
      · intro m3 m3' p h3
        rw [memCredit_fst, memCredit_fst, h3]
      · apply fold_fst_congr rebuildSpend memSpend
        · intro m3 m3' i h3
          rw [rebuildSpend_fst, memSpend_fst, memSpend_fst, h3]
        · exact h2
    · exact h
  · rfl

/-! ### The JS rendering of an integer parses back to it -/

lemma natDecimal_ne_nil {n : Nat} : (natDecimal n).data ≠ [] := by
  intro hc
  have hp := parse_natDecimal n
  rw [hc] at hp
  by_cases h0 : n = 0
  · subst h0
    rw [show natDecimal 0 = "0" from rfl] at hc
    exact List.noConfusion hc
  · replace hp : some 0 = some n := hp
    exact h0 (Option.some.inj hp).symm

lemma natDigitsGo_digit (fuel : Nat) :
    ∀ n, ∀ c ∈ natDigitsGo fuel n, ∃ d, d < 10 ∧ c = decDigit d := by
  induction fuel with
  | zero =>
      intro n c hc
      rw [show natDigitsGo 0 n = [] by cases n <;> rfl] at hc
      exact absurd hc (List.not_mem_nil c)
  | succ f ih =>
      intro n
      cases n with
      | zero =>
          intro c hc
          rw [natDigitsGo_zero (f + 1)] at hc
          exact absurd hc (List.not_mem_nil c)
      | succ k =>
          intro c hc
          rcases List.mem_append.mp hc with h | h
          · exact ih _ c h
          · rcases List.mem_singleton.mp h with rfl
            exact ⟨(k + 1) % 10, Nat.mod_lt _ (by norm_num), rfl⟩

lemma natDecimal_head_ne_minus {n : Nat} {c : Char} {rest : List Char}
    (h : (natDecimal n).data = c :: rest) : c ≠ '-' := by
  intro hm
  have hcm : c ∈ (natDecimal n).data := by
    rw [h]
    exact List.mem_cons_self c rest
  by_cases h0 : n = 0
  · subst h0
    rw [show (natDecimal 0).data = ['0'] from rfl] at hcm
    rcases List.mem_singleton.mp hcm with rfl
    exact absurd hm (by decide)
  · have hdata : (natDecimal n).data = natDigitsGo n n := by
      unfold natDecimal
      rw [if_neg h0]
    rw [hdata] at hcm
    rcases natDigitsGo_digit n n c hcm with ⟨d, hd, rfl⟩
    have h1 : (decDigit d).toNat = 48 + d := decDigit_toNat d hd
    rw [hm] at h1
    replace h1 : (45 : Nat) = 48 + d := h1
    omega

lemma parseIntStr_eval_pos {s : String} {c : Char} {rest : List Char}
    (hs : s.data = c :: rest) (hc : c ≠ '-') :
    parseIntStr s = (digitsValGo 0 (c :: rest)).map (fun n => (n : Int)) := by
  unfold parseIntStr
  rw [hs]
  split
  · rename_i h
    exact List.noConfusion h
  · rename_i ds h
    exact absurd (List.cons.inj h).1 hc
  · rfl

lemma parseIntStr_eval_neg {s : String} {ds : List Char}
    (hs : s.data = '-' :: ds) (hne : ds ≠ []) :
    parseIntStr s = (digitsValGo 0 ds).map (fun n => -(n : Int)) := by
  unfold parseIntStr
  rw [hs]
  show (match ds with
    | [] => none
    | _ => (digitsValGo 0 ds).map (fun n => -(n : Int))) = _
  cases hds : ds with
  | nil => exact absurd hds hne
  | cons d tail => rfl

lemma parse_intReprJs (v : Int) : parseIntStr (intReprJs v) = some v := by
  unfold intReprJs
  by_cases hv : v < 0
  · rw [if_pos hv]
    have hne : (natDecimal v.natAbs).data ≠ [] := natDecimal_ne_nil
    have hdata : ("-" ++ natDecimal v.natAbs).data = '-' :: (natDecimal v.natAbs).data := by
      rw [String.data_append]
      rfl
    rw [parseIntStr_eval_neg hdata hne, parse_natDecimal]
    show some (-(v.natAbs : Int)) = some v
    congr 1
    omega
  · rw [if_neg hv]
    rcases hd : (natDecimal v.natAbs).data with _ | ⟨c, rest⟩
    · exact absurd hd natDecimal_ne_nil
    · rw [parseIntStr_eval_pos hd (natDecimal_head_ne_minus hd), ← hd, parse_natDecimal]
      show some ((v.natAbs : Int)) = some v
      congr 1
      omega

lemma dbIntOfJVal_intRepr (v : Int) : dbIntOfJVal (JVal.str (intReprJs v)) = some v :=
  parse_intReprJs v

lemma jvalZ_intRepr (v : Int) : jvalZ (JVal.str (intReprJs v)) = v := by
  show (parseIntStr (intReprJs v)).getD 0 = v
  rw [parse_intReprJs v]
  rfl

/-! ### The rollback pipeline ignores the balances relation -/

lemma rollbackStore_setBal_blocks (st : Store) (bal : List (String × Int)) (q : ℚ) :
    (rollbackStore { st with balances := bal } q).blocks = (rollbackStore st q).blocks := by
  unfold rollbackStore
  rw [deleteInputsOf_blocks, deleteInputsOf_blocks, deleteBlocksAbove_blocks,
    deleteBlocksAbove_blocks, deleteOutputsOf_blocks, deleteOutputsOf_blocks,
    resurrectOutputs_blocks, resurrectOutputs_blocks]

lemma rollbackStore_setBal_transactions (st : Store) (bal : List (String × Int)) (q : ℚ) :
    (rollbackStore { st with balances := bal } q).transactions =
      (rollbackStore st q).transactions := by
  unfold rollbackStore
  rw [deleteInputsOf_transactions, deleteInputsOf_transactions,
    deleteBlocksAbove_transactions, deleteBlocksAbove_transactions,
    deleteOutputsOf_transactions, deleteOutputsOf_transactions,
    resurrectOutputs_transactions, resurrectOutputs_transactions,
    deleteOutputsOf_blocks, deleteOutputsOf_blocks,
    resurrectOutputs_blocks, resurrectOutputs_blocks]

lemma rollbackStore_setBal_inputs (st : Store) (bal : List (String × Int)) (q : ℚ) :
    (rollbackStore { st with balances := bal } q).inputs = (rollbackStore st q).inputs := by
  unfold rollbackStore
  rw [deleteInputsOf_inputs_eq, deleteInputsOf_inputs_eq,
    deleteBlocksAbove_inputs, deleteBlocksAbove_inputs,
    deleteOutputsOf_inputs, deleteOutputsOf_inputs,
    resurrectOutputs_inputs, resurrectOutputs_inputs,
    deleteOutputsOf_transactions, deleteOutputsOf_transactions,
    resurrectOutputs_transactions, resurrectOutputs_transactions,
    deleteOutputsOf_blocks, deleteOutputsOf_blocks,
    resurrectOutputs_blocks, resurrectOutputs_blocks]
  rfl

lemma rollbackStore_setBal_outputs (st : Store) (bal : List (String × Int)) (q : ℚ) :
    (rollbackStore { st with balances := bal } q).outputs = (rollbackStore st q).outputs := by
  unfold rollbackStore
  rw [deleteInputsOf_outputs, deleteInputsOf_outputs,
    deleteBlocksAbove_outputs, deleteBlocksAbove_outputs,
    deleteOutputsOf_outputs_eq, deleteOutputsOf_outputs_eq,
    resurrectOutputs_outputs_eq, resurrectOutputs_outputs_eq]
  rfl

/-! ### Reach-invariant: the rollback and reset steps -/

lemma ReachInv_rollback {s s' : FullState} {t : Option ℚ}
    (hr : ReachInv s) (h : postRollback s t = (s', none)) : ReachInv s' := by
  cases t with
  | none =>
      replace h : ((s, some RbErr.invalidParam) : FullState × Option RbErr) = (s', none) := h
      exact absurd (congrArg Prod.snd h) (fun hc => Option.noConfusion hc)
  | some q =>
      rcases postRollback_ok h with ⟨hq1g, hq2g, hs'⟩
      obtain ⟨s0, hchain, hu, hsb, hst, hsi, hso, hbal, hknd, hsbal, hwin, hzero⟩ := hr
      have inv0 := applyChain_inv s.mem.blocks s0 hchain
      rcases heightsFilter s.mem.blocks q inv0.heights with ⟨m, hm, hft, hmq, hmlt⟩
      have hq1 : q < (m : ℚ) + 1 := by
        by_cases hmlen : m < s.mem.blocks.length
        · exact hmlt hmlen
        · have hmeq : m = s.mem.blocks.length := le_antisymm hm (Nat.le_of_not_lt hmlen)
          have hcast : ((s.mem.blocks.length : ℚ)) = (m : ℚ) := by exact_mod_cast hmeq.symm
          have hw2 := hwin.2
          linarith
      have hmq2 : (m : ℚ) ≤ q := by
        rcases hmq with hx | hx
        · exact hx
        · rw [hx]
          push_cast
          linarith
      have hm0 : m ≠ 0 := by
        intro h0
        rw [h0] at hq1
        push_cast at hq1
        linarith
      have hchainTake : ∃ sm, applyChain initState (s.mem.blocks.take m) = some sm := by
        have happ := applyChain_append (s.mem.blocks.take m) (s.mem.blocks.drop m) initState
        rw [List.take_append_drop, hchain] at happ
        cases hc : applyChain initState (s.mem.blocks.take m) with
        | none =>
            rw [hc] at happ
            replace happ : (some s0 : Option FullState) = none := happ
            exact absurd happ (fun hcc => Option.noConfusion hcc)
        | some sm => exact ⟨sm, rfl⟩
      rcases hchainTake with ⟨sm, hsm⟩
      have invm := applyChain_inv _ sm hsm
      have hstore : s.store = { s0.store with balances := s.store.balances } :=
        store_eq_of hsb hst hsi hso rfl
      have hrbB : (rollbackStore s.store q).blocks = blocksTable (s.mem.blocks.take m) := by
        have hx : (rollbackStore s.store q).blocks = (rollbackStore s0.store q).blocks := by
          rw [hstore]
          exact rollbackStore_setBal_blocks s0.store s.store.balances q
        rw [hx]
        exact rollback_blocks inv0 hft
      have hrbT : (rollbackStore s.store q).transactions =
          txsTable (s.mem.blocks.take m) := by
        have hx : (rollbackStore s.store q).transactions =
            (rollbackStore s0.store q).transactions := by
          rw [hstore]
          exact rollbackStore_setBal_transactions s0.store s.store.balances q
        rw [hx]
        exact rollback_txs inv0 hm hq1 hmq
      have hrbI : (rollbackStore s.store q).inputs = inputsTable (s.mem.blocks.take m) := by
        have hx : (rollbackStore s.store q).inputs = (rollbackStore s0.store q).inputs := by
          rw [hstore]
          exact rollbackStore_setBal_inputs s0.store s.store.balances q
        rw [hx]
        exact rollback_inputs inv0 hm hq1 hmq
      have hrbO : (rollbackStore s.store q).outputs = outRowsFlagged (s.mem.blocks.take m) := by
        have hx : (rollbackStore s.store q).outputs = (rollbackStore s0.store q).outputs := by
          rw [hstore]
          exact rollbackStore_setBal_outputs s0.store s.store.balances q
        rw [hx]
        exact rollback_outputs inv0 hm hq1 hmq
      subst hs'
      refine ⟨sm, ?_, ?_, ?_, ?_, ?_, ?_, ?_, ?_, ?_, ⟨?_, ?_⟩, ?_⟩
      · show applyChain initState
          (s.mem.blocks.filter (fun bl => decide ((bl.height : ℚ) ≤ q))) = some sm
        rw [hft]
        exact hsm
      · show (rebuildMem (s.mem.blocks.filter (fun bl => decide ((bl.height : ℚ) ≤ q)))).1 =
          sm.mem.utxos
        rw [hft, rebuildMem_fst]
        exact (congrArg Prod.fst invm.memEq).symm
      · show (rollbackStore s.store q).blocks = sm.store.blocks
        rw [hrbB]
        exact invm.storeBlocks.symm
      · show (rollbackStore s.store q).transactions = sm.store.transactions
        rw [hrbT]
        exact invm.storeTxs.symm
      · show (rollbackStore s.store q).inputs = sm.store.inputs
        rw [hrbI]
        exact invm.storeInputs.symm
      · show (rollbackStore s.store q).outputs = sm.store.outputs
        rw [hrbO]
        exact invm.storeOutputs.symm
      · intro e he
        rcases List.mem_map.mp he with ⟨e0, _, rfl⟩
        show dbIntOfJVal (JVal.str (intReprJs e0.2)) ≠ none
        rw [dbIntOfJVal_intRepr]
        exact fun hc => Option.noConfusion hc
      · show (((aggUnspent (rollbackStore s.store q).outputs).map
            (fun e => (e.1, JVal.str (intReprJs e.2)))).map (·.1)).Nodup
        rw [List.map_map]
        exact aggUnspent_keys_nodup (rollbackStore s.store q).outputs
      · show ∀ a, alGet (aggUnspent (rollbackStore s.store q).outputs) a =
          (alGet ((aggUnspent (rollbackStore s.store q).outputs).map
            (fun e => (e.1, JVal.str (intReprJs e.2)))) a).map jvalZ
        intro a
        have hx : alGet ((aggUnspent (rollbackStore s.store q).outputs).map
            (fun e => (e.1, JVal.str (intReprJs e.2)))) a =
            (alGet (aggUnspent (rollbackStore s.store q).outputs) a).map
              (fun v => JVal.str (intReprJs v)) :=
          alGet_map_snd (fun v => JVal.str (intReprJs v)) _ a
        cases hg : alGet (aggUnspent (rollbackStore s.store q).outputs) a with
        | none =>
            rw [hx, hg]
            rfl
        | some n =>
            rw [hx, hg]
            show some n = some (jvalZ (JVal.str (intReprJs n)))
            rw [jvalZ_intRepr]
      · show (((s.mem.blocks.filter (fun bl => decide ((bl.height : ℚ) ≤ q))).length : ℚ)) ≤ q
        rw [hft, List.length_take, Nat.min_eq_left hm]
        exact hmq2
      · show q <
          (((s.mem.blocks.filter (fun bl => decide ((bl.height : ℚ) ≤ q))).length : ℚ)) + 1
        rw [hft, List.length_take, Nat.min_eq_left hm]
        exact hq1
      · intro h0
        replace h0 : (s.mem.blocks.filter
            (fun bl => decide ((bl.height : ℚ) ≤ q))).length = 0 := h0
        rw [hft, List.length_take, Nat.min_eq_left hm] at h0
        exact absurd h0 hm0

lemma Reach_inv {s : FullState} (h : Reach s) : ReachInv s := by
  induction h with
  | init => exact ReachInv_init
  | @step s2 op hre hok ih =>
      cases op with
      | blockOp b =>
          rcases hp : postBlock s2 b with ⟨s3, e⟩
          have hok2 : (postBlock s2 b).2.isNone = true := hok
          rw [hp] at hok2
          replace hok2 : e.isNone = true := hok2
          cases e with
          | some e2 => exact Bool.noConfusion hok2
          | none =>
              show ReachInv (postBlock s2 b).1
              rw [hp]
              exact ReachInv_apply ih (by rw [hp])
      | rollbackOp tq =>
          rcases hp : postRollback s2 tq with ⟨s3, e⟩
          have hok2 : (postRollback s2 tq).2.isNone = true := hok
          rw [hp] at hok2
          replace hok2 : e.isNone = true := hok2
          cases e with
          | some e2 => exact Bool.noConfusion hok2
          | none =>
              show ReachInv (postRollback s2 tq).1
              rw [hp]
              exact ReachInv_rollback ih (by rw [hp])
      | resetOp => exact ReachInv_init

/-! ### The rollback success path and balance observables -/

lemma postRollback_succ (s : FullState) (q : ℚ) (h1 : ¬ q < 1)
    (h2 : ¬ q > s.mem.currentHeight) :
    postRollback s (some q) =
      (⟨⟨s.mem.blocks.filter (fun bl => decide ((bl.height : ℚ) ≤ q)), q,
         (aggUnspent (rollbackStore s.store q).outputs).map
           (fun e => (e.1, JVal.str (intReprJs e.2))),
         (rebuildMem (s.mem.blocks.filter (fun bl => decide ((bl.height : ℚ) ≤ q)))).1⟩,
        { rollbackStore s.store q with
          balances := aggUnspent (rollbackStore s.store q).outputs }⟩, none) := by
  show (if q < 1 then ((s, some RbErr.invalidParam) : FullState × Option RbErr)
      else if q > s.mem.currentHeight then (s, some RbErr.targetAbove)
      else (⟨⟨s.mem.blocks.filter (fun bl => decide ((bl.height : ℚ) ≤ q)), q,
          (aggUnspent (rollbackStore s.store q).outputs).map
            (fun e => (e.1, JVal.str (intReprJs e.2))),
          (rebuildMem (s.mem.blocks.filter (fun bl => decide ((bl.height : ℚ) ≤ q)))).1⟩,
          { rollbackStore s.store q with
            balances := aggUnspent (rollbackStore s.store q).outputs }⟩,
          none)) = _
  rw [if_neg h1, if_neg h2]

lemma obsBal_rbMap (rows : List OutRow) (a : String) :
    obsBal ((aggUnspent rows).map (fun e => (e.1, JVal.str (intReprJs e.2)))) a =
      sumUnspentAt rows a := by
  unfold obsBal
  have hx : alGet ((aggUnspent rows).map (fun e => (e.1, JVal.str (intReprJs e.2)))) a =
      (alGet (aggUnspent rows) a).map (fun v => JVal.str (intReprJs v)) :=
    alGet_map_snd (fun v => JVal.str (intReprJs v)) _ a
  rw [hx, alGet_aggUnspent]
  by_cases hh : hasUnspentAt rows a = true
  · rw [if_pos hh]
    show jvalZ (JVal.str (intReprJs (sumUnspentAt rows a))) = sumUnspentAt rows a
    exact jvalZ_intRepr _
  · rw [if_neg hh]
    show (0 : Int) = sumUnspentAt rows a
    have hrf : hasUnspentAt rows a = false := by
      cases hb : hasUnspentAt rows a with
      | false => rfl
      | true => exact absurd hb hh
    rw [sumUnspentAt_zero hrf]

lemma obsBal_mj {bs : List Block} {sk : FullState} (invk : ChainInv bs sk) (a : String) :
    obsBal (memOfJournal bs).2 a = sumUnspentAt (outRowsFlagged bs) a := by
  rw [invk.maps.2.2.2 a, invk.utxoRows, utxoAgg_unspentEntries]

lemma obsBal_chain {bs : List Block} {sk : FullState} (invk : ChainInv bs sk) (a : String) :
    obsBal sk.mem.balances a = sumUnspentAt (outRowsFlagged bs) a := by
  have h0 := congrArg Prod.snd invk.memEq
  have hmem : sk.mem.balances = (memOfJournal bs).2 := h0
  rw [hmem]
  exact obsBal_mj invk a

lemma getBalance_chain {bs : List Block} {sk : FullState} (invk : ChainInv bs sk) (a : String) :
    getBalance sk a = sumUnspentAt (outRowsFlagged bs) a := by
  unfold getBalance
  rw [invk.storeBal a]
  have hob := obsBal_mj invk a
  replace hob : (match alGet (memOfJournal bs).2 a with
    | some v => jvalZ v
    | none => 0) = sumUnspentAt (outRowsFlagged bs) a := hob
  cases hg : alGet (memOfJournal bs).2 a with
  | some v =>
      rw [hg] at hob
      show jvalZ v = sumUnspentAt (outRowsFlagged bs) a
      exact hob
  | none =>
      rw [hg] at hob
      show (0 : Int) = sumUnspentAt (outRowsFlagged bs) a
      exact hob

lemma hasUnspentAt_iff (rows : List OutRow) (a : String) :
    hasUnspentAt rows a = true ↔ ∃ r ∈ rows, r.is_spent = false ∧ r.address = a := by
  unfold hasUnspentAt
  rw [List.any_eq_true]
  constructor
  · rintro ⟨r, hr, hp⟩
    rw [Bool.and_eq_true] at hp
    refine ⟨r, hr, ?_, eq_of_beq hp.2⟩
    cases hb : r.is_spent with
    | false => rfl
    | true =>
        rw [hb] at hp
        exact Bool.noConfusion hp.1
  · rintro ⟨r, hr, h1, h2⟩
    refine ⟨r, hr, ?_⟩
    rw [h1, h2]
    show (!false && (a == a)) = true
    rw [show (!false) = true from rfl, Bool.true_and]
    exact beq_self_eq_true a

/-! ### C1: rollback is replay -/

/-- C1.  For every chain of accepted blocks B1..Bn applied from the empty
    state and every 1 <= k <= n, the rollback to height k is accepted and
    the resulting state agrees with the state obtained by applying only
    B1..Bk from empty on every observable the claim names: the block
    journal, currentHeight, the in-memory UTXO map, the in-memory balance
    map read with absent-means-0, and the balance endpoint. -/
theorem c1_rollback_is_replay (bs : List Block) (s : FullState) (k : Nat)
    (hs : applyChain initState bs = some s) (hk1 : 1 ≤ k) (hk2 : k ≤ bs.length) :
    ∃ s' sk, postRollback s (some (k : ℚ)) = (s', none) ∧
      applyChain initState (bs.take k) = some sk ∧
      s'.mem.blocks = sk.mem.blocks ∧
      s'.mem.currentHeight = sk.mem.currentHeight ∧
      s'.mem.utxos = sk.mem.utxos ∧
      (∀ a, obsBal s'.mem.balances a = obsBal sk.mem.balances a) ∧
      (∀ a, getBalance s' a = getBalance sk a) := by
  have inv := applyChain_inv bs s hs
  have hg1 : ¬ ((k : ℚ) < 1) := by
    have hx : (1 : ℚ) ≤ (k : ℚ) := by exact_mod_cast hk1
    exact not_lt.mpr hx
  have hg2 : ¬ ((k : ℚ) > s.mem.currentHeight) := by
    rw [inv.curEq]
    have hx : (k : ℚ) ≤ (bs.length : ℚ) := by exact_mod_cast hk2
    exact not_lt.mpr hx
  rcases heightsFilter bs ((k : Nat) : ℚ) inv.heights with ⟨m, hm, hft, hmq, hmlt⟩
  have hmk : m = k := by
    rcases hmq with hx | hx
    · have hmk1 : m ≤ k := by exact_mod_cast hx
      by_cases hlen : m < bs.length
      · have hk3 : ((k : Nat) : ℚ) < (m : ℚ) + 1 := hmlt hlen
        have hk4 : k < m + 1 := by exact_mod_cast hk3
        exact le_antisymm hmk1 (Nat.lt_succ_iff.mp hk4)
      · have hmeq : m = bs.length := le_antisymm hm (Nat.le_of_not_lt hlen)
        exact le_antisymm hmk1 (hmeq ▸ hk2)
    · subst hx
      have hlen : 0 < bs.length := lt_of_lt_of_le hk1 hk2
      have hk3 : ((k : Nat) : ℚ) < ((0 : Nat) : ℚ) + 1 := hmlt hlen
      have hk4 : k < 0 + 1 := by exact_mod_cast hk3
      omega
  subst hmk
  have hsucc := postRollback_succ s ((m : Nat) : ℚ) hg1 hg2
  have hex : ∃ sk, applyChain initState (bs.take m) = some sk := by
    have happ := applyChain_append (bs.take m) (bs.drop m) initState
    rw [List.take_append_drop, hs] at happ
    cases hc : applyChain initState (bs.take m) with
    | none =>
        rw [hc] at happ
        replace happ : (some s : Option FullState) = none := happ
        exact absurd happ (fun hcc => Option.noConfusion hcc)
    | some sk => exact ⟨sk, rfl⟩
  rcases hex with ⟨sk, hc⟩
  have invk := applyChain_inv (bs.take m) sk hc
  have hq1k : ((m : Nat) : ℚ) < ((m : Nat) : ℚ) + 1 := lt_add_one _
  have hout : (rollbackStore s.store ((m : Nat) : ℚ)).outputs =
      outRowsFlagged (bs.take m) :=
    rollback_outputs inv hm hq1k (Or.inl (le_refl _))
  refine ⟨_, sk, hsucc, hc, ?_, ?_, ?_, ?_, ?_⟩
  · show s.mem.blocks.filter (fun bl => decide ((bl.height : ℚ) ≤ ((m : Nat) : ℚ))) =
      sk.mem.blocks
    rw [inv.blocksEq, hft]
    exact invk.blocksEq.symm
  · show ((m : Nat) : ℚ) = sk.mem.currentHeight
    rw [invk.curEq, List.length_take, Nat.min_eq_left hm]
  · show (rebuildMem (s.mem.blocks.filter
      (fun bl => decide ((bl.height : ℚ) ≤ ((m : Nat) : ℚ))))).1 = sk.mem.utxos
    rw [inv.blocksEq, hft, rebuildMem_fst]
    have hfst := congrArg Prod.fst invk.memEq
    exact hfst.symm
  · intro a
    show obsBal ((aggUnspent (rollbackStore s.store ((m : Nat) : ℚ)).outputs).map
        (fun e => (e.1, JVal.str (intReprJs e.2)))) a = obsBal sk.mem.balances a
    rw [hout, obsBal_rbMap]
    exact (obsBal_chain invk a).symm
  · intro a
    show (match alGet (aggUnspent (rollbackStore s.store ((m : Nat) : ℚ)).outputs) a with
      | some v => v
      | none => 0) = getBalance sk a
    rw [hout, alGet_aggUnspent]
    have hgb := getBalance_chain invk a
    by_cases hh : hasUnspentAt (outRowsFlagged (bs.take m)) a = true
    · rw [if_pos hh]
      show sumUnspentAt (outRowsFlagged (bs.take m)) a = getBalance sk a
      exact hgb.symm
    · rw [if_neg hh]
      show (0 : Int) = getBalance sk a
      rw [hgb]
      have hrf : hasUnspentAt (outRowsFlagged (bs.take m)) a = false := by
        cases hb : hasUnspentAt (outRowsFlagged (bs.take m)) a with
        | false => rfl
        | true => exact absurd hb hh
      rw [sumUnspentAt_zero hrf]

theorem c1_rollback_is_replay_witness :
    applyChain initState [blk1, blk2] = some st12 ∧
    (∃ s' sk, postRollback st12 (some ((1 : Nat) : ℚ)) = (s', none) ∧
      applyChain initState ([blk1, blk2].take 1) = some sk ∧
      s'.mem.blocks = sk.mem.blocks ∧
      s'.mem.currentHeight = sk.mem.currentHeight ∧
      s'.mem.utxos = sk.mem.utxos ∧
      (∀ a, obsBal s'.mem.balances a = obsBal sk.mem.balances a) ∧
      (∀ a, getBalance s' a = getBalance sk a)) :=
  ⟨by decide, c1_rollback_is_replay [blk1, blk2] st12 1 (by decide) (by decide) (by decide)⟩

/-! ### C8: the UTXO set as the journal difference -/

/-- C8 (amended).  In every state reachable through accepted requests, the
    in-memory UTXO map reads exactly as the specification difference over
    the block journal: a key maps to the first output produced under it
    when no journal input spends it, and to nothing otherwise.  (The
    claim's further assertion that no accepted history can spend the same
    output twice is refuted by c8_double_spend_counterexample.) -/
theorem c8_utxo_characterization {s : FullState} (hr : Reach s) (k : String) :
    alGet s.mem.utxos k = specUnspent s.mem.blocks k := by
  obtain ⟨s0, hchain, hu, _, _, _, _, _, _, _, _⟩ := Reach_inv hr
  have inv := applyChain_inv s.mem.blocks s0 hchain
  rw [hu]
  have h1 := congrArg Prod.fst inv.memEq
  have h2 : s0.mem.utxos = (memOfJournal s.mem.blocks).1 := h1
  rw [h2, inv.utxoRows, unspent_lookup]

theorem c8_utxo_characterization_witness :
    (stepOp initState (Op.blockOp blk1)).2 = true ∧
    alGet (stepOp initState (Op.blockOp blk1)).1.mem.utxos "tx1:0" =
      specUnspent (stepOp initState (Op.blockOp blk1)).1.mem.blocks "tx1:0" :=
  ⟨by decide,
   c8_utxo_characterization (Reach.step (Op.blockOp blk1) Reach.init (by decide)) "tx1:0"⟩

/-! ### C9: empty blocks -/

/-- C9 (amended).  From any reachable state, an empty block is accepted
    iff the height rule holds, its id is the digest of the decimal height
    string alone, and no stored block row already carries its id or its
    height (the blocks primary key / unique height of src/db/schema.ts,
    violated by c9_hash_input_collision_counterexample).  Acceptance
    leaves the in-memory UTXO map, the in-memory balance map, the output
    rows and every balance reading unchanged, appends the block to the
    journal, and increments currentHeight by one. -/
theorem c9_empty_block {s : FullState} {b : Block} (hr : Reach s)
    (hemp : b.transactions = []) :
    ((postBlock s b).2 = none ↔
      (heightOkB s.mem.currentHeight b = true ∧
       b.id = sha256hex (natDecimal b.height) ∧
       s.store.blocks.any (fun r => decide (r.1 = b.id ∨ r.2 = b.height)) = false)) ∧
    ((postBlock s b).2 = none →
      ((postBlock s b).1.mem.utxos = s.mem.utxos ∧
       (postBlock s b).1.mem.balances = s.mem.balances ∧
       (postBlock s b).1.store.outputs = s.store.outputs ∧
       (postBlock s b).1.mem.blocks = s.mem.blocks ++ [b] ∧
       (postBlock s b).1.mem.currentHeight = s.mem.currentHeight + 1 ∧
       (∀ a, getBalance (postBlock s b).1 a = getBalance s a))) := by
  obtain ⟨s0, hchain, hu, hsb, hst, hsi, hso, hbal, hknd, hsbal, hwin, hzero⟩ := Reach_inv hr
  have hbody : validateBody s.mem.utxos b =
      (if b.id = sha256hex (natDecimal b.height) then none
       else some (VErr.invalidBlockId (sha256hex (natDecimal b.height)) b.id
         (natDecimal b.height))) := by
    unfold validateBody hashInputOf
    rw [hemp]
    show (if b.id ≠ sha256hex (natDecimal b.height) then
        some (VErr.invalidBlockId (sha256hex (natDecimal b.height)) b.id (natDecimal b.height))
      else none) = _
    by_cases hid : b.id = sha256hex (natDecimal b.height)
    · rw [if_neg (fun hc => hc hid), if_pos hid]
    · rw [if_pos hid, if_neg hid]
  have hvali : validateBlock s.mem.currentHeight s.mem.utxos b = none ↔
      (heightOkB s.mem.currentHeight b = true ∧
       b.id = sha256hex (natDecimal b.height)) := by
    unfold validateBlock heightOkB
    by_cases h0 : s.mem.currentHeight = 0
    · rw [if_pos h0, if_pos h0]
      by_cases h1 : b.height = 1
      · rw [if_neg (fun hc => hc h1), hbody]
        constructor
        · intro hh
          refine ⟨(beq_iff_eq).mpr h1, ?_⟩
          by_cases hid : b.id = sha256hex (natDecimal b.height)
          · exact hid
          · rw [if_neg hid] at hh
            exact absurd hh (fun hc => Option.noConfusion hc)
        · rintro ⟨_, hid⟩
          rw [if_pos hid]
      · rw [if_pos h1]
        constructor
        · intro hh
          exact absurd hh (fun hc => Option.noConfusion hc)
        · rintro ⟨hh1, _⟩
          exact absurd (eq_of_beq hh1) h1
    · rw [if_neg h0, if_neg h0]
      by_cases hh : (b.height : ℚ) = s.mem.currentHeight + 1
      · rw [if_neg (fun hc => hc hh), hbody]
        constructor
        · intro hx
          refine ⟨decide_eq_true hh, ?_⟩
          by_cases hid : b.id = sha256hex (natDecimal b.height)
          · exact hid
          · rw [if_neg hid] at hx
            exact absurd hx (fun hc => Option.noConfusion hc)
        · rintro ⟨_, hid⟩
          rw [if_pos hid]
      · rw [if_pos hh]
        constructor
        · intro hx
          exact absurd hx (fun hc => Option.noConfusion hc)
        · rintro ⟨hh1, _⟩
          exact absurd (of_decide_eq_true hh1) hh
  have hbs : blockStmts b = [DbStmt.insBlock b.id b.height] := by
    unfold blockStmts
    rw [hemp]
    rfl
  have hmem0 : memApplyBlock (s.mem.utxos, s.mem.balances) b =
      (s.mem.utxos, s.mem.balances) := by
    unfold memApplyBlock
    rw [hemp, List.foldl_nil]
  by_cases hdup : s.store.blocks.any (fun r => decide (r.1 = b.id ∨ r.2 = b.height)) = true
  · have hex : execStmt s.store (DbStmt.insBlock b.id b.height) = none := by
      show (if s.store.blocks.any (fun r => decide (r.1 = b.id ∨ r.2 = b.height)) then
        (none : Option Store)
        else some { s.store with blocks := s.store.blocks ++ [(b.id, b.height)] }) = none
      rw [if_pos hdup]
    have hrunf : runStmts s.store (blockStmts b) = (s.store, false) := by
      rw [hbs]
      show (match execStmt s.store (DbStmt.insBlock b.id b.height) with
        | none => (s.store, false)
        | some st2 => runStmts st2 []) = (s.store, false)
      rw [hex]
    have hlhs : (postBlock s b).2 ≠ none := by
      unfold postBlock
      cases hv : validateBlock s.mem.currentHeight s.mem.utxos b with
      | some e => exact fun hc => Option.noConfusion hc
      | none =>
          rw [hrunf]
          exact fun hc => Option.noConfusion hc
    constructor
    · constructor
      · intro hacc
        exact absurd hacc hlhs
      · rintro ⟨_, _, hfresh⟩
        rw [hdup] at hfresh
        exact Bool.noConfusion hfresh
    · intro hacc
      exact absurd hacc hlhs
  · have hdupf : s.store.blocks.any (fun r => decide (r.1 = b.id ∨ r.2 = b.height)) = false := by
      cases hb2 : s.store.blocks.any (fun r => decide (r.1 = b.id ∨ r.2 = b.height)) with
      | false => rfl
      | true => exact absurd hb2 hdup
    have hex : execStmt s.store (DbStmt.insBlock b.id b.height) =
        some { s.store with blocks := s.store.blocks ++ [(b.id, b.height)] } := by
      show (if s.store.blocks.any (fun r => decide (r.1 = b.id ∨ r.2 = b.height)) then
        (none : Option Store)
        else some { s.store with blocks := s.store.blocks ++ [(b.id, b.height)] }) = _
      rw [hdupf, if_neg (fun hc => Bool.noConfusion hc)]
    have hrun1 : runStmts s.store (blockStmts b) =
        ({ s.store with blocks := s.store.blocks ++ [(b.id, b.height)] }, true) := by
      rw [hbs]
      show (match execStmt s.store (DbStmt.insBlock b.id b.height) with
        | none => (s.store, false)
        | some st2 => runStmts st2 []) = _
      rw [hex]
      rfl
    have hup := upsertBals_parse s.mem.balances
      { s.store with blocks := s.store.blocks ++ [(b.id, b.height)] } hbal
    have hup2 : upsertBals { s.store with blocks := s.store.blocks ++ [(b.id, b.height)] }
        (memApplyBlock (s.mem.utxos, s.mem.balances) b).2 =
        ({ { s.store with blocks := s.store.blocks ++ [(b.id, b.height)] } with balances :=
          (s.mem.balances.foldl (fun (acc : List (String × Int)) (e : String × JVal) =>
            alSet acc e.1 (jvalZ e.2)) s.store.balances) }, true) := by
      rw [hmem0]
      exact hup
    constructor
    · constructor
      · intro hacc
        rcases hp : postBlock s b with ⟨s2, e⟩
        replace hacc : e = none := by
          rw [hp] at hacc
          exact hacc
        subst hacc
        obtain ⟨hval, _, _, _, _, _⟩ := postBlock_ok hp
        exact ⟨(hvali.mp hval).1, (hvali.mp hval).2, hdupf⟩
      · rintro ⟨hhok, hid, _⟩
        have hval : validateBlock s.mem.currentHeight s.mem.utxos b = none :=
          hvali.mpr ⟨hhok, hid⟩
        have hpb := postBlock_build hval hrun1 hup2
        rw [hpb]
    · intro hacc
      rcases hp : postBlock s b with ⟨s2, e⟩
      replace hacc : e = none := by
        rw [hp] at hacc
        exact hacc
      subst hacc
      obtain ⟨hval, st1, st2, hrunx, hupx, hs2⟩ := postBlock_ok hp
      have hst1 : st1 = { s.store with blocks := s.store.blocks ++ [(b.id, b.height)] } := by
        have hx := congrArg Prod.fst (hrun1.symm.trans hrunx)
        exact hx.symm
      subst hst1
      have hcomb := hup2.symm.trans hupx
      have hst2 : ({ { s.store with blocks := s.store.blocks ++ [(b.id, b.height)] } with
          balances := (s.mem.balances.foldl
            (fun (acc : List (String × Int)) (e : String × JVal) =>
              alSet acc e.1 (jvalZ e.2)) s.store.balances) } : Store) = st2 :=
        congrArg Prod.fst hcomb
      subst hs2
      refine ⟨?_, ?_, ?_, ?_, ?_, ?_⟩
      · show (memApplyBlock (s.mem.utxos, s.mem.balances) b).1 = s.mem.utxos
        exact congrArg Prod.fst hmem0
      · show (memApplyBlock (s.mem.utxos, s.mem.balances) b).2 = s.mem.balances
        exact congrArg Prod.snd hmem0
      · show st2.outputs = s.store.outputs
        rw [← hst2]
      · rfl
      · show (b.height : ℚ) = s.mem.currentHeight + 1
        have hhb := validateBlock_none_height hval
        unfold heightOkB at hhb
        by_cases h0 : s.mem.currentHeight = 0
        · rw [if_pos h0] at hhb
          have h1 : b.height = 1 := eq_of_beq hhb
          rw [h1, h0]
          norm_num
        · rw [if_neg h0] at hhb
          exact of_decide_eq_true hhb
      · intro a
        have hbal2 : alGet st2.balances a = alGet s.store.balances a := by
          rw [← hst2]
          show alGet (s.mem.balances.foldl
            (fun (acc : List (String × Int)) (e : String × JVal) =>
              alSet acc e.1 (jvalZ e.2)) s.store.balances) a = alGet s.store.balances a
          rw [upsert_fold_lookup s.mem.balances s.store.balances a hknd]
          cases hg : alGet s.mem.balances a with
          | some v =>
              rw [hsbal a, hg]
              rfl
          | none => rfl
        show (match alGet st2.balances a with
          | some v => v
          | none => 0) =
          (match alGet s.store.balances a with
          | some v => v
          | none => 0)
        rw [hbal2]

theorem c9_empty_block_witness :
    (postBlock initState cEmpty1).2 = none :=
  (c9_empty_block Reach.init rfl).1.mpr ⟨by decide, by decide, by decide⟩

/-! ### C10: the balance map after a rollback -/

/-- C10.  After every successful rollback the in-memory balance map is the
    store aggregate over unspent output rows rendered as strings: it has an
    entry for an address iff the address owns an unspent output row, the
    entry reads as the sum of those rows, the balance endpoint returns that
    same sum, and an address with no unspent output row (in particular one
    whose outputs are all spent) gets 0 from the endpoint. -/
theorem c10_rollback_balances {s s' : FullState} {t : Option ℚ}
    (h : postRollback s t = (s', none)) :
    s'.mem.balances = (aggUnspent s'.store.outputs).map
      (fun e => (e.1, JVal.str (intReprJs e.2))) ∧
    (∀ a, ((alGet s'.mem.balances a).isSome = true ↔
       ∃ r ∈ s'.store.outputs, r.is_spent = false ∧ r.address = a)) ∧
    (∀ a, obsBal s'.mem.balances a = sumUnspentAt s'.store.outputs a) ∧
    (∀ a, getBalance s' a = sumUnspentAt s'.store.outputs a) ∧
    (∀ a, (∀ r ∈ s'.store.outputs, r.is_spent = false → r.address ≠ a) →
       getBalance s' a = 0) := by
  cases t with
  | none =>
      replace h : ((s, some RbErr.invalidParam) : FullState × Option RbErr) = (s', none) := h
      exact absurd (congrArg Prod.snd h) (fun hc => Option.noConfusion hc)
  | some q =>
      rcases postRollback_ok h with ⟨_, _, hs'⟩
      subst hs'
      refine ⟨rfl, ?_, ?_, ?_, ?_⟩
      · intro a
        show (alGet ((aggUnspent (rollbackStore s.store q).outputs).map
            (fun e => (e.1, JVal.str (intReprJs e.2)))) a).isSome = true ↔
          ∃ r ∈ (rollbackStore s.store q).outputs, r.is_spent = false ∧ r.address = a
        have hx : alGet ((aggUnspent (rollbackStore s.store q).outputs).map
            (fun e => (e.1, JVal.str (intReprJs e.2)))) a =
            (alGet (aggUnspent (rollbackStore s.store q).outputs) a).map
              (fun v => JVal.str (intReprJs v)) :=
          alGet_map_snd (fun v => JVal.str (intReprJs v)) _ a
        rw [hx, alGet_aggUnspent]
        by_cases hh : hasUnspentAt (rollbackStore s.store q).outputs a = true
        · rw [if_pos hh]
          exact ⟨fun _ => (hasUnspentAt_iff _ a).mp hh, fun _ => rfl⟩
        · rw [if_neg hh]
          constructor
          · intro hc
            exact absurd hc (fun hc2 => Bool.noConfusion hc2)
          · intro hexx
            exact absurd ((hasUnspentAt_iff _ a).mpr hexx) hh
      · intro a
        show obsBal ((aggUnspent (rollbackStore s.store q).outputs).map
            (fun e => (e.1, JVal.str (intReprJs e.2)))) a =
          sumUnspentAt (rollbackStore s.store q).outputs a
        exact obsBal_rbMap _ a
      · intro a
        show (match alGet (aggUnspent (rollbackStore s.store q).outputs) a with
          | some v => v
          | none => 0) = sumUnspentAt (rollbackStore s.store q).outputs a
        rw [alGet_aggUnspent]
        by_cases hh : hasUnspentAt (rollbackStore s.store q).outputs a = true
        · rw [if_pos hh]
        · rw [if_neg hh]
          have hrf : hasUnspentAt (rollbackStore s.store q).outputs a = false := by
            cases hb : hasUnspentAt (rollbackStore s.store q).outputs a with
            | false => rfl
            | true => exact absurd hb hh
          show (0 : Int) = sumUnspentAt (rollbackStore s.store q).outputs a
          rw [sumUnspentAt_zero hrf]
      · intro a hnone
        have hhf : hasUnspentAt (rollbackStore s.store q).outputs a = false := by
          cases hb : hasUnspentAt (rollbackStore s.store q).outputs a with
          | false => rfl
          | true =>
              rcases (hasUnspentAt_iff _ a).mp hb with ⟨r, hrm, h1, h2⟩
              exact absurd h2 (hnone r hrm h1)
        show (match alGet (aggUnspent (rollbackStore s.store q).outputs) a with
          | some v => v
          | none => (0 : Int)) = (0 : Int)
        rw [alGet_aggUnspent, hhf, if_neg (fun hc => Bool.noConfusion hc)]

set_option maxRecDepth 8000 in
theorem c10_rollback_balances_witness :
    postRollback st1 (some 1) = ((postRollback st1 (some 1)).1, none) ∧
    getBalance (postRollback st1 (some 1)).1 "addr1" =
      sumUnspentAt ((postRollback st1 (some 1)).1).store.outputs "addr1" :=
  ⟨by decide,
   (@c10_rollback_balances st1 ((postRollback st1 (some 1)).1) (some 1)
     (by decide)).2.2.2.1 "addr1"⟩

end Indexer
